import Mathlib

/-!
Verification development for the `ies_rescale` C++ module
(`src/ies_rescale.h`, `src/ies_rescale.cpp`): an IESNA LM-63 photometric
data parser (`convert_stream_to_data` with helpers `ie_get_line`,
`ie_populate_list`, `ie_populate_array`, `ie_read_tilt`), a serializer
(`convert_data_to_buffer`) and a vertical-angle rescaling transform
(`rescale_ies_data`).

Modelling conventions (shallow embedding):

* A byte buffer is modelled as its list of `getline` results: `List Str`
  with `Str := List Char` (one entry per LF-delimited line, the LF itself
  not included).  `ie_get_line` strips one trailing CR and maps an empty
  line to the failure value `[]`, exactly as the C++ helper does.
* C++ `float` values are modelled as rationals (`ℚ`) in the parser and
  serializer, where every operation performed by the code (decimal
  parsing, fixed 2-decimal formatting) is exact rational arithmetic, and
  as real numbers (`ℝ`) in the rescale transform, whose trigonometry is
  the mathematical content of the code.  `int` values are modelled as `ℤ`
  (the inputs exercised by the claims stay far below `INT_MAX`; C++
  overflow behaviour is out of scope).
* `std::istream` numeric extraction is modelled by `readIntTok` /
  `readFloatTok`: skip leading whitespace, optional sign, longest
  digit/decimal-point prefix, ignoring trailing garbage.  The exponent,
  infinity and hexfloat forms accepted by some C++ library stages are not
  modelled; no input appearing in the claims or produced by the
  serializer contains them.
* Failure that the C++ code signals by an empty result is `.fail` /
  `none` / `[]`; a thrown C++ exception (`std::stoi` on a non-numeric
  line, or `std::vector` allocation with a negative count converted to a
  huge `size_t`) is the distinguished value `.fail` vs `.thrown` of
  `PRes`.
* The two loops that the C++ writes with raw pointers are modelled with
  explicit fuel so that every definition is a computable structural
  recursion; the fuel supplied at each call site is sufficient for every
  terminating execution of the C++ loop (see the comments at
  `skipDelims` and `arrLoop`).
-/

namespace IesRescale

/-- Lines of a byte buffer, as produced by `std::getline`. -/
abbrev Str := List Char

/-- Model of C `isspace` (default locale) used by `ie_populate_list` and
`ie_populate_array`. -/
def isSpaceChar (c : Char) : Bool :=
  c = ' ' ∨ c = '\t' ∨ c = '\n' ∨ c = '\x0b' ∨ c = '\x0c' ∨ c = '\r'

/-- Model of C `isdigit`. -/
def isDigitChar (c : Char) : Bool := '0' ≤ c ∧ c ≤ '9'

/-- Numeric value of a digit character. -/
def digitVal (c : Char) : ℕ := c.toNat - 48

/-- Value of a run of digit characters, most significant first (the way
both `std::istream` extraction and `std::stoi` accumulate digits). -/
def digitsVal (ds : Str) : ℕ := ds.foldl (fun a c => 10 * a + digitVal c) 0

/-- `ie_get_line` strips one trailing CR (0x0D) from the line it read and
returns the empty string both for an empty line and at end of input. -/
def stripCR (l : Str) : Str :=
  if l.getLast? = some '\r' then l.dropLast else l

/-- The `memstream` the parser reads from: the underlying buffer's lines
plus the current read position.  `rewind()` resets `pos` to 0. -/
structure MStream where
  buffer : List Str
  pos : ℕ
deriving DecidableEq

/-- Model of `ie_get_line`: the next line with a trailing CR stripped, or
`[]` at end of input (the C++ helper returns `""` in both the
empty-line and end-of-input cases and every caller treats it as failure). -/
def ie_get_line (s : MStream) : Str × MStream :=
  if h : s.pos < s.buffer.length then
    (stripCR (s.buffer.get ⟨s.pos, h⟩), ⟨s.buffer, s.pos + 1⟩)
  else ([], s)

/-- Leading-delimiter skip shared by `ie_populate_list` and
`ie_populate_array` (their first loop): it skips `isspace` characters
only — a comma is NOT skipped here — and fails (`none`) when it reaches
the end of the line. -/
def skipLeadingWs : Str → Option Str
  | [] => none
  | c :: cs => if isSpaceChar c then skipLeadingWs cs else some (c :: cs)

/-- A delimiter in the inter-token skip loops: whitespace or comma. -/
def isDelim (c : Char) : Bool := isSpaceChar c ∨ c = ','

/-- The inter-token delimiter skip loop of `ie_populate_list` and
`ie_populate_array`: skip whitespace and commas, fetching the next line
when the current one is exhausted; fail when a fetched line is empty
(which is also what happens at end of input).  `fuel` bounds the number
of line fetches; the call sites pass `buffer.length + 1`, which is more
than the number of lines left, so the fuel case is never reached. -/
def skipDelims : ℕ → Str → List Str → ℕ → Option (Str × ℕ)
  | 0, cs, _, pos =>
    match cs.dropWhile isDelim with
    | c :: rest => some (c :: rest, pos)
    | [] => none
  | fuel + 1, cs, buffer, pos =>
    match cs.dropWhile isDelim with
    | c :: rest => some (c :: rest, pos)
    | [] =>
      if h : pos < buffer.length then
        if stripCR (buffer.get ⟨pos, h⟩) = [] then none
        else skipDelims fuel (stripCR (buffer.get ⟨pos, h⟩)) buffer (pos + 1)
      else none

/-- `std::istream >> int` (and `std::stoi`): skip whitespace, optional
sign, at least one digit; trailing characters are left unread.  `none`
models the failed state (for `ie_populate_list`) or the
`std::invalid_argument` exception (for `std::stoi`). -/
def readIntTok (cs : Str) : Option ℤ :=
  match cs.dropWhile isSpaceChar with
  | '-' :: rest =>
    let ds := rest.takeWhile isDigitChar
    if ds = [] then none else some (-(digitsVal ds : ℤ))
  | '+' :: rest =>
    let ds := rest.takeWhile isDigitChar
    if ds = [] then none else some (digitsVal ds)
  | rest =>
    let ds := rest.takeWhile isDigitChar
    if ds = [] then none else some (digitsVal ds)

/-- The unsigned part of `std::istream >> float`: digits with at most one
decimal point, at least one digit overall. -/
def readUnsignedFloatTok (cs : Str) : Option ℚ :=
  let ip := cs.takeWhile isDigitChar
  match cs.dropWhile isDigitChar with
  | '.' :: rest2 =>
    let fp := rest2.takeWhile isDigitChar
    if ip = [] ∧ fp = [] then none
    else some ((digitsVal ip : ℚ) + (digitsVal fp : ℚ) / (10 : ℚ) ^ fp.length)
  | _ => if ip = [] then none else some (digitsVal ip)

/-- `std::istream >> float`: skip whitespace, optional sign, then the
unsigned form; trailing characters are left unread. -/
def readFloatTok (cs : Str) : Option ℚ :=
  match cs.dropWhile isSpaceChar with
  | '-' :: rest => (readUnsignedFloatTok rest).map Neg.neg
  | '+' :: rest => readUnsignedFloatTok rest
  | rest => readUnsignedFloatTok rest

/-- `std::stoi` semantics coincide with `std::istream >> int` for base-10
input; `none` corresponds to a thrown `std::invalid_argument`. -/
def stoiM (cs : Str) : Option ℤ := readIntTok cs

/-- The "advance buffer pointer past the substring" loop of the `%d` case
of `ie_populate_list`: it skips digits and `'-'` — independently of how
many characters the stream extraction actually consumed. -/
def advanceInt (cs : Str) : Str :=
  cs.dropWhile (fun c => isDigitChar c ∨ c = '-')

/-- The advance loop of the `%f` case of `ie_populate_list` and of
`ie_populate_array`: it skips digits, `'.'` and `'-'`. -/
def advanceFloat (cs : Str) : Str :=
  cs.dropWhile (fun c => isDigitChar c ∨ c = '.' ∨ c = '-')

/-! ## The data model (`struct IE_Data` of `ies_rescale.h`)

The structure is parametric in the scalar type `α` standing for C++
`float`: the parser and serializer use `IE_Data ℚ`, the rescale
transform `IE_Data ℝ`.  Enumeration-typed fields that the C++ code reads
through an `int*` out-parameter (`units`, `gonio_type`) or assigns from
`std::stoi` through a cast (`tilt.orientation`) are modelled as `ℤ`,
since the code can store any integer in them. -/

/-- `IE_Data::File::Format`. -/
inductive FileFormat
  | IESNA_86
  | IESNA_91
  | IESNA_95
  | IESNA_02
deriving DecidableEq

/-- `IE_Data::File`. -/
structure IEFile where
  name : Str
  format : FileFormat
deriving DecidableEq

/-- `IE_Data::Lamp::Tilt`. -/
structure Tilt (α : Type) where
  orientation : ℤ
  num_pairs : ℤ
  angles : List α
  mult_factors : List α
deriving DecidableEq

/-- The value-initialized (`IE_Data{}`) tilt sub-record: the parser never
touches it when the TILT reference is "NONE". -/
def Tilt.init (α : Type) : Tilt α := ⟨0, 0, [], []⟩

/-- `IE_Data::Lamp`. -/
structure Lamp (α : Type) where
  num_lamps : ℤ
  lumens_lamp : α
  multiplier : α
  tilt_fname : Str
  tilt : Tilt α
deriving DecidableEq

/-- `IE_Data::Dim`. -/
structure Dim (α : Type) where
  width : α
  length : α
  height : α
deriving DecidableEq

/-- `IE_Data::Elec`. -/
structure Elec (α : Type) where
  ball_factor : α
  blp_factor : α
  input_watts : α
deriving DecidableEq

/-- `IE_Data::Photo`. -/
structure Photo (α : Type) where
  gonio_type : ℤ
  num_vert_angles : ℤ
  num_horz_angles : ℤ
  vert_angles : List α
  horz_angles : List α
  candelas : List (List α)
deriving DecidableEq

/-- `IE_Data`. -/
structure IE_Data (α : Type) where
  file : IEFile
  labels : List Str
  lamp : Lamp α
  units : ℤ
  dim : Dim α
  elec : Elec α
  photo : Photo α
deriving DecidableEq

/-! ## `ie_populate_list` (FieldReader) -/

/-- A `%d` or `%f` conversion specifier of `ie_populate_list`'s format
string. -/
inductive TokKind
  | int
  | flt
deriving DecidableEq

/-- A parsed field value. -/
inductive Val
  | i (z : ℤ)
  | f (q : ℚ)
deriving DecidableEq

/-- Parse one token of the requested kind at the current cursor
(`std::istringstream` extraction from `p_buffer`). -/
def parseTok : TokKind → Str → Option Val
  | .int, cs => (readIntTok cs).map .i
  | .flt, cs => (readFloatTok cs).map .f

/-- Advance the cursor past the substring, per token kind. -/
def advanceTok : TokKind → Str → Str
  | .int, cs => advanceInt cs
  | .flt, cs => advanceFloat cs

/-- The per-specifier loop of `ie_populate_list`: parse a token, and if
specifiers remain, skip delimiters (possibly fetching further lines) and
continue.  After the last token the rest of the line is discarded, as in
the C++ code. -/
def tokLoop : TokKind → List TokKind → Str → List Str → ℕ → List Val →
    Option (List Val × ℕ)
  | k, [], cs, _, pos, acc =>
    match parseTok k cs with
    | none => none
    | some v => some (acc ++ [v], pos)
  | k, k2 :: rest2, cs, buffer, pos, acc =>
    match parseTok k cs with
    | none => none
    | some v =>
      match skipDelims (buffer.length + 1) (advanceTok k cs) buffer pos with
      | none => none
      | some (cs2, pos2) => tokLoop k2 rest2 cs2 buffer pos2 (acc ++ [v])

/-- `ie_populate_list`: read the first line, skip leading whitespace
(failing on an exhausted or all-whitespace line), then run the token
loop.  An empty format string makes the C++ function return `false`
before reading any token (`*p_format != '%'`). -/
def ie_populate_list (fmt : List TokKind) (s : MStream) :
    Option (List Val × MStream) :=
  if (ie_get_line s).1 = [] then none
  else
    match skipLeadingWs (ie_get_line s).1 with
    | none => none
    | some cs =>
      match fmt with
      | [] => none
      | k :: rest =>
        match tokLoop k rest cs (ie_get_line s).2.buffer (ie_get_line s).2.pos [] with
        | none => none
        | some (vals, pos') => some (vals, ⟨(ie_get_line s).2.buffer, pos'⟩)

/-! ## `ie_populate_array` (ArrayReader) -/

/-- Result of `ie_populate_array`.  `res` is the returned vector (`.fail`
models the empty vector returned on failure; `.thrown` models the
`std::length_error` thrown by `std::vector` when the negative `int`
count a caller passes is converted to a huge `size_t`).  `writes` is
instrumentation recording, in order, the index of every `array[i++] = ftemp`
store the loop performs; the C++ code has no such output, but the store
indices are determined by the same control flow. -/
inductive ARes
  | ok (arr : List ℚ) (pos : ℕ)
  | fail
  | thrown
deriving DecidableEq

/-- The element loop of `ie_populate_array`.  One recursion step per
parsed element: parse a float, store it at index `i` (an out-of-bounds
store is recorded in `writes` but leaves the list unchanged — in C++ it
is undefined behaviour), stop successfully when `i + 1` equals the
vector size, otherwise advance past the substring and skip delimiters.
For `size ≥ 1` every execution performs at most `size` steps, so the
fuel `size + 1` passed by `ie_populate_array` is never exhausted; for
`size = 0` the C++ loop can only exit through a parse or fetch failure
(or fail to terminate at all, when the cursor makes no progress — e.g.
on a `'+'`-prefixed token — which the model maps to the failure result
when the fuel runs out). -/
def arrLoop : ℕ → ℕ → ℕ → List ℚ → Str → List Str → ℕ → List ℕ →
    ARes × List ℕ
  | 0, _, _, _, _, _, _, ws => (.fail, ws)
  | fuel + 1, i, size, arr, cs, buffer, pos, ws =>
    match readFloatTok cs with
    | none => (.fail, ws)
    | some v =>
      if i + 1 = size then (.ok (arr.set i v) pos, ws ++ [i])
      else
        match skipDelims (buffer.length + 1) (advanceFloat cs) buffer pos with
        | none => (.fail, ws ++ [i])
        | some (cs2, pos2) =>
          arrLoop fuel (i + 1) size (arr.set i v) cs2 buffer pos2 (ws ++ [i])

/-- `ie_populate_array`: read the first line (failure if empty), skip
leading whitespace (failure at end of line), allocate the vector — which
throws for a negative count converted to `size_t` — and run the element
loop. -/
def ie_populate_array (s : MStream) (size : ℤ) : ARes × List ℕ :=
  if (ie_get_line s).1 = [] then (.fail, [])
  else
    match skipLeadingWs (ie_get_line s).1 with
    | none => (.fail, [])
    | some cs =>
      if size < 0 then (.thrown, [])
      else arrLoop (size.toNat + 1) 0 size.toNat (List.replicate size.toNat 0)
        cs (ie_get_line s).2.buffer (ie_get_line s).2.pos []

/-! ## `ie_read_tilt` (TiltParser) and `convert_stream_to_data` -/

/-- Parser outcome: `.ok` a value, `.fail` the empty optional, `.thrown`
an escaped C++ exception. -/
inductive PRes (α : Type)
  | ok (a : α)
  | fail
  | thrown
deriving DecidableEq

/-- The tail of `ie_read_tilt` after the orientation value: the
pair-count line via `std::stoi` (throwing on a non-numeric line), and
for a positive pair count the two float arrays of that length via
`ie_populate_array`. -/
def ie_read_tilt2 (orient : ℤ) (s2 : MStream) : PRes (Tilt ℚ × MStream) :=
  if (ie_get_line s2).1 = [] then .fail
  else
    match stoiM (ie_get_line s2).1 with
    | none => .thrown
    | some np =>
      if 0 < np then
        match (ie_populate_array (ie_get_line s2).2 np).1 with
        | .thrown => .thrown
        | .fail => .fail
        | .ok a pos3 =>
          match (ie_populate_array ⟨(ie_get_line s2).2.buffer, pos3⟩ np).1 with
          | .thrown => .thrown
          | .fail => .fail
          | .ok m pos4 =>
            .ok (⟨orient, np, a, m⟩, ⟨(ie_get_line s2).2.buffer, pos4⟩)
      else .ok (⟨orient, np, [], []⟩, (ie_get_line s2).2)

/-- `ie_read_tilt`: orientation line via `std::stoi` (which THROWS
`std::invalid_argument` on a non-numeric line — modelled as `.thrown`),
then the pair-count line and arrays (`ie_read_tilt2`). -/
def ie_read_tilt (s : MStream) : PRes (Tilt ℚ × MStream) :=
  if (ie_get_line s).1 = [] then .fail
  else
    match stoiM (ie_get_line s).1 with
    | none => .thrown
    | some orient => ie_read_tilt2 orient (ie_get_line s).2

/-- The label-reading loop of `convert_stream_to_data`: append lines to
the label list until a line with the 5-character prefix "TILT=" is
found; an empty line (including end of input) fails.  On success it
returns the labels, the TILT line's suffix after the prefix (the tilt
reference string), and the position after the TILT line.  `fuel` bounds
the number of lines read; callers pass `buffer.length + 1`. -/
def labelLoop : ℕ → List Str → ℕ → List Str → Option (List Str × Str × ℕ)
  | 0, _, _, _ => none
  | fuel + 1, buffer, pos, acc =>
    if h : pos < buffer.length then
      if stripCR (buffer.get ⟨pos, h⟩) = [] then none
      else if (stripCR (buffer.get ⟨pos, h⟩)).take 5 = "TILT=".data then
        some (acc, (stripCR (buffer.get ⟨pos, h⟩)).drop 5, pos + 1)
      else labelLoop fuel buffer (pos + 1)
        (acc ++ [stripCR (buffer.get ⟨pos, h⟩)])
    else none

/-- The candela-row loop of `convert_stream_to_data`: one
`ie_populate_array` call per horizontal angle, failing on the first
empty row. -/
def rowsLoop : ℕ → ℤ → MStream → List (List ℚ) →
    PRes (List (List ℚ) × MStream)
  | 0, _, s, acc => .ok (acc, s)
  | k + 1, size, s, acc =>
    match (ie_populate_array s size).1 with
    | .thrown => .thrown
    | .fail => .fail
    | .ok row pos' => rowsLoop k size ⟨s.buffer, pos'⟩ (acc ++ [row])

/-- The format string `"%d%f%f%d%d%d%d%f%f%f"` of the lamp/photometric
header line. -/
def fmt10 : List TokKind :=
  [.int, .flt, .flt, .int, .int, .int, .int, .flt, .flt, .flt]

/-- The format string `"%f%f%f"` of the electrical line. -/
def fmt3 : List TokKind := [.flt, .flt, .flt]

/-- The tail of `convert_stream_to_data`'s body after the 10 header
fields have been read and bound. -/
def parseBody2 (fmt : FileFormat) (name : Str) (labels : List Str)
    (tilt_str : Str) (tilt : Tilt ℚ) (num_lamps : ℤ) (lumens_lamp : ℚ)
    (multiplier : ℚ) (nV nH gonio_type units : ℤ) (width len height : ℚ)
    (s5 : MStream) : PRes (IE_Data ℚ) :=
  match ie_populate_list fmt3 s5 with
  | none => .fail
  | some vs2 =>
    match vs2.1 with
    | [.f ball_factor, .f blp_factor, .f input_watts] =>
      match (ie_populate_array vs2.2 nV).1 with
      | .thrown => .thrown
      | .fail => .fail
      | .ok vert_angles pos7 =>
        match (ie_populate_array ⟨vs2.2.buffer, pos7⟩ nH).1 with
        | .thrown => .thrown
        | .fail => .fail
        | .ok horz_angles pos8 =>
          match rowsLoop nH.toNat nV ⟨vs2.2.buffer, pos8⟩ [] with
          | .thrown => .thrown
          | .fail => .fail
          | .ok cnd =>
            .ok ⟨⟨name, fmt⟩, labels,
              ⟨num_lamps, lumens_lamp, multiplier, tilt_str, tilt⟩,
              units, ⟨width, len, height⟩,
              ⟨ball_factor, blp_factor, input_watts⟩,
              ⟨gonio_type, nV, nH, vert_angles, horz_angles, cnd.1⟩⟩
    | _ => .fail

/-- The body of `convert_stream_to_data` after the TILT section: the
10-field header line, then (`parseBody2`) the 3-field electrical line,
the two angle arrays and the candela rows. -/
def parseBody (fmt : FileFormat) (name : Str) (labels : List Str)
    (tilt_str : Str) (tilt : Tilt ℚ) (s : MStream) : PRes (IE_Data ℚ) :=
  match ie_populate_list fmt10 s with
  | none => .fail
  | some vs =>
    match vs.1 with
    | [.i num_lamps, .f lumens_lamp, .f multiplier, .i nV, .i nH,
       .i gonio_type, .i units, .f width, .f len, .f height] =>
      parseBody2 fmt name labels tilt_str tilt num_lamps lumens_lamp
        multiplier nV nH gonio_type units width len height vs.2
    | _ => .fail

/-- The TILT section of `convert_stream_to_data`: reference "NONE" leaves
the value-initialized tilt sub-record untouched; "INCLUDE" reads the
tilt data from the same stream; any other reference opens it as an
external file through `env` (the model of `read_file_to_stream`, which
returns `none` for a missing, unreadable or empty file). -/
def parseTiltSection (env : Str → Option (List Str)) (tilt_str : Str)
    (s : MStream) : PRes (Tilt ℚ × MStream) :=
  if tilt_str ≠ "NONE".data then
    if tilt_str ≠ "INCLUDE".data then
      match env tilt_str with
      | none => .fail
      | some tiltBuf =>
        match ie_read_tilt ⟨tiltBuf, 0⟩ with
        | .thrown => .thrown
        | .fail => .fail
        | .ok t => .ok (t.1, s)
    else ie_read_tilt s
  else .ok (Tilt.init ℚ, s)

/-- Everything `convert_stream_to_data` does after the format-detection
block: the label loop, the TILT section and the body. -/
def parseAfterFormat (env : Str → Option (List Str)) (fmt : FileFormat)
    (name : Str) (s : MStream) : PRes (IE_Data ℚ) :=
  match labelLoop (s.buffer.length + 1) s.buffer s.pos [] with
  | none => .fail
  | some lt =>
    match parseTiltSection env lt.2.1 ⟨s.buffer, lt.2.2⟩ with
    | .thrown => .thrown
    | .fail => .fail
    | .ok t => parseBody fmt name lt.1 lt.2.1 t.1 t.2

/-- The first line of an LM-63-1995 file. -/
def tag95 : Str := "IESNA:LM-63-1995".data

/-- The first line of an LM-63-2002 file. -/
def tag02 : Str := "IESNA:LM-63-2002".data

/-- The first line of an LM-63-1991 file. -/
def tag91 : Str := "IESNA91".data

/-- `convert_stream_to_data`: read the first line (failing when it is
empty), match it against the three modern dialect tags — consuming it on
a match — and otherwise record the LM-63-1986 dialect and `rewind()` the
stream so the same line is re-read by the label loop. -/
def convert_stream_to_data (env : Str → Option (List Str)) (name : Str)
    (input : List Str) : PRes (IE_Data ℚ) :=
  if (ie_get_line ⟨input, 0⟩).1 = [] then .fail
  else if (ie_get_line ⟨input, 0⟩).1 = tag95 then
    parseAfterFormat env .IESNA_95 name (ie_get_line ⟨input, 0⟩).2
  else if (ie_get_line ⟨input, 0⟩).1 = tag02 then
    parseAfterFormat env .IESNA_02 name (ie_get_line ⟨input, 0⟩).2
  else if (ie_get_line ⟨input, 0⟩).1 = tag91 then
    parseAfterFormat env .IESNA_91 name (ie_get_line ⟨input, 0⟩).2
  else parseAfterFormat env .IESNA_86 name ⟨input, 0⟩

/-! ## `convert_data_to_buffer` (Serializer)

The byte buffer the serializer produces is modelled as its list of
lines.  Every `append_*` helper in the C++ code terminates a line with
`"\n"` or continues it with `" "`, so the output is an exact
concatenation of the lines below; sections that emit nothing (an empty
tilt array, a non-positive angle count) contribute no line at all, again
exactly as in the C++ code. -/

/-- Little-endian base-10 digits of a natural number, by structural
recursion on a fuel bound (so that the kernel can evaluate it); agrees
with `Nat.digits 10` (see `natDigits_eq`). -/
def natDigitsAux : ℕ → ℕ → List ℕ
  | 0, _ => []
  | _ + 1, 0 => []
  | fuel + 1, n + 1 => (n + 1) % 10 :: natDigitsAux fuel ((n + 1) / 10)

/-- Little-endian base-10 digits. -/
def natDigits (n : ℕ) : List ℕ := natDigitsAux n n

/-- Decimal digit characters of a natural number, most significant
first. -/
def natToDigitChars (n : ℕ) : Str :=
  if n = 0 then ['0'] else ((natDigits n).map Nat.digitChar).reverse

/-- `std::to_string` on `int` (`append_int`). -/
def intToChars (n : ℤ) : Str :=
  if n < 0 then '-' :: natToDigitChars n.natAbs else natToDigitChars n.natAbs

/-- Floor of a rational, computed from the normalized numerator and
denominator with Euclidean division (the kernel can evaluate this,
unlike the classical `Int.floor` instance). -/
def intFloorQ (q : ℚ) : ℤ := Int.ediv q.num q.den

/-- Round a rational to the nearest integer.  (`std::ostream` rounds to
nearest with ties to even; the tie-breaking rule is irrelevant for
values that arise from binary floats, which are never exact ties, so
half-up is an equivalent model on the reachable values.) -/
def roundQ (q : ℚ) : ℤ := intFloorQ (q + 1 / 2)

/-- The value obtained by formatting a float with fixed 2-decimal
precision: the serializer's quantization. -/
def round2 (q : ℚ) : ℚ := (roundQ (q * 100) : ℤ) / 100

/-- `append_float`: format with `std::fixed << std::setprecision(2)`,
strip trailing zeros, then strip a dangling decimal point.  (For a
negative value that rounds to zero the C++ code prints "-0" where this
model prints "0"; both parse back to the same value.) -/
def formatFloat2 (q : ℚ) : Str :=
  let n : ℤ := roundQ (q * 100)
  let whole := n.natAbs / 100
  let frac := n.natAbs % 100
  let sign : Str := if n < 0 then ['-'] else []
  if frac = 0 then sign ++ natToDigitChars whole
  else if frac % 10 = 0 then
    sign ++ natToDigitChars whole ++ '.' :: [Nat.digitChar (frac / 10)]
  else if frac < 10 then
    sign ++ natToDigitChars whole ++ '.' :: ['0', Nat.digitChar frac]
  else
    sign ++ natToDigitChars whole ++ '.' :: [Nat.digitChar (frac / 10), Nat.digitChar (frac % 10)]

/-- Join tokens of one output line with single spaces (each non-final
`append_*` call passes `" "` as terminator, the final one `"\n"`). -/
def joinSp : List Str → Str
  | [] => []
  | [t] => t
  | t :: ts => t ++ ' ' :: joinSp ts

/-- The dialect tag line written by the serializer (the LM-63-1986
dialect serializes as "IESNA86", a line the parser does not recognize). -/
def formatLine : FileFormat → Str
  | .IESNA_95 => "IESNA:LM-63-1995".data
  | .IESNA_02 => "IESNA:LM-63-2002".data
  | .IESNA_91 => "IESNA91".data
  | .IESNA_86 => "IESNA86".data

/-- The TILT section of the serializer: reference "NONE" emits the single
line "TILT=NONE" and no payload; ANY other reference — "INCLUDE" or an
external file name — emits "TILT=INCLUDE", the orientation line, the
pair-count line, and one line per non-empty tilt array (an empty array
emits nothing, not even an empty line). -/
def tiltLines (lamp : Lamp ℚ) : List Str :=
  if lamp.tilt_fname = "NONE".data then
    ["TILT=".data ++ lamp.tilt_fname]
  else
    ["TILT=INCLUDE".data, intToChars lamp.tilt.orientation,
     intToChars lamp.tilt.num_pairs] ++
    (if lamp.tilt.angles = [] then []
     else [joinSp (lamp.tilt.angles.map formatFloat2)]) ++
    (if lamp.tilt.mult_factors = [] then []
     else [joinSp (lamp.tilt.mult_factors.map formatFloat2)])

/-- The 10-token lamp/photometric header line. -/
def headerLine (d : IE_Data ℚ) : Str :=
  joinSp [intToChars d.lamp.num_lamps, formatFloat2 d.lamp.lumens_lamp,
    formatFloat2 d.lamp.multiplier, intToChars d.photo.num_vert_angles,
    intToChars d.photo.num_horz_angles, intToChars d.photo.gonio_type,
    intToChars d.units, formatFloat2 d.dim.width, formatFloat2 d.dim.length,
    formatFloat2 d.dim.height]

/-- The 3-token electrical line. -/
def elecLine (d : IE_Data ℚ) : Str :=
  joinSp [formatFloat2 d.elec.ball_factor, formatFloat2 d.elec.blp_factor,
    formatFloat2 d.elec.input_watts]

/-- An array section: the loop runs over the declared count, reading
`arr[i]` (out of bounds in C++ when the count exceeds the length;
modelled with `getD`), and emits no line at all when the count is not
positive. -/
def arrayLines (count : ℤ) (arr : List ℚ) : List Str :=
  if count.toNat = 0 then []
  else [joinSp ((List.range count.toNat).map (fun i => formatFloat2 (arr.getD i 0)))]

/-- The candela rows: one line per horizontal angle, each with
`num_vert_angles` values; nothing at all when the vertical count is not
positive. -/
def candelaLines (d : IE_Data ℚ) : List Str :=
  if d.photo.num_vert_angles.toNat = 0 then []
  else (List.range d.photo.num_horz_angles.toNat).map (fun i =>
    joinSp ((List.range d.photo.num_vert_angles.toNat).map (fun j =>
      formatFloat2 ((d.photo.candelas.getD i []).getD j 0))))

/-- `convert_data_to_buffer`.  The C++ `switch` has a `default` branch
returning the empty optional for an enum value outside the four
enumerators; the model's closed `FileFormat` type makes that branch
unreachable, and the result is kept in `Option` to reflect the C++
signature. -/
def convert_data_to_buffer (d : IE_Data ℚ) : Option (List Str) :=
  some (formatLine d.file.format :: d.labels ++ tiltLines d.lamp ++
    [headerLine d] ++ [elecLine d] ++
    arrayLines d.photo.num_vert_angles d.photo.vert_angles ++
    arrayLines d.photo.num_horz_angles d.photo.horz_angles ++
    candelaLines d)

/-! ## Equality up to quantization (`IE_Data::operator==`) -/

/-- The record with every float field replaced by its 2-decimal
quantization (`round2`), the comparison key used to express "equal up to
the serializer's quantization". -/
def quantData (d : IE_Data ℚ) : IE_Data ℚ :=
  ⟨d.file, d.labels,
   ⟨d.lamp.num_lamps, round2 d.lamp.lumens_lamp, round2 d.lamp.multiplier,
    d.lamp.tilt_fname,
    ⟨d.lamp.tilt.orientation, d.lamp.tilt.num_pairs,
     d.lamp.tilt.angles.map round2, d.lamp.tilt.mult_factors.map round2⟩⟩,
   d.units,
   ⟨round2 d.dim.width, round2 d.dim.length, round2 d.dim.height⟩,
   ⟨round2 d.elec.ball_factor, round2 d.elec.blp_factor,
    round2 d.elec.input_watts⟩,
   ⟨d.photo.gonio_type, d.photo.num_vert_angles, d.photo.num_horz_angles,
    d.photo.vert_angles.map round2, d.photo.horz_angles.map round2,
    d.photo.candelas.map (fun row => row.map round2)⟩⟩

/-- `IE_Data::operator==`: compares every field EXCEPT `file.name`
(deliberately skipped in `IE_Data::File::operator==`) and INCLUDING
`lamp.tilt_fname`. -/
def beqNoName (a b : IE_Data ℚ) : Bool :=
  a.file.format = b.file.format ∧ a.labels = b.labels ∧ a.lamp = b.lamp ∧
  a.units = b.units ∧ a.dim = b.dim ∧ a.elec = b.elec ∧ a.photo = b.photo

/-- The round-trip check of claim C1 at one input: parse, serialize,
parse again, and compare the first record (quantized) with the second
per `IE_Data::operator==`.  `false` when any stage fails or the records
differ. -/
def roundTripCheck (env : Str → Option (List Str)) (input : List Str) : Bool :=
  match convert_stream_to_data env [] input with
  | .ok r =>
    match convert_data_to_buffer r with
    | some buf =>
      match convert_stream_to_data env [] buf with
      | .ok r2 => beqNoName (quantData r) r2
      | _ => false
    | none => false
  | _ => false

/-! ## `rescale_ies_data` (RescaleTransform)

Modelled over `ℝ` with exact trigonometry.  The C++ code additionally
reads `data.photo.horz_angles[i]` into an unused local (`horz_angle`)
and carries a debug `assert` on `projected_x_scale`; neither affects the
result.  Out-of-range vector indexing (possible in C++ for a record
whose declared counts exceed its array lengths — undefined behaviour) is
modelled by `getD` with default `0`; the theorems below that depend on
indexed cells carry a well-formedness hypothesis making the two
coincide. -/

/-- `degrees * (PI / 180.0)`. -/
noncomputable def degrees_to_radians (d : ℝ) : ℝ := d * (Real.pi / 180)

/-- `radians * (180.0 / PI)`. -/
noncomputable def radians_to_degrees (r : ℝ) : ℝ := r * (180 / Real.pi)

/-- The static threshold `|cos(degrees_to_radians(90 + 1))|` used to
detect near-horizontal vertical angles. -/
noncomputable def threshold_projected_on_y : ℝ :=
  |Real.cos (degrees_to_radians (90 + 1))|

/-- The local `vert_angle_orig` of the rescale loop body: the vertical
angle folded into the lower hemisphere. -/
noncomputable def vertAngleOrig (v : ℝ) : ℝ := if v > 90 then 180 - v else v

/-- The local `vert_angle_orig_rad`. -/
noncomputable def vRad (v : ℝ) : ℝ := degrees_to_radians (vertAngleOrig v)

/-- The local `candela_projected_on_y_orig`. -/
noncomputable def yOrig (c v : ℝ) : ℝ := c * Real.cos (vRad v)

/-- The local `candela_projected_on_x_scaled` (`x0 * projected_x_scale`). -/
noncomputable def xScaled (k c v : ℝ) : ℝ := c * Real.sin (vRad v) * k

/-- The local `scaled_angle` of the rescale loop body (before the
hemisphere unfold): in default mode `atan` of the scaled projection
ratio, in preservation mode `asin` against the original candela; in
both modes the near-horizontal band keeps the folded angle unchanged. -/
noncomputable def scaled_angle (p : Bool) (k c v : ℝ) : ℝ :=
  if p = false then
    if |Real.cos (vRad v)| ≤ threshold_projected_on_y then vertAngleOrig v
    else radians_to_degrees (Real.arctan (xScaled k c v / yOrig c v))
  else
    if |Real.cos (vRad v)| ≤ threshold_projected_on_y then vertAngleOrig v
    else radians_to_degrees (Real.arcsin (xScaled k c v / c))

/-- The local `scaled_candela`: in default mode the magnitude of the
scaled projection, in preservation mode the original candela except on
the near-horizontal band. -/
noncomputable def scaled_candela (p : Bool) (k c v : ℝ) : ℝ :=
  if p = false then
    Real.sqrt (yOrig c v * yOrig c v + xScaled k c v * xScaled k c v)
  else
    if |Real.cos (vRad v)| ≤ threshold_projected_on_y then xScaled k c v
    else c

/-- The per-cell computation of `rescale_ies_data` (only reached for a
positive candela): the pair of the value written to `vert_angles[j]`
(the scaled angle unfolded back into the original hemisphere) and the
value written to `candelas[i][j]`. -/
noncomputable def rescaleCell (preserve_intensity : Bool)
    (projected_x_scale candela vert_angle : ℝ) : ℝ × ℝ :=
  ((if vert_angle > 90 then
      180 - scaled_angle preserve_intensity projected_x_scale candela vert_angle
    else scaled_angle preserve_intensity projected_x_scale candela vert_angle),
   scaled_candela preserve_intensity projected_x_scale candela vert_angle)

/-- The candela value at cell `(i, j)` of a record. -/
def candelaAt (d : IE_Data ℝ) (i j : ℕ) : ℝ :=
  (d.photo.candelas.getD i []).getD j 0

/-- The vertical angle at index `j` of a record. -/
def vertAt (d : IE_Data ℝ) (j : ℕ) : ℝ := d.photo.vert_angles.getD j 0

/-- The inner (vertical-index) loop body of `rescale_ies_data`: skip a
non-positive candela cell, otherwise write the rescaled angle to the
shared `vert_angles[j]` and the rescaled candela to `candelas[i][j]` of
the output record `sd`, reading only from the immutable input `data`. -/
noncomputable def rescaleStep (data : IE_Data ℝ) (preserve_intensity : Bool)
    (projected_x_scale : ℝ) (i : ℕ) (sd : IE_Data ℝ) (j : ℕ) : IE_Data ℝ :=
  if candelaAt data i j ≤ 0 then sd
  else
    { sd with photo := { sd.photo with
        vert_angles := sd.photo.vert_angles.set j
          (rescaleCell preserve_intensity projected_x_scale
            (candelaAt data i j) (vertAt data j)).1,
        candelas := sd.photo.candelas.set i
          ((sd.photo.candelas.getD i []).set j
            (rescaleCell preserve_intensity projected_x_scale
              (candelaAt data i j) (vertAt data j)).2) } }

/-- The outer (horizontal-index) loop body. -/
noncomputable def rescaleRow (data : IE_Data ℝ) (preserve_intensity : Bool)
    (projected_x_scale : ℝ) (sd : IE_Data ℝ) (i : ℕ) : IE_Data ℝ :=
  (List.range data.photo.num_vert_angles.toNat).foldl
    (rescaleStep data preserve_intensity projected_x_scale i) sd

/-- `rescale_ies_data`: reject a cone angle outside `[0, 180]`, compute
the uniform horizontal scale factor `sin(degrees_to_radians(angle * 0.5))`,
copy the input record and rescale every positive candela cell. -/
noncomputable def rescale_ies_data (data : IE_Data ℝ) (rescale_cone_angle : ℝ)
    (preserve_intensity : Bool) : Option (IE_Data ℝ) :=
  if rescale_cone_angle < 0 ∨ rescale_cone_angle > 180 then none
  else
    let projected_x_scale :=
      Real.sin (degrees_to_radians (rescale_cone_angle * 0.5))
    some ((List.range data.photo.num_horz_angles.toNat).foldl
      (rescaleRow data preserve_intensity projected_x_scale) data)

/-- The angle a positive cell `(i, j)` writes into `vert_angles[j]`. -/
noncomputable def cellAngle (d : IE_Data ℝ) (p : Bool) (k : ℝ) (i j : ℕ) : ℝ :=
  (rescaleCell p k (candelaAt d i j) (vertAt d j)).1

/-- The candela a positive cell `(i, j)` writes into `candelas[i][j]`. -/
noncomputable def cellCandela (d : IE_Data ℝ) (p : Bool) (k : ℝ) (i j : ℕ) : ℝ :=
  (rescaleCell p k (candelaAt d i j) (vertAt d j)).2

/-- The last (largest) horizontal row index whose candela at vertical
index `j` is positive — the row whose write to the shared
`vert_angles[j]` survives. -/
noncomputable def lastWriter (d : IE_Data ℝ) (j : ℕ) : Option ℕ :=
  ((List.range d.photo.num_horz_angles.toNat).filter
    (fun i => decide (0 < candelaAt d i j))).getLast?

/-- Well-formedness of a record for the rescale loops: the array lengths
the loops index into match the declared counts (the C++ code indexes out
of bounds otherwise). -/
def RescaleWF (d : IE_Data ℝ) : Prop :=
  d.photo.vert_angles.length = d.photo.num_vert_angles.toNat ∧
  d.photo.candelas.length = d.photo.num_horz_angles.toNat ∧
  ∀ row ∈ d.photo.candelas, row.length = d.photo.num_vert_angles.toNat

/-- The tuple of all record components the rescale loops never write:
everything except `photo.vert_angles` and `photo.candelas`. -/
def frameOf (d : IE_Data ℝ) :
    IEFile × List Str × Lamp ℝ × ℤ × Dim ℝ × Elec ℝ × ℤ × ℤ × ℤ × List ℝ :=
  (d.file, d.labels, d.lamp, d.units, d.dim, d.elec, d.photo.gonio_type,
   d.photo.num_vert_angles, d.photo.num_horz_angles, d.photo.horz_angles)

/-! ## Concrete inputs used by the theorems below -/

/-- A small real-valued record for the rescale witnesses: one
1-by-1 candela table with the single positive candela 1 at vertical
angle 45. -/
def recR : IE_Data ℝ :=
  ⟨⟨[], .IESNA_86⟩, [], ⟨0, 0, 0, [], ⟨0, 0, [], []⟩⟩, 0, ⟨0, 0, 0⟩,
   ⟨0, 0, 0⟩, ⟨0, 1, 1, [45], [0], [[1]]⟩⟩

/-- A 2-by-2 real-valued record for the C8 witness: cell (0,0) has the
non-positive candela -1, both rows have a positive candela at vertical
index 1... rows [[-1, 2], [3, 4]]. -/
def recC8 : IE_Data ℝ :=
  ⟨⟨[], .IESNA_86⟩, [], ⟨0, 0, 0, [], ⟨0, 0, [], []⟩⟩, 0, ⟨0, 0, 0⟩,
   ⟨0, 0, 0⟩, ⟨0, 2, 2, [30, 60], [0, 90], [[-1, 2], [3, 4]]⟩⟩

/-- A 1-by-1 real-valued record whose single vertical angle -100 lies
outside the documented [0, 180] range, with the positive candela 1. -/
def recC6 : IE_Data ℝ :=
  ⟨⟨[], .IESNA_86⟩, [], ⟨0, 0, 0, [], ⟨0, 0, [], []⟩⟩, 0, ⟨0, 0, 0⟩,
   ⟨0, 0, 0⟩, ⟨0, 1, 1, [-100], [0], [[1]]⟩⟩

/-- An environment with no external TILT files (every
`read_file_to_stream` call fails). -/
def env0 : Str → Option (List Str) := fun _ => none

/-- A minimal valid LM-63-2002 document with TILT=NONE: one label, the
10-field header, the electrical line, one vertical angle, one horizontal
angle, one candela row. -/
def docNone : List Str :=
  ["IESNA:LM-63-2002".data, "LBL1".data, "TILT=NONE".data,
   "1 100 1 1 1 1 1 0 0 0".data, "1 1 1".data, "0".data, "0".data, "5".data]

/-- The record `docNone` parses to. -/
def recNone : IE_Data ℚ :=
  ⟨⟨[], .IESNA_02⟩, ["LBL1".data],
   ⟨1, 100, 1, "NONE".data, Tilt.init ℚ⟩, 1, ⟨0, 0, 0⟩, ⟨1, 1, 1⟩,
   ⟨1, 1, 1, [0], [0], [[5]]⟩⟩

/-- A valid LM-63-2002 document with an embedded TILT section of two
pairs. -/
def docTilt : List Str :=
  ["IESNA:LM-63-2002".data, "L".data, "TILT=INCLUDE".data,
   "1".data, "2".data, "10 20".data, "0.5 0.7".data,
   "1 500 1 2 1 1 1 0 0 0".data, "1 1 1".data, "0 90".data, "0".data,
   "5 6.25".data]

/-- A tag-less (LM-63-1986 dialect) document, otherwise identical in
content to `docNone`. -/
def doc86 : List Str :=
  ["LBL".data, "TILT=NONE".data, "1 100 1 1 1 1 1 0 0 0".data,
   "1 1 1".data, "0".data, "0".data, "5".data]

/-- A document whose label section is followed by "TILT=INCLUDE" and a
non-numeric orientation line: `std::stoi("foo")` throws. -/
def docStoi : List Str := ["LBL".data, "TILT=INCLUDE".data, "foo".data]

/-- The record `docTilt` parses to. -/
def recTilt : IE_Data ℚ :=
  ⟨⟨[], .IESNA_02⟩, ["L".data],
   ⟨1, 500, 1, "INCLUDE".data, ⟨1, 2, [10, 20], [1 / 2, 7 / 10]⟩⟩, 1,
   ⟨0, 0, 0⟩, ⟨1, 1, 1⟩, ⟨1, 2, 1, [0, 90], [0], [[5, 25 / 4]]⟩⟩

/-- A record with tilt reference "INCLUDE" and empty tilt arrays
(`num_pairs = 0`), as produced by parsing an embedded TILT section with
pair count 0; all other fields zero. -/
def recTilt0 : IE_Data ℚ :=
  ⟨⟨[], .IESNA_02⟩, [], ⟨0, 0, 0, "INCLUDE".data, ⟨1, 0, [], []⟩⟩, 0,
   ⟨0, 0, 0⟩, ⟨0, 0, 0⟩, ⟨0, 0, 0, [], [], []⟩⟩

/-! ## Invariants of parsed records -/

/-- The tilt-array invariant of a parsed tilt sub-record. -/
def TiltInv (t : Tilt ℚ) : Prop :=
  (0 < t.num_pairs → (t.angles.length : ℤ) = t.num_pairs ∧
    (t.mult_factors.length : ℤ) = t.num_pairs) ∧
  (t.num_pairs ≤ 0 → t.angles = [] ∧ t.mult_factors = [])

/-- The count/length invariant of a parsed photometric section. -/
def PhotoInv (p : Photo ℚ) : Prop :=
  1 ≤ p.num_vert_angles ∧ 1 ≤ p.num_horz_angles ∧
  (p.vert_angles.length : ℤ) = p.num_vert_angles ∧
  (p.horz_angles.length : ℤ) = p.num_horz_angles ∧
  (p.candelas.length : ℤ) = p.num_horz_angles ∧
  ∀ row ∈ p.candelas, (row.length : ℤ) = p.num_vert_angles

/-! ## Canonical serialized tokens (for the round-trip analysis) -/

/-- The character class the `%f` advance loop skips: digits, the decimal
point and the minus sign (`advanceFloat`); every character of a
serialized numeric token belongs to it. -/
def isNumChar (c : Char) : Bool := isDigitChar c ∨ c = '.' ∨ c = '-'

/-- The text the serializer writes for one field value. -/
def canonTok : Val → Str
  | .i z => intToChars z
  | .f q => formatFloat2 q

/-- The conversion specifier under which a field value is re-read. -/
def kindOf : Val → TokKind
  | .i _ => .int
  | .f _ => .flt

/-- The value the parser recovers from a serialized field: integers
exactly, floats up to the serializer's 2-decimal quantization. -/
def canonVal : Val → Val
  | .i z => .i z
  | .f q => .f (round2 q)

/-- The record parsed from `doc86` (whose first line matches no dialect
tag, so the whole document is reprocessed as an LM-63-1986 file). -/
def rec86 : IE_Data ℚ :=
  ⟨⟨[], .IESNA_86⟩, ["LBL".data], ⟨1, 100, 1, "NONE".data, Tilt.init ℚ⟩, 1,
   ⟨0, 0, 0⟩, ⟨1, 1, 1⟩, ⟨1, 1, 1, [0], [0], [[5]]⟩⟩

/-! ## Theorems -/

/-- Claim C2 (code_bug): the claim states that every stage of parsing
signals failure only by returning an empty optional and never raises an
exception.  The code violates this: `ie_read_tilt` converts the
orientation and pair-count lines with `std::stoi`, which throws
`std::invalid_argument` on a non-numeric line, and no caller catches it.
On the document `["LBL", "TILT=INCLUDE", "foo"]` the parse reaches
`std::stoi("foo")` and the exception escapes `convert_stream_to_data`
instead of an empty optional being returned. -/
theorem C2_stoi_exception :
    convert_stream_to_data env0 [] docStoi = .thrown := by decide

/-- Claim C9 counterexample: the claim states that `ie_populate_list`
skips every leading delimiter character including a comma, so that a
first content line beginning with a comma followed by valid tokens still
parses.  In fact the leading-skip loop tests `isspace` only: on the line
",5" the first `%d` conversion sees the comma and fails, while the same
line without the comma parses fine. -/
theorem C9_counterexample :
    ie_populate_list [.int] ⟨[",5".data], 0⟩ = none ∧
    ie_populate_list [.int] ⟨["5".data], 0⟩ = some ([.i 5], ⟨["5".data], 1⟩) := by
  decide

/-- Skipping leading whitespace ignores an all-whitespace prefix. -/
theorem skipLeadingWs_append_ws (w cs : Str) (hw : ∀ c ∈ w, isSpaceChar c) :
    skipLeadingWs (w ++ cs) = skipLeadingWs cs := by
  induction w with
  | nil => rfl
  | cons c w ih =>
    have hc : isSpaceChar c := hw c (by simp)
    simp only [List.cons_append, skipLeadingWs, hc, if_pos]
    exact ih (fun c hc => hw c (by simp [hc]))

/-- An all-whitespace string is skipped to nothing. -/
theorem skipLeadingWs_all_ws (w : Str) (hw : ∀ c ∈ w, isSpaceChar c) :
    skipLeadingWs w = none := by
  have := skipLeadingWs_append_ws w [] hw
  simpa using this

/-- `stripCR` distributes over an append with a non-empty right part. -/
theorem stripCR_append_of_ne_nil (w cs : Str) (h : cs ≠ []) :
    stripCR (w ++ cs) = w ++ stripCR cs := by
  unfold stripCR
  rw [List.getLast?_append_of_ne_nil w h]
  split
  · rw [List.dropLast_append_of_ne_nil w h]
  · rfl

/-- `skipDelims` reads the buffer only at positions at or beyond `pos`:
it gives equal results on buffers that agree there (and in length). -/
theorem skipDelims_congr (fuel : ℕ) (cs : Str) (b1 b2 : List Str) (pos : ℕ)
    (hlen : b1.length = b2.length)
    (hag : ∀ i, pos ≤ i → b1.getD i [] = b2.getD i []) :
    skipDelims fuel cs b1 pos = skipDelims fuel cs b2 pos := by
  induction fuel generalizing cs pos with
  | zero => unfold skipDelims; rfl
  | succ fuel ih =>
    unfold skipDelims
    split
    · rfl
    · have hget : ∀ (h1 : pos < b1.length) (h2 : pos < b2.length),
          b1.get ⟨pos, h1⟩ = b2.get ⟨pos, h2⟩ := by
        intro h1 h2
        have := hag pos le_rfl
        rwa [List.getD_eq_getElem _ _ h1, List.getD_eq_getElem _ _ h2] at this
      by_cases h : pos < b1.length
      · rw [dif_pos h, dif_pos (hlen ▸ h)]
        rw [hget h (hlen ▸ h)]
        split
        · rfl
        · exact ih _ _ (fun i hi => hag i (le_of_lt (Nat.lt_of_succ_le hi)))
      · rw [dif_neg h, dif_neg (hlen ▸ h)]

/-- A successful `skipDelims` never moves the position backwards. -/
theorem skipDelims_pos_ge (fuel : ℕ) (cs : Str) (b : List Str) (pos : ℕ)
    (cs' : Str) (pos' : ℕ) (h : skipDelims fuel cs b pos = some (cs', pos')) :
    pos ≤ pos' := by
  induction fuel generalizing cs pos with
  | zero =>
    unfold skipDelims at h
    split at h
    · cases h; exact le_rfl
    · cases h
  | succ fuel ih =>
    unfold skipDelims at h
    split at h
    · cases h; exact le_rfl
    · split at h
      · split at h
        · cases h
        · exact le_trans (Nat.le_succ pos) (ih _ _ h)
      · cases h

/-- `tokLoop` reads the buffer only at positions at or beyond `pos`. -/
theorem tokLoop_congr (rest : List TokKind) (k : TokKind) (cs : Str)
    (b1 b2 : List Str) (pos : ℕ) (acc : List Val)
    (hlen : b1.length = b2.length)
    (hag : ∀ i, pos ≤ i → b1.getD i [] = b2.getD i []) :
    tokLoop k rest cs b1 pos acc = tokLoop k rest cs b2 pos acc := by
  induction rest generalizing k cs pos acc with
  | nil => unfold tokLoop; split <;> rfl
  | cons k2 rest2 ih =>
    unfold tokLoop
    split
    · rfl
    · rw [skipDelims_congr (b1.length + 1) (advanceTok k cs) b1 b2 pos hlen hag,
        hlen]
      split
      · rfl
      · rename_i cs2 pos2 heq
        exact ih _ _ _ _ (fun i hi =>
          hag i (le_trans (skipDelims_pos_ge _ _ _ _ _ _ heq) hi))

/-- Neither token kind can parse a string whose first character is a
comma. -/
theorem parseTok_comma (k : TokKind) (cs : Str) :
    parseTok k (',' :: cs) = none := by
  cases k <;>
    simp [parseTok, readIntTok, readFloatTok, readUnsignedFloatTok,
      isSpaceChar, isDigitChar, List.dropWhile, List.takeWhile]

/-- `tokLoop` fails on a cursor positioned at a comma. -/
theorem tokLoop_comma (k : TokKind) (rest : List TokKind) (cs : Str)
    (b : List Str) (pos : ℕ) (acc : List Val) :
    tokLoop k rest (',' :: cs) b pos acc = none := by
  cases rest <;> simp [tokLoop, parseTok_comma]

/-- Unfolding of `ie_populate_list` on a stream positioned at the start
of a non-empty buffer. -/
theorem ie_populate_list_cons (fmt : List TokKind) (line : Str) (rest : List Str) :
    ie_populate_list fmt ⟨line :: rest, 0⟩ =
      if stripCR line = [] then none
      else
        match skipLeadingWs (stripCR line) with
        | none => none
        | some cs =>
          match fmt with
          | [] => none
          | k :: kr =>
            match tokLoop k kr cs (line :: rest) 1 [] with
            | none => none
            | some (vals, pos') => some (vals, ⟨line :: rest, pos'⟩) := by
  simp [ie_populate_list, ie_get_line]

/-- A first line whose CR-stripped content is all whitespace makes
`ie_populate_list` fail. -/
theorem ie_populate_list_ws_line (fmt : List TokKind) (line : Str)
    (rest : List Str) (h : ∀ c ∈ stripCR line, isSpaceChar c) :
    ie_populate_list fmt ⟨line :: rest, 0⟩ = none := by
  rw [ie_populate_list_cons]
  by_cases h0 : stripCR line = []
  · rw [if_pos h0]
  · rw [if_neg h0, skipLeadingWs_all_ws _ h]

/-- Claim C9 (amended): before the first token of a field list,
`ie_populate_list` skips LEADING WHITESPACE ONLY — prepending whitespace
to the first content line never changes the parsed values or the final
stream position — while a leading comma is NOT skipped: when the first
non-whitespace character of the first line is a comma, the parse fails
(commas are treated as delimiters only between tokens, by the
inter-token skip). -/
theorem C9_leading_skip (w cs : Str) (fmt : List TokKind) (rest : List Str)
    (hw : ∀ c ∈ w, isSpaceChar c) :
    (ie_populate_list fmt ⟨(w ++ cs) :: rest, 0⟩).map (fun r => (r.1, r.2.pos)) =
      (ie_populate_list fmt ⟨cs :: rest, 0⟩).map (fun r => (r.1, r.2.pos)) ∧
    (∀ cs', skipLeadingWs (stripCR cs) = some (',' :: cs') →
      ie_populate_list fmt ⟨cs :: rest, 0⟩ = none) := by
  constructor
  · by_cases hcs : cs = []
    · subst hcs
      rw [List.append_nil]
      rw [ie_populate_list_ws_line fmt w rest (by
        intro c hc
        unfold stripCR at hc
        split at hc
        · exact hw c (List.dropLast_subset _ hc)
        · exact hw c hc)]
      rw [ie_populate_list_ws_line fmt [] rest (by simp [stripCR])]
    · have hs : stripCR (w ++ cs) = w ++ stripCR cs :=
        stripCR_append_of_ne_nil w cs hcs
      by_cases h0 : stripCR cs = []
      · rw [ie_populate_list_ws_line fmt (w ++ cs) rest (by
          rw [hs, h0, List.append_nil]; exact hw)]
        rw [ie_populate_list_ws_line fmt cs rest (by rw [h0]; simp)]
      · rw [ie_populate_list_cons, ie_populate_list_cons, hs]
        have hne : w ++ stripCR cs ≠ [] := by simp [h0]
        rw [if_neg hne, if_neg h0, skipLeadingWs_append_ws w _ hw]
        cases hsk : skipLeadingWs (stripCR cs) with
        | none => rfl
        | some cs0 =>
          cases fmt with
          | nil => rfl
          | cons k kr =>
            dsimp only
            rw [tokLoop_congr kr k cs0 ((w ++ cs) :: rest) (cs :: rest) 1 []
              (by simp) (fun i hi => ?_)]
            · cases tokLoop k kr cs0 (cs :: rest) 1 [] with
              | none => rfl
              | some r => cases r; rfl
            · match i, hi with
              | i + 1, _ => simp
  · intro cs' hsk
    have h0 : stripCR cs ≠ [] := by
      intro h
      rw [h] at hsk
      simp [skipLeadingWs] at hsk
    rw [ie_populate_list_cons, if_neg h0, hsk]
    dsimp only
    cases fmt with
    | nil => rfl
    | cons k fmtRest =>
      show (match tokLoop k fmtRest (',' :: cs') (cs :: rest) 1 [] with
        | none => none
        | some (vals, pos') =>
          some (vals, (⟨cs :: rest, pos'⟩ : MStream))) = none
      rw [tokLoop_comma]

/-- Every store `arrLoop` performs beyond those already recorded is at
the current index, which stays below `size` as long as it starts there:
the loop invariant behind claim C10. -/
theorem arrLoop_writes_lt (fuel : ℕ) : ∀ (i size : ℕ) (arr : List ℚ)
    (cs : Str) (b : List Str) (pos : ℕ) (ws : List ℕ),
    (∀ w ∈ ws, w < size) → i < size →
    ∀ w ∈ (arrLoop fuel i size arr cs b pos ws).2, w < size := by
  induction fuel with
  | zero => intro i size arr cs b pos ws hws hi; exact hws
  | succ fuel ih =>
    intro i size arr cs b pos ws hws hi
    unfold arrLoop
    split
    · exact hws
    · have hws1 : ∀ w ∈ ws ++ [i], w < size := by
        intro w hw
        rcases List.mem_append.1 hw with h | h
        · exact hws w h
        · simp at h; omega
      split
      · exact hws1
      · split
        · exact hws1
        · rename_i hne _ _ _
          exact ih (i + 1) size _ _ b _ _ hws1 (by omega)

/-- A successful `arrLoop` returns a vector of exactly the requested
size (stores via `List.set` preserve the length), and success is only
possible for a positive size. -/
theorem arrLoop_ok (fuel : ℕ) : ∀ (i size : ℕ) (arr : List ℚ) (cs : Str)
    (b : List Str) (pos : ℕ) (ws : List ℕ) (a : List ℚ) (pos' : ℕ),
    arr.length = size →
    (arrLoop fuel i size arr cs b pos ws).1 = .ok a pos' →
    a.length = size ∧ 1 ≤ size := by
  induction fuel with
  | zero => intro i size arr cs b pos ws a pos' hlen h; cases h
  | succ fuel ih =>
    intro i size arr cs b pos ws a pos' hlen h
    unfold arrLoop at h
    split at h
    · cases h
    · split at h
      · rename_i hsz
        cases h
        constructor
        · rw [List.length_set]; exact hlen
        · omega
      · split at h
        · cases h
        · exact ih _ _ _ _ b _ _ _ _ (by rw [List.length_set]; exact hlen) h

/-- Inversion for a successful `ie_populate_array`: the vector has
exactly the requested length, the requested size was positive, and the
vector is non-empty. -/
theorem ie_populate_array_ok (s : MStream) (size : ℤ) (a : List ℚ)
    (pos' : ℕ) (h : (ie_populate_array s size).1 = .ok a pos') :
    (a.length : ℤ) = size ∧ 1 ≤ size ∧ a ≠ [] := by
  unfold ie_populate_array at h
  split at h
  · cases h
  · split at h
    · cases h
    · split at h
      · cases h
      · rename_i hneg
        have := arrLoop_ok (size.toNat + 1) 0 size.toNat _ _ _ _ _ a pos'
          (by simp) h
        have h1 : (1 : ℤ) ≤ size := by omega
        refine ⟨by omega, h1, ?_⟩
        intro hnil
        rw [hnil] at this
        simp at this
        omega

/-- Claim C10 counterexample: the claim states that for EVERY requested
size, including 0, each element store of `ie_populate_array` is at an
index strictly below the vector's length.  With requested size 0 and the
input line "1" the loop stores the parsed value at index 0 of the
0-length vector — in C++ an out-of-bounds `std::vector::operator[]`
write (undefined behaviour) — because the `i == array.size()` exit test
is checked only after the store and can never hold. -/
theorem C10_counterexample :
    (ie_populate_array ⟨["1".data], 0⟩ 0).2 = [0] ∧
    ¬ (∀ w ∈ (ie_populate_array ⟨["1".data], 0⟩ 0).2, (w : ℤ) < 0) := by
  decide

/-- Claim C10 (amended): for every requested size ≥ 1 each element store
of `ie_populate_array` is at an index strictly below the requested size
(= the vector's length); whenever a non-empty vector is returned its
length equals the requested size; and for a non-positive requested size
(in particular a declared zero vertical- or horizontal-angle count) the
function never succeeds, so no record is produced — but a size-0 call
does perform an out-of-range store first whenever its first token
parses, as the counterexample shows. -/
theorem C10_array_writes (s : MStream) (size : ℤ) :
    (1 ≤ size → ∀ w ∈ (ie_populate_array s size).2, (w : ℤ) < size) ∧
    (∀ a pos', (ie_populate_array s size).1 = .ok a pos' →
      (a.length : ℤ) = size ∧ a ≠ []) ∧
    (size ≤ 0 → ∀ a pos', (ie_populate_array s size).1 ≠ .ok a pos') := by
  refine ⟨?_, ?_, ?_⟩
  · intro h1 w hw
    unfold ie_populate_array at hw
    split at hw
    · cases hw
    · split at hw
      · cases hw
      · split at hw
        · cases hw
        · have := arrLoop_writes_lt (size.toNat + 1) 0 size.toNat _ _ _ _ []
            (by simp) (by omega) w hw
          omega
  · intro a pos' h
    have := ie_populate_array_ok s size a pos' h
    exact ⟨this.1, this.2.2⟩
  · intro hle a pos' h
    have := ie_populate_array_ok s size a pos' h
    omega

/-- Witness for C10: a size-2 read of the line "10 20" stores only at
indices below 2, and a size-0 read can never succeed. -/
theorem C10_array_writes_witness :
    (∀ w ∈ (ie_populate_array ⟨["10 20".data], 0⟩ 2).2, (w : ℤ) < 2) ∧
    (∀ a pos', (ie_populate_array ⟨["1".data], 0⟩ 0).1 ≠ .ok a pos') :=
  ⟨(C10_array_writes ⟨["10 20".data], 0⟩ 2).1 (by decide),
   (C10_array_writes ⟨["1".data], 0⟩ 0).2.2 (by decide)⟩

/-- Witness for C9: prepending a space to the line "5" does not change
the parsed fields, and the line ",5" (first non-whitespace character a
comma) fails. -/
theorem C9_leading_skip_witness :
    (ie_populate_list [.int] ⟨[' ' :: "5".data], 0⟩).map
        (fun r => (r.1, r.2.pos)) =
      (ie_populate_list [.int] ⟨["5".data], 0⟩).map
        (fun r => (r.1, r.2.pos)) ∧
    ie_populate_list [.int] ⟨[",5".data], 0⟩ = none :=
  ⟨(C9_leading_skip [' '] "5".data [.int] [] (by decide)).1,
   (C9_leading_skip [] ",5".data [.int] [] (by decide)).2 "5".data (by decide)⟩

unseal Rat.mul Rat.add Rat.inv in
/-- Claim C3 counterexample: the claim states that for EVERY record with
a non-"NONE" tilt reference the serializer emits "TILT=INCLUDE" followed
by the orientation line, the pair-count line, the angles array line and
the multiplying-factors array line.  For the record `recTilt0`
(reference "INCLUDE", pair count 0, both arrays empty — exactly what
parsing an embedded TILT section with pair count 0 produces) the
serializer emits NO array lines at all: the line right after the
pair-count line "0" is already the 10-field header line. -/
theorem C3_counterexample :
    convert_data_to_buffer recTilt0 =
      some ["IESNA:LM-63-2002".data, "TILT=INCLUDE".data, "1".data,
        "0".data, "0 0 0 0 0 0 0 0 0 0".data, "0 0 0".data] := by
  decide

/-- Claim C3 (amended): a record whose tilt reference string is "NONE"
serializes with the single line "TILT=NONE" and no tilt payload; a
record with ANY other tilt reference — "INCLUDE" or an external file
name, which is never written back as an external reference — serializes
with "TILT=INCLUDE" followed by the orientation code line, the
pair-count line, and then one line per NON-EMPTY tilt array (an empty
angles or multiplying-factors array contributes no line), the header
line coming right after. -/
theorem C3_tilt_serialization (d : IE_Data ℚ) :
    (d.lamp.tilt_fname = "NONE".data →
      convert_data_to_buffer d = some (formatLine d.file.format :: d.labels ++
        ("TILT=".data ++ d.lamp.tilt_fname) :: headerLine d :: elecLine d ::
        (arrayLines d.photo.num_vert_angles d.photo.vert_angles ++
         arrayLines d.photo.num_horz_angles d.photo.horz_angles ++
         candelaLines d))) ∧
    (d.lamp.tilt_fname ≠ "NONE".data →
      convert_data_to_buffer d = some (formatLine d.file.format :: d.labels ++
        "TILT=INCLUDE".data :: intToChars d.lamp.tilt.orientation ::
        intToChars d.lamp.tilt.num_pairs ::
        ((if d.lamp.tilt.angles = [] then []
          else [joinSp (d.lamp.tilt.angles.map formatFloat2)]) ++
         (if d.lamp.tilt.mult_factors = [] then []
          else [joinSp (d.lamp.tilt.mult_factors.map formatFloat2)]) ++
         headerLine d :: elecLine d ::
         (arrayLines d.photo.num_vert_angles d.photo.vert_angles ++
          arrayLines d.photo.num_horz_angles d.photo.horz_angles ++
          candelaLines d)))) := by
  constructor
  · intro h
    simp [convert_data_to_buffer, tiltLines, h]
  · intro h
    simp only [convert_data_to_buffer, tiltLines, h, if_neg,
      Option.some.injEq]
    simp

/-- Witness for C3: the two serialization shapes at the concrete records
`recNone` (reference "NONE") and `recTilt0` (reference "INCLUDE",
empty arrays). -/
theorem C3_tilt_serialization_witness :
    convert_data_to_buffer recNone =
      some (formatLine recNone.file.format :: recNone.labels ++
        ("TILT=".data ++ recNone.lamp.tilt_fname) :: headerLine recNone ::
        elecLine recNone ::
        (arrayLines recNone.photo.num_vert_angles recNone.photo.vert_angles ++
         arrayLines recNone.photo.num_horz_angles recNone.photo.horz_angles ++
         candelaLines recNone)) ∧
    convert_data_to_buffer recTilt0 =
      some (formatLine recTilt0.file.format :: recTilt0.labels ++
        "TILT=INCLUDE".data :: intToChars recTilt0.lamp.tilt.orientation ::
        intToChars recTilt0.lamp.tilt.num_pairs ::
        ((if recTilt0.lamp.tilt.angles = [] then []
          else [joinSp (recTilt0.lamp.tilt.angles.map formatFloat2)]) ++
         (if recTilt0.lamp.tilt.mult_factors = [] then []
          else [joinSp (recTilt0.lamp.tilt.mult_factors.map formatFloat2)]) ++
         headerLine recTilt0 :: elecLine recTilt0 ::
         (arrayLines recTilt0.photo.num_vert_angles recTilt0.photo.vert_angles ++
          arrayLines recTilt0.photo.num_horz_angles recTilt0.photo.horz_angles ++
          candelaLines recTilt0))) :=
  ⟨(C3_tilt_serialization recNone).1 (by decide),
   (C3_tilt_serialization recTilt0).2 (by decide)⟩

/-- Reading the first line of a freshly-opened stream. -/
theorem ie_get_line_cons (l : Str) (rest : List Str) :
    ie_get_line ⟨l :: rest, 0⟩ = (stripCR l, ⟨l :: rest, 1⟩) := by
  simp [ie_get_line]

/-- Claim C4 (confirmed): a document whose first line is exactly one of
the three modern dialect tags parses as that dialect with the tag line
consumed — the rest of the parse is exactly `parseAfterFormat` started
at position 1, so the tag line is seen neither by the label loop nor as
the TILT directive; a document whose first line matches none of the
tags (after CR stripping, as the code compares the stripped line)
parses as the LM-63-1986 dialect with the stream rewound to position 0,
so the same first line is re-offered to the label-or-TILT loop; and the
dialect passed to `parseAfterFormat` is the one recorded in any record
it produces. -/
theorem C4_format_detection (env : Str → Option (List Str)) (name l : Str)
    (rest : List Str) :
    (l = tag95 → convert_stream_to_data env name (l :: rest) =
      parseAfterFormat env .IESNA_95 name ⟨l :: rest, 1⟩) ∧
    (l = tag02 → convert_stream_to_data env name (l :: rest) =
      parseAfterFormat env .IESNA_02 name ⟨l :: rest, 1⟩) ∧
    (l = tag91 → convert_stream_to_data env name (l :: rest) =
      parseAfterFormat env .IESNA_91 name ⟨l :: rest, 1⟩) ∧
    (stripCR l ≠ tag95 → stripCR l ≠ tag02 → stripCR l ≠ tag91 →
      convert_stream_to_data env name (l :: rest) =
        parseAfterFormat env .IESNA_86 name ⟨l :: rest, 0⟩) ∧
    (∀ fmt s r, parseAfterFormat env fmt name s = .ok r →
      r.file.format = fmt) := by
  refine ⟨?_, ?_, ?_, ?_, ?_⟩
  · intro h
    subst h
    unfold convert_stream_to_data
    rw [ie_get_line_cons]
    dsimp only
    rw [if_neg (by decide), if_pos (by decide)]
  · intro h
    subst h
    unfold convert_stream_to_data
    rw [ie_get_line_cons]
    dsimp only
    rw [if_neg (by decide), if_neg (by decide), if_pos (by decide)]
  · intro h
    subst h
    unfold convert_stream_to_data
    rw [ie_get_line_cons]
    dsimp only
    rw [if_neg (by decide), if_neg (by decide), if_neg (by decide),
      if_pos (by decide)]
  · intro h95 h02 h91
    unfold convert_stream_to_data
    rw [ie_get_line_cons]
    dsimp only
    by_cases h0 : stripCR l = []
    · rw [if_pos h0]
      unfold parseAfterFormat
      have : labelLoop ((l :: rest).length + 1) (l :: rest) 0 [] = none := by
        have hlen : (l :: rest).length + 1 = rest.length + 1 + 1 := by simp
        rw [hlen]
        unfold labelLoop
        rw [dif_pos (by simp)]
        simp [List.get, h0]
      rw [this]
    · rw [if_neg h0, if_neg h95, if_neg h02, if_neg h91]
  · intro fmt s r h
    unfold parseAfterFormat at h
    split at h
    · cases h
    · split at h
      · cases h
      · cases h
      · rename_i t heq
        unfold parseBody at h
        split at h
        · cases h
        · split at h
          · unfold parseBody2 at h
            split at h
            · cases h
            · split at h
              · split at h
                · cases h
                · cases h
                · split at h
                  · cases h
                  · cases h
                  · split at h
                    · cases h
                    · cases h
                    · cases h
                      rfl
              · cases h
          · cases h

/-- Witness for C4: the four detection behaviours at concrete first
lines, plus the recorded dialect of the concrete parse of `docNone`. -/
theorem C4_format_detection_witness :
    convert_stream_to_data env0 [] (tag02 :: docNone.drop 1) =
      parseAfterFormat env0 .IESNA_02 [] ⟨tag02 :: docNone.drop 1, 1⟩ ∧
    convert_stream_to_data env0 [] ("LBL".data :: doc86.drop 1) =
      parseAfterFormat env0 .IESNA_86 [] ⟨"LBL".data :: doc86.drop 1, 0⟩ :=
  ⟨(C4_format_detection env0 [] tag02 (docNone.drop 1)).2.1 rfl,
   (C4_format_detection env0 [] "LBL".data (doc86.drop 1)).2.2.2.1
     (by decide) (by decide) (by decide)⟩

/-! ## Inversion lemmas for the parser -/

/-- Inversion for `rowsLoop`: every produced row is either from the
accumulator or has the requested length, and the row count grows by the
iteration count. -/
theorem rowsLoop_ok (k : ℕ) : ∀ (size : ℤ) (s : MStream)
    (acc : List (List ℚ)) (c : List (List ℚ) × MStream),
    rowsLoop k size s acc = .ok c →
    c.1.length = acc.length + k ∧
    ∀ row ∈ c.1, row ∈ acc ∨ (row.length : ℤ) = size := by
  induction k with
  | zero =>
    intro size s acc c h
    cases h
    exact ⟨rfl, fun row hrow => Or.inl hrow⟩
  | succ k ih =>
    intro size s acc c h
    unfold rowsLoop at h
    split at h
    · cases h
    · cases h
    · rename_i row pos' heq
      have hrow := ie_populate_array_ok s size row pos' heq
      have := ih size ⟨s.buffer, pos'⟩ (acc ++ [row]) c h
      refine ⟨by simpa [Nat.add_comm, Nat.add_assoc, Nat.add_left_comm]
        using this.1, ?_⟩
      intro r hr
      rcases this.2 r hr with hmem | hlen
      · rcases List.mem_append.1 hmem with h1 | h1
        · exact Or.inl h1
        · simp at h1
          subst h1
          exact Or.inr hrow.1
      · exact Or.inr hlen

/-- Inversion for `ie_read_tilt`: a successfully parsed tilt sub-record
satisfies the array-length invariant. -/
theorem ie_read_tilt_ok (s : MStream) (t : Tilt ℚ × MStream)
    (h : ie_read_tilt s = .ok t) : TiltInv t.1 := by
  unfold ie_read_tilt at h
  split at h
  · cases h
  · split at h
    · cases h
    · rename_i orient heq0
      unfold ie_read_tilt2 at h
      split at h
      · cases h
      · split at h
        · cases h
        · rename_i np heq1
          split at h
          · rename_i hpos
            split at h
            · cases h
            · cases h
            · rename_i a pos3 ha
              split at h
              · cases h
              · cases h
              · rename_i m pos4 hm
                cases h
                have h1 := ie_populate_array_ok _ np a pos3 ha
                have h2 := ie_populate_array_ok _ np m pos4 hm
                refine ⟨fun _ => ⟨h1.1, h2.1⟩, fun hle => ?_⟩
                dsimp only at hle
                omega
          · cases h
            rename_i hnp
            exact ⟨fun hpos => absurd hpos hnp, fun _ => ⟨rfl, rfl⟩⟩

/-- Inversion for the TILT section: reference "NONE" leaves the
value-initialized tilt sub-record; any other reference yields a tilt
sub-record satisfying the invariant, and the stream position is
unchanged unless the reference was "INCLUDE". -/
theorem parseTiltSection_ok (env : Str → Option (List Str)) (ts : Str)
    (s : MStream) (t : Tilt ℚ × MStream)
    (h : parseTiltSection env ts s = .ok t) :
    (ts = "NONE".data → t.1 = Tilt.init ℚ) ∧
    (ts ≠ "NONE".data → TiltInv t.1) := by
  unfold parseTiltSection at h
  split at h
  · rename_i hne
    constructor
    · intro heq; exact absurd heq hne
    · intro _
      split at h
      · split at h
        · cases h
        · split at h
          · cases h
          · cases h
          · rename_i t' heq
            cases h
            exact ie_read_tilt_ok _ t' heq
      · exact ie_read_tilt_ok _ _ h
  · rename_i hnn
    cases h
    rw [not_not] at hnn
    exact ⟨fun _ => rfl, fun hne => absurd hnn hne⟩

/-- Inversion for `parseBody`: the produced record carries the supplied
name, format, labels, tilt reference and tilt sub-record, and its
photometric section satisfies the count/length invariant. -/
theorem parseBody_ok (fmt : FileFormat) (name : Str) (labels : List Str)
    (ts : Str) (tilt : Tilt ℚ) (s : MStream) (r : IE_Data ℚ)
    (h : parseBody fmt name labels ts tilt s = .ok r) :
    r.file = ⟨name, fmt⟩ ∧ r.labels = labels ∧ r.lamp.tilt_fname = ts ∧
    r.lamp.tilt = tilt ∧ PhotoInv r.photo := by
  unfold parseBody at h
  split at h
  · cases h
  · split at h
    · rename_i num_lamps lumens mult nV nH gonio units w len hgt heq10
      unfold parseBody2 at h
      split at h
      · cases h
      · split at h
        · rename_i bf blpf iw heq3
          split at h
          · cases h
          · cases h
          · rename_i vert pos7 hvert
            split at h
            · cases h
            · cases h
            · rename_i horz pos8 hhorz
              split at h
              · cases h
              · cases h
              · rename_i cnd hrows
                cases h
                have h1 := ie_populate_array_ok _ nV vert pos7 hvert
                have h2 := ie_populate_array_ok _ nH horz pos8 hhorz
                have h3 := rowsLoop_ok nH.toNat nV _ [] cnd hrows
                have hcnd : cnd.1.length = nH.toNat := by simpa using h3.1
                refine ⟨rfl, rfl, rfl, rfl, ?_⟩
                unfold PhotoInv
                dsimp only
                refine ⟨h1.2.1, h2.2.1, h1.1, h2.1, ?_, ?_⟩
                · rw [hcnd]
                  have := h2.2.1
                  omega
                · intro row hrow
                  rcases h3.2 row hrow with hmem | hlen
                  · cases hmem
                  · exact hlen
        · cases h
    · cases h

/-- Inversion for `labelLoop`: every produced label is either from the
accumulator or a non-empty line without the "TILT=" prefix. -/
theorem labelLoop_ok (fuel : ℕ) : ∀ (b : List Str) (pos : ℕ)
    (acc : List Str) (lt : List Str × Str × ℕ),
    labelLoop fuel b pos acc = some lt →
    ∀ l ∈ lt.1, l ∈ acc ∨ (l ≠ [] ∧ l.take 5 ≠ "TILT=".data) := by
  induction fuel with
  | zero => intro b pos acc lt h; cases h
  | succ fuel ih =>
    intro b pos acc lt h
    unfold labelLoop at h
    split at h
    · split at h
      · cases h
      · split at h
        · cases h
          intro l hl
          exact Or.inl hl
        · rename_i hne hpre
          intro l hl
          rcases ih b (pos + 1) _ lt h l hl with hmem | hgood
          · rcases List.mem_append.1 hmem with h1 | h1
            · exact Or.inl h1
            · simp at h1
              subst h1
              exact Or.inr ⟨hne, hpre⟩
          · exact Or.inr hgood
    · cases h

/-- Inversion for `parseAfterFormat`. -/
theorem parseAfterFormat_ok (env : Str → Option (List Str))
    (fmt : FileFormat) (name : Str) (s : MStream) (r : IE_Data ℚ)
    (h : parseAfterFormat env fmt name s = .ok r) :
    r.file = ⟨name, fmt⟩ ∧
    (∀ l ∈ r.labels, l ≠ [] ∧ l.take 5 ≠ "TILT=".data) ∧
    (r.lamp.tilt_fname = "NONE".data → r.lamp.tilt = Tilt.init ℚ) ∧
    (r.lamp.tilt_fname ≠ "NONE".data → TiltInv r.lamp.tilt) ∧
    PhotoInv r.photo := by
  unfold parseAfterFormat at h
  split at h
  · cases h
  · rename_i lt hlab
    split at h
    · cases h
    · cases h
    · rename_i t htilt
      have hb := parseBody_ok fmt name lt.1 lt.2.1 t.1 t.2 r h
      have hts := parseTiltSection_ok env lt.2.1 _ t htilt
      have hfn : r.lamp.tilt_fname = lt.2.1 := hb.2.2.1
      have htl : r.lamp.tilt = t.1 := hb.2.2.2.1
      refine ⟨hb.1, ?_, ?_, ?_, hb.2.2.2.2⟩
      · rw [hb.2.1]
        intro l hl
        rcases labelLoop_ok _ _ _ _ lt hlab l hl with hmem | hgood
        · cases hmem
        · exact hgood
      · intro hnone
        rw [htl]
        exact hts.1 (hfn ▸ hnone)
      · intro hne
        rw [htl]
        exact hts.2 (hfn ▸ hne)

/-- Inversion for `convert_stream_to_data`. -/
theorem convert_ok (env : Str → Option (List Str)) (name : Str)
    (input : List Str) (r : IE_Data ℚ)
    (h : convert_stream_to_data env name input = .ok r) :
    r.file.name = name ∧
    (∀ l ∈ r.labels, l ≠ [] ∧ l.take 5 ≠ "TILT=".data) ∧
    (r.lamp.tilt_fname = "NONE".data → r.lamp.tilt = Tilt.init ℚ) ∧
    (r.lamp.tilt_fname ≠ "NONE".data → TiltInv r.lamp.tilt) ∧
    PhotoInv r.photo := by
  unfold convert_stream_to_data at h
  split at h
  · cases h
  · split at h
    · have := parseAfterFormat_ok env _ name _ r h
      exact ⟨by rw [this.1], this.2⟩
    · split at h
      · have := parseAfterFormat_ok env _ name _ r h
        exact ⟨by rw [this.1], this.2⟩
      · split at h
        · have := parseAfterFormat_ok env _ name _ r h
          exact ⟨by rw [this.1], this.2⟩
        · have := parseAfterFormat_ok env _ name _ r h
          exact ⟨by rw [this.1], this.2⟩

/-- Claim C7 (confirmed): in every successfully parsed record, a tilt
reference of "NONE" leaves the tilt sub-record absent (the
value-initialized sentinel, never parsed); any other successfully
parsed reference yields a tilt sub-record whose `angles` and
`mult_factors` both have length `num_pairs` when `num_pairs > 0` and
are both empty when `num_pairs ≤ 0`. -/
theorem C7_tilt_invariant (env : Str → Option (List Str)) (name : Str)
    (input : List Str) (r : IE_Data ℚ)
    (h : convert_stream_to_data env name input = .ok r) :
    (r.lamp.tilt_fname = "NONE".data → r.lamp.tilt = Tilt.init ℚ) ∧
    (r.lamp.tilt_fname ≠ "NONE".data →
      (0 < r.lamp.tilt.num_pairs →
        (r.lamp.tilt.angles.length : ℤ) = r.lamp.tilt.num_pairs ∧
        (r.lamp.tilt.mult_factors.length : ℤ) = r.lamp.tilt.num_pairs) ∧
      (r.lamp.tilt.num_pairs ≤ 0 →
        r.lamp.tilt.angles = [] ∧ r.lamp.tilt.mult_factors = [])) :=
  ⟨(convert_ok env name input r h).2.2.1,
   (convert_ok env name input r h).2.2.2.1⟩

unseal Rat.mul Rat.add Rat.inv in
/-- Witness for C7: the concrete document `docTilt` (embedded TILT with
pair count 2) parses to `recTilt`, whose tilt arrays both have length
2. -/
theorem C7_tilt_invariant_witness :
    convert_stream_to_data env0 [] docTilt = .ok recTilt ∧
    (recTilt.lamp.tilt.angles.length : ℤ) = recTilt.lamp.tilt.num_pairs ∧
    (recTilt.lamp.tilt.mult_factors.length : ℤ) =
      recTilt.lamp.tilt.num_pairs :=
  ⟨by decide,
   ((C7_tilt_invariant env0 [] docTilt recTilt (by decide)).2
     (by decide)).1 (by decide)⟩

/-! ## Rescale: validation and frame (claim C5) -/

/-- A fold whose step preserves a projection preserves it overall. -/
theorem foldl_preserve {α β γ : Type _} (f : α → β → α) (g : α → γ)
    (h : ∀ a b, g (f a b) = g a) :
    ∀ (l : List β) (a : α), g (List.foldl f a l) = g a := by
  intro l
  induction l with
  | nil => intro a; rfl
  | cons b l ih => intro a; rw [List.foldl_cons, ih, h]

/-- One rescale cell step never writes any frame component. -/
theorem rescaleStep_frame (data : IE_Data ℝ) (p : Bool) (k : ℝ) (i : ℕ)
    (sd : IE_Data ℝ) (j : ℕ) :
    frameOf (rescaleStep data p k i sd j) = frameOf sd := by
  unfold rescaleStep
  split <;> rfl

/-- The whole rescale double loop never writes any frame component. -/
theorem rescaleFold_frame (data : IE_Data ℝ) (p : Bool) (k : ℝ)
    (sd : IE_Data ℝ) :
    frameOf ((List.range data.photo.num_horz_angles.toNat).foldl
      (rescaleRow data p k) sd) = frameOf sd := by
  refine foldl_preserve _ frameOf (fun a i => ?_) _ sd
  unfold rescaleRow
  exact foldl_preserve _ frameOf (rescaleStep_frame data p k i) _ a

/-- Claim C5 (confirmed): `rescale_ies_data` fails (returns the empty
optional, touching nothing) for a cone angle strictly below 0 or
strictly above 180, and succeeds for every angle in `[0, 180]` —
including both boundary values; whenever it succeeds, the returned
record agrees with the input on every field other than
`photo.vert_angles` and `photo.candelas`: `file` (name and format),
`labels`, the whole `lamp` (including the tilt sub-record and reference
string), `units`, `dim`, `elec`, `photo.gonio_type`, the two angle
counts, and `horz_angles`.  The input record itself is never mutated —
in this functional model `rescale_ies_data` builds its result from a
copy, exactly as the C++ code copies `data` into `scaled_data`. -/
theorem C5_rescale_validation_frame (d : IE_Data ℝ) (angle : ℝ) (p : Bool) :
    ((angle < 0 ∨ angle > 180) → rescale_ies_data d angle p = none) ∧
    (0 ≤ angle → angle ≤ 180 →
      ∃ d', rescale_ies_data d angle p = some d' ∧
        d'.file = d.file ∧ d'.labels = d.labels ∧ d'.lamp = d.lamp ∧
        d'.units = d.units ∧ d'.dim = d.dim ∧ d'.elec = d.elec ∧
        d'.photo.gonio_type = d.photo.gonio_type ∧
        d'.photo.num_vert_angles = d.photo.num_vert_angles ∧
        d'.photo.num_horz_angles = d.photo.num_horz_angles ∧
        d'.photo.horz_angles = d.photo.horz_angles) := by
  constructor
  · intro h
    unfold rescale_ies_data
    rw [if_pos h]
  · intro h0 h180
    have hcond : ¬ (angle < 0 ∨ angle > 180) := by
      push_neg
      exact ⟨h0, h180⟩
    refine ⟨(List.range d.photo.num_horz_angles.toNat).foldl
      (rescaleRow d p (Real.sin (degrees_to_radians (angle * 0.5)))) d,
      ?_, ?_⟩
    · unfold rescale_ies_data
      rw [if_neg hcond]
    · have hf := rescaleFold_frame d p
        (Real.sin (degrees_to_radians (angle * 0.5))) d
      unfold frameOf at hf
      simp only [Prod.mk.injEq] at hf
      exact ⟨hf.1, hf.2.1, hf.2.2.1, hf.2.2.2.1, hf.2.2.2.2.1,
        hf.2.2.2.2.2.1, hf.2.2.2.2.2.2.1, hf.2.2.2.2.2.2.2.1,
        hf.2.2.2.2.2.2.2.2.1, hf.2.2.2.2.2.2.2.2.2⟩

/-- Witness for C5: at the concrete record `recR`, the out-of-range
angles 190 and -10 fail, and the boundary angles 0 and 180 succeed with
the frame preserved. -/
theorem C5_rescale_validation_frame_witness :
    rescale_ies_data recR 190 false = none ∧
    rescale_ies_data recR (-10) false = none ∧
    (∃ d', rescale_ies_data recR 0 false = some d' ∧
        d'.file = recR.file ∧ d'.labels = recR.labels ∧
        d'.lamp = recR.lamp ∧ d'.units = recR.units ∧ d'.dim = recR.dim ∧
        d'.elec = recR.elec ∧
        d'.photo.gonio_type = recR.photo.gonio_type ∧
        d'.photo.num_vert_angles = recR.photo.num_vert_angles ∧
        d'.photo.num_horz_angles = recR.photo.num_horz_angles ∧
        d'.photo.horz_angles = recR.photo.horz_angles) ∧
    (∃ d', rescale_ies_data recR 180 false = some d' ∧
        d'.file = recR.file ∧ d'.labels = recR.labels ∧
        d'.lamp = recR.lamp ∧ d'.units = recR.units ∧ d'.dim = recR.dim ∧
        d'.elec = recR.elec ∧
        d'.photo.gonio_type = recR.photo.gonio_type ∧
        d'.photo.num_vert_angles = recR.photo.num_vert_angles ∧
        d'.photo.num_horz_angles = recR.photo.num_horz_angles ∧
        d'.photo.horz_angles = recR.photo.horz_angles) :=
  ⟨(C5_rescale_validation_frame recR 190 false).1 (Or.inr (by norm_num)),
   (C5_rescale_validation_frame recR (-10) false).1 (Or.inl (by norm_num)),
   (C5_rescale_validation_frame recR 0 false).2 le_rfl (by norm_num),
   (C5_rescale_validation_frame recR 180 false).2 (by norm_num) le_rfl⟩

/-! ## Rescale: skip and last-write-wins (claim C8) -/

/-- `getD` after `set` at the same in-range index. -/
theorem getD_set_self {α : Type _} (l : List α) (i : ℕ) (x d : α)
    (h : i < l.length) : (l.set i x).getD i d = x := by
  simp [List.getD_eq_getElem?_getD, List.getElem?_set_self h]

/-- `getD` after `set` at a different index. -/
theorem getD_set_ne {α : Type _} (l : List α) (i i' : ℕ) (x d : α)
    (h : i ≠ i') : (l.set i x).getD i' d = l.getD i' d := by
  simp [List.getD_eq_getElem?_getD, List.getElem?_set_ne h]

/-- A rescale cell step preserves the vertical-angle array length. -/
theorem rescaleStep_vert_len (d : IE_Data ℝ) (p : Bool) (k : ℝ) (i : ℕ)
    (sd : IE_Data ℝ) (j : ℕ) :
    (rescaleStep d p k i sd j).photo.vert_angles.length =
      sd.photo.vert_angles.length := by
  unfold rescaleStep
  split
  · rfl
  · simp

/-- A whole rescale row preserves the vertical-angle array length. -/
theorem rescaleRow_vert_len (d : IE_Data ℝ) (p : Bool) (k : ℝ)
    (sd : IE_Data ℝ) (i : ℕ) :
    (rescaleRow d p k sd i).photo.vert_angles.length =
      sd.photo.vert_angles.length := by
  unfold rescaleRow
  exact foldl_preserve _ (fun sd => sd.photo.vert_angles.length)
    (rescaleStep_vert_len d p k i) _ sd

/-- What one cell step does to `vert_angles[j]`. -/
theorem rescaleStep_vert_getD (d : IE_Data ℝ) (p : Bool) (k : ℝ) (i : ℕ)
    (sd : IE_Data ℝ) (j0 j : ℕ) :
    (rescaleStep d p k i sd j0).photo.vert_angles.getD j 0 =
      if j0 = j ∧ 0 < candelaAt d i j0 ∧ j0 < sd.photo.vert_angles.length
      then cellAngle d p k i j0
      else sd.photo.vert_angles.getD j 0 := by
  unfold rescaleStep
  split
  · rename_i hle
    rw [if_neg]
    rintro ⟨rfl, hpos, _⟩
    exact absurd hpos (not_lt.2 hle)
  · rename_i hgt
    dsimp only
    by_cases hj : j0 = j
    · subst hj
      by_cases hlt : j0 < sd.photo.vert_angles.length
      · rw [getD_set_self _ _ _ _ hlt,
          if_pos ⟨rfl, not_le.1 hgt, hlt⟩]
        rfl
      · rw [List.set_eq_of_length_le (le_of_not_lt hlt),
          if_neg (fun hc => hlt hc.2.2)]
    · rw [getD_set_ne _ _ _ _ _ hj, if_neg (fun hc => hj hc.1)]

/-- What one row's inner loop does to `vert_angles[j]`. -/
theorem innerFold_vert (d : IE_Data ℝ) (p : Bool) (k : ℝ) (i : ℕ) :
    ∀ (L : List ℕ) (sd : IE_Data ℝ) (j : ℕ),
    (L.foldl (rescaleStep d p k i) sd).photo.vert_angles.getD j 0 =
      if j ∈ L ∧ 0 < candelaAt d i j ∧ j < sd.photo.vert_angles.length
      then cellAngle d p k i j
      else sd.photo.vert_angles.getD j 0 := by
  intro L
  induction L with
  | nil => intro sd j; simp
  | cons j0 L ih =>
    intro sd j
    rw [List.foldl_cons, ih _ j, rescaleStep_vert_getD,
      rescaleStep_vert_len]
    by_cases hC : 0 < candelaAt d i j ∧ j < sd.photo.vert_angles.length
    · by_cases hjL : j ∈ L
      · rw [if_pos ⟨hjL, hC⟩, if_pos ⟨List.mem_cons_of_mem _ hjL, hC⟩]
      · rw [if_neg (fun hc => hjL hc.1)]
        by_cases hj0 : j0 = j
        · subst hj0
          rw [if_pos ⟨rfl, hC⟩, if_pos ⟨List.mem_cons_self _ _, hC⟩]
        · rw [if_neg (fun hc => hj0 hc.1), if_neg (fun hc => ?_)]
          rcases List.mem_cons.1 hc.1 with h1 | h1
          · exact hj0 h1.symm
          · exact hjL h1
    · rw [if_neg (fun hc => hC ⟨hc.2.1, hc.2.2⟩)]
      by_cases hj0 : j0 = j
      · subst hj0
        rw [if_neg (fun hc => hC ⟨hc.2.1, hc.2.2⟩),
          if_neg (fun hc => hC ⟨hc.2.1, hc.2.2⟩)]
      · rw [if_neg (fun hc => hj0 hc.1),
          if_neg (fun hc => hC ⟨hc.2.1, hc.2.2⟩)]

/-- `getLast?` of a cons with a non-empty tail. -/
theorem getLast?_cons_of_ne_nil {α : Type _} (a : α) {l : List α}
    (h : l ≠ []) : (a :: l).getLast? = l.getLast? := by
  cases l with
  | nil => exact absurd rfl h
  | cons b l => simp

/-- What the whole double loop leaves in `vert_angles[j]`: the value
computed by the LAST row whose candela at `j` is positive, or the
initial value if no row wrote it. -/
theorem outerFold_vert (d : IE_Data ℝ) (p : Bool) (k : ℝ) :
    ∀ (LH : List ℕ) (sd : IE_Data ℝ) (j : ℕ),
    sd.photo.vert_angles.length = d.photo.num_vert_angles.toNat →
    j < d.photo.num_vert_angles.toNat →
    (LH.foldl (rescaleRow d p k) sd).photo.vert_angles.getD j 0 =
      ((LH.filter (fun i => decide (0 < candelaAt d i j))).getLast?).elim
        (sd.photo.vert_angles.getD j 0) (fun i => cellAngle d p k i j) := by
  intro LH
  induction LH with
  | nil => intro sd j hlen hj; rfl
  | cons i0 LH ih =>
    intro sd j hlen hj
    rw [List.foldl_cons, ih _ j (by rw [rescaleRow_vert_len, hlen]) hj]
    have hrow : (rescaleRow d p k sd i0).photo.vert_angles.getD j 0 =
        if 0 < candelaAt d i0 j then cellAngle d p k i0 j
        else sd.photo.vert_angles.getD j 0 := by
      unfold rescaleRow
      rw [innerFold_vert]
      by_cases hc : 0 < candelaAt d i0 j
      · rw [if_pos ⟨List.mem_range.2 (hlen ▸ hj), hc, hlen ▸ hj⟩, if_pos hc]
      · rw [if_neg (fun hx => hc hx.2.1), if_neg hc]
    rw [List.filter_cons]
    by_cases hc : 0 < candelaAt d i0 j
    · rw [if_pos (by simpa using hc)]
      cases hnil : (LH.filter (fun i => decide (0 < candelaAt d i j))) with
      | nil =>
        simp only [List.getLast?_nil, List.getLast?_singleton,
          Option.elim_none, Option.elim_some]
        rw [hrow, if_pos hc]
      | cons b l =>
        rw [getLast?_cons_of_ne_nil i0 (List.cons_ne_nil b l)]
        rcases hx : (b :: l).getLast? with _ | x
        · exact absurd (List.getLast?_eq_none_iff.1 hx) (List.cons_ne_nil b l)
        · simp only [Option.elim_some]
    · rw [if_neg (by simpa using hc)]
      rcases hx : (LH.filter (fun i => decide (0 < candelaAt d i j))).getLast?
        with _ | x
      · simp only [Option.elim_none]
        rw [hrow, if_neg hc]
      · simp only [Option.elim_some]

/-- What one cell step does to `candelas[i][j]`. -/
theorem rescaleStep_cand_getD (d : IE_Data ℝ) (p : Bool) (k : ℝ)
    (i' : ℕ) (sd : IE_Data ℝ) (j0 i j : ℕ) :
    ((rescaleStep d p k i' sd j0).photo.candelas.getD i []).getD j 0 =
      if i' = i ∧ j0 = j ∧ 0 < candelaAt d i' j0 ∧
          i' < sd.photo.candelas.length ∧
          j0 < (sd.photo.candelas.getD i' []).length
      then cellCandela d p k i' j0
      else (sd.photo.candelas.getD i []).getD j 0 := by
  unfold rescaleStep
  split
  · rename_i hle
    rw [if_neg]
    rintro ⟨_, rfl, hpos, _⟩
    exact absurd hpos (not_lt.2 hle)
  · rename_i hgt
    dsimp only
    by_cases hi : i' = i
    · subst hi
      by_cases hilt : i' < sd.photo.candelas.length
      · rw [getD_set_self _ _ _ _ hilt]
        by_cases hj : j0 = j
        · subst hj
          by_cases hjlt : j0 < (sd.photo.candelas.getD i' []).length
          · rw [getD_set_self _ _ _ _ hjlt,
              if_pos ⟨rfl, rfl, not_le.1 hgt, hilt, hjlt⟩]
            rfl
          · rw [List.set_eq_of_length_le (le_of_not_lt hjlt),
              if_neg (fun hc => hjlt hc.2.2.2.2)]
        · rw [getD_set_ne _ _ _ _ _ hj, if_neg (fun hc => hj hc.2.1)]
      · rw [List.set_eq_of_length_le (le_of_not_lt hilt),
          if_neg (fun hc => hilt hc.2.2.2.1)]
    · rw [getD_set_ne _ _ _ _ _ hi, if_neg (fun hc => hi hc.1)]

/-- A cell `(i, j)` whose candela is not positive is never written by
any row's inner loop. -/
theorem innerFold_cand_untouched (d : IE_Data ℝ) (p : Bool) (k : ℝ)
    (i' i j : ℕ) (hij : i' ≠ i ∨ ¬ 0 < candelaAt d i j) :
    ∀ (L : List ℕ) (sd : IE_Data ℝ),
    ((L.foldl (rescaleStep d p k i') sd).photo.candelas.getD i []).getD j 0 =
      (sd.photo.candelas.getD i []).getD j 0 := by
  intro L
  induction L with
  | nil => intro sd; rfl
  | cons j0 L ih =>
    intro sd
    rw [List.foldl_cons, ih, rescaleStep_cand_getD, if_neg]
    rintro ⟨rfl, rfl, hpos, _⟩
    rcases hij with h | h
    · exact h rfl
    · exact h hpos

/-- A cell `(i, j)` whose candela is not positive is left exactly as it
was by the whole double loop. -/
theorem outerFold_cand_untouched (d : IE_Data ℝ) (p : Bool) (k : ℝ)
    (i j : ℕ) (hc : ¬ 0 < candelaAt d i j) :
    ∀ (LH : List ℕ) (sd : IE_Data ℝ),
    (((LH.foldl (rescaleRow d p k) sd).photo.candelas.getD i []).getD j 0) =
      ((sd.photo.candelas.getD i []).getD j 0) := by
  intro LH
  induction LH with
  | nil => intro sd; rfl
  | cons i0 LH ih =>
    intro sd
    rw [List.foldl_cons, ih]
    unfold rescaleRow
    by_cases hi : i0 = i
    · exact innerFold_cand_untouched d p k i0 i j (Or.inr (hi ▸ hc)) _ sd
    · exact innerFold_cand_untouched d p k i0 i j (Or.inl hi) _ sd

/-- Claim C8 (confirmed): in a successful rescale of a well-formed
record, every candela cell with a non-positive value is skipped — its
stored value is exactly the input's; and the shared `vert_angles` entry
at each vertical index `j` ends up holding the value computed by the
LAST row whose candela at `j` is positive (`lastWriter`), or the
original angle when no row wrote it (last-write-wins across rows). -/
theorem C8_skip_last_write (d : IE_Data ℝ) (angle : ℝ) (p : Bool)
    (out : IE_Data ℝ) (hwf : RescaleWF d)
    (h : rescale_ies_data d angle p = some out) :
    (∀ i j, candelaAt d i j ≤ 0 → candelaAt out i j = candelaAt d i j) ∧
    (∀ j, j < d.photo.num_vert_angles.toNat →
      out.photo.vert_angles.getD j 0 =
        match lastWriter d j with
        | some i =>
          cellAngle d p (Real.sin (degrees_to_radians (angle * 0.5))) i j
        | none => vertAt d j) := by
  unfold rescale_ies_data at h
  split at h
  · cases h
  · cases h
    constructor
    · intro i j hle
      exact outerFold_cand_untouched d p _ i j (not_lt.2 hle) _ d
    · intro j hj
      rw [outerFold_vert d p _ _ d j hwf.1 hj]
      unfold lastWriter
      rcases (List.filter (fun i => decide (0 < candelaAt d i j))
          (List.range d.photo.num_horz_angles.toNat)).getLast? with _ | x
      · rfl
      · rfl

/-- Witness for C8: for the record with candela rows `[[-1, 2], [3, 4]]`
(cell (0,0) non-positive), a successful rescale at angle 90 leaves cell
(0,0) unchanged, and `vert_angles[0]` holds the value written by row 1,
the last row with a positive candela at vertical index 0. -/
theorem C8_skip_last_write_witness :
    ∃ out, rescale_ies_data recC8 90 false = some out ∧
    (candelaAt out 0 0 = candelaAt recC8 0 0 ∧
     out.photo.vert_angles.getD 0 0 =
       match lastWriter recC8 0 with
       | some i =>
         cellAngle recC8 false
           (Real.sin (degrees_to_radians ((90 : ℝ) * 0.5))) i 0
       | none => vertAt recC8 0) := by
  have hout : ∃ out, rescale_ies_data recC8 90 false = some out := by
    unfold rescale_ies_data
    rw [if_neg (by norm_num)]
    exact ⟨_, rfl⟩
  obtain ⟨out, h⟩ := hout
  refine ⟨out, h, ?_⟩
  have := C8_skip_last_write recC8 90 false out (by
    refine ⟨by decide, by decide, ?_⟩
    intro row hrow
    have hr : row = [(-1 : ℝ), 2] ∨ row = [3, 4] := by
      simpa [recC8] using hrow
    rcases hr with rfl | rfl <;> decide) h
  exact ⟨this.1 0 0 (by norm_num [recC8, candelaAt]),
    this.2 0 (by norm_num [recC8])⟩

/-! ## Rescale at cone angle 180 (claim C6) -/

/-- The uniform horizontal scale factor at cone angle 180 is
`sin(pi/2) = 1`. -/
theorem projected_x_scale_at_180 :
    Real.sin (degrees_to_radians ((180 : ℝ) * 0.5)) = 1 := by
  have h : degrees_to_radians ((180 : ℝ) * 0.5) = Real.pi / 2 := by
    unfold degrees_to_radians
    ring
  rw [h, Real.sin_pi_div_two]

/-- At scale factor 1 the scaled magnitude of a non-negative candela is
the candela itself. -/
theorem scaled_candela_at_one (c v : ℝ) (hc : 0 ≤ c) :
    scaled_candela false 1 c v = c := by
  unfold scaled_candela yOrig xScaled
  rw [if_pos rfl]
  have h : c * Real.cos (vRad v) * (c * Real.cos (vRad v)) +
      c * Real.sin (vRad v) * 1 * (c * Real.sin (vRad v) * 1) = c ^ 2 := by
    have := Real.sin_sq_add_cos_sq (vRad v)
    nlinarith [this]
  rw [h, Real.sqrt_sq hc]

/-- The folded angle of a vertical angle in [0, 180] lies in [0, 90]. -/
theorem vertAngleOrig_mem (v : ℝ) (h0 : 0 ≤ v) (h1 : v ≤ 180) :
    0 ≤ vertAngleOrig v ∧ vertAngleOrig v ≤ 90 := by
  unfold vertAngleOrig
  split <;> constructor <;> linarith

/-- At scale factor 1 the scaled (still folded) angle of a positive
candela at a vertical angle in [0, 180] is the folded angle itself:
either the near-horizontal band keeps it, or
`atan(tan(a)) = a` on `[0, pi/2)`. -/
theorem scaled_angle_at_one (c v : ℝ) (hc : 0 < c) (h0 : 0 ≤ v)
    (h1 : v ≤ 180) : scaled_angle false 1 c v = vertAngleOrig v := by
  unfold scaled_angle
  rw [if_pos rfl]
  split
  · rfl
  · rename_i hband
    obtain ⟨hv0, hv90⟩ := vertAngleOrig_mem v h0 h1
    have hpi := Real.pi_pos
    have ha0 : 0 ≤ vRad v := by
      unfold vRad degrees_to_radians
      positivity
    have ha90 : vRad v ≤ Real.pi / 2 := by
      unfold vRad degrees_to_radians
      nlinarith [mul_nonneg (by linarith : (0 : ℝ) ≤ 90 - vertAngleOrig v)
        (by positivity : (0 : ℝ) ≤ Real.pi / 180)]
    have hcosne : Real.cos (vRad v) ≠ 0 := by
      intro hcos
      exact hband (by rw [hcos]; simpa using abs_nonneg _)
    have halt : vRad v < Real.pi / 2 := by
      rcases lt_or_eq_of_le ha90 with h | h
      · exact h
      · exact absurd (h ▸ Real.cos_pi_div_two) hcosne
    have hcospos : 0 < Real.cos (vRad v) :=
      Real.cos_pos_of_mem_Ioo ⟨by linarith, halt⟩
    have hratio : xScaled 1 c v / yOrig c v = Real.tan (vRad v) := by
      unfold xScaled yOrig
      rw [mul_one, mul_div_mul_left _ _ (ne_of_gt hc),
        Real.tan_eq_sin_div_cos]
    rw [hratio, Real.arctan_tan (by linarith) halt]
    unfold radians_to_degrees vRad degrees_to_radians
    field_simp

/-- At scale factor 1 a positive cell at a vertical angle in [0, 180] is
written back unchanged. -/
theorem rescaleCell_at_one (c v : ℝ) (hc : 0 < c) (h0 : 0 ≤ v)
    (h1 : v ≤ 180) : rescaleCell false 1 c v = (v, c) := by
  unfold rescaleCell
  rw [scaled_angle_at_one c v hc h0 h1, scaled_candela_at_one c v hc.le]
  unfold vertAngleOrig
  by_cases ht : v > 90
  · simp only [if_pos ht, Prod.mk.injEq]
    exact ⟨by ring, trivial⟩
  · simp only [if_neg ht]

/-- Setting an index to the value already there changes nothing. -/
theorem set_getD_self {α : Type _} (l : List α) (j : ℕ) (dv : α) :
    l.set j (l.getD j dv) = l := by
  induction l generalizing j with
  | nil => rfl
  | cons a l ih =>
    cases j with
    | zero => rfl
    | succ j => simpa using ih j

/-- The bounds hypothesis transfers to `vertAt` (out-of-range indices
read the default 0, which is in range). -/
theorem vertAt_mem (d : IE_Data ℝ)
    (hv : ∀ v ∈ d.photo.vert_angles, 0 ≤ v ∧ v ≤ 180) (j : ℕ) :
    0 ≤ vertAt d j ∧ vertAt d j ≤ 180 := by
  unfold vertAt
  by_cases h : j < d.photo.vert_angles.length
  · rw [List.getD_eq_getElem?_getD, List.getElem?_eq_getElem h]
    exact hv _ (List.getElem_mem h)
  · rw [List.getD_eq_getElem?_getD, List.getElem?_eq_none (le_of_not_lt h)]
    norm_num

/-- At scale factor 1 a cell step writes back exactly what was there:
the step is the identity on the accumulator `d` itself. -/
theorem rescaleStep_at_one_id (d : IE_Data ℝ)
    (hv : ∀ v ∈ d.photo.vert_angles, 0 ≤ v ∧ v ≤ 180) (i j : ℕ) :
    rescaleStep d false 1 i d j = d := by
  unfold rescaleStep
  split
  · rfl
  · rename_i hgt
    obtain ⟨h0, h1⟩ := vertAt_mem d hv j
    rw [rescaleCell_at_one _ _ (not_le.1 hgt) h0 h1]
    dsimp only
    have hva : d.photo.vert_angles.set j (vertAt d j) = d.photo.vert_angles :=
      set_getD_self _ _ _
    have hcd : (d.photo.candelas.getD i []).set j (candelaAt d i j) =
        d.photo.candelas.getD i [] := set_getD_self _ _ _
    rw [hva, hcd, set_getD_self _ _ _]

/-- A fold whose step fixes the accumulator is the identity. -/
theorem foldl_fixed {α β : Type _} (f : α → β → α) (a : α)
    (h : ∀ b, f a b = a) : ∀ (l : List β), l.foldl f a = a := by
  intro l
  induction l with
  | nil => rfl
  | cons b l ih => rw [List.foldl_cons, h, ih]

/-- Claim C6 (amended): for a record ALL of whose vertical angles lie in
the documented [0, 180] range, `rescale_ies_data` at cone angle 180 with
the preservation flag off is the identity — every candela value and
every vertical angle (indeed the whole record) is returned unchanged,
because the uniform horizontal scale factor is `sin(pi/2) = 1` and each
positive cell writes back exactly its original angle and magnitude.
(The original claim quantified over EVERY record; it fails for vertical
angles outside [0, 180], see the counterexample.) -/
theorem C6_identity_at_180 (d : IE_Data ℝ)
    (hv : ∀ v ∈ d.photo.vert_angles, 0 ≤ v ∧ v ≤ 180) :
    rescale_ies_data d 180 false = some d := by
  unfold rescale_ies_data
  rw [if_neg (by norm_num)]
  rw [projected_x_scale_at_180]
  have hrow : ∀ i, rescaleRow d false 1 d i = d := by
    intro i
    unfold rescaleRow
    exact foldl_fixed _ _ (rescaleStep_at_one_id d hv i) _
  show some (List.foldl (rescaleRow d false 1) d
    (List.range d.photo.num_horz_angles.toNat)) = some d
  rw [foldl_fixed _ _ hrow]

/-- The value the rescale cell computes for the out-of-range vertical
angle -100 at cone 180: `atan(tan(-100 deg))` lands at 80 degrees, not
-100. -/
theorem rescaleCell_ce : (rescaleCell false 1 1 (-100 : ℝ)).1 = 80 := by
  have hpi := Real.pi_pos
  unfold rescaleCell
  rw [if_neg (by norm_num : ¬(-100 : ℝ) > 90)]
  unfold scaled_angle
  rw [if_pos rfl]
  have hfold : vertAngleOrig (-100 : ℝ) = -100 := by
    unfold vertAngleOrig
    rw [if_neg (by norm_num)]
  have hrad : vRad (-100 : ℝ) = -(100 * (Real.pi / 180)) := by
    unfold vRad degrees_to_radians
    rw [hfold]
    ring
  have habs : |Real.cos (vRad (-100 : ℝ))| =
      Real.cos (80 * (Real.pi / 180)) := by
    rw [hrad, Real.cos_neg]
    have hneg : Real.cos (100 * (Real.pi / 180)) < 0 :=
      Real.cos_neg_of_pi_div_two_lt_of_lt (by nlinarith) (by nlinarith)
    rw [abs_of_neg hneg, show (80 : ℝ) * (Real.pi / 180) =
      Real.pi - 100 * (Real.pi / 180) by ring, Real.cos_pi_sub]
  have hth : threshold_projected_on_y = Real.cos (89 * (Real.pi / 180)) := by
    unfold threshold_projected_on_y degrees_to_radians
    have hneg : Real.cos ((90 + 1 : ℝ) * (Real.pi / 180)) < 0 :=
      Real.cos_neg_of_pi_div_two_lt_of_lt (by nlinarith) (by nlinarith)
    rw [abs_of_neg hneg, show (89 : ℝ) * (Real.pi / 180) =
      Real.pi - (90 + 1) * (Real.pi / 180) by ring, Real.cos_pi_sub]
  have hband : ¬ |Real.cos (vRad (-100 : ℝ))| ≤ threshold_projected_on_y := by
    rw [habs, hth]
    push_neg
    exact Real.cos_lt_cos_of_nonneg_of_le_pi (by positivity) (by nlinarith)
      (by nlinarith)
  rw [if_neg hband]
  have hratio : xScaled 1 1 (-100 : ℝ) / yOrig 1 (-100 : ℝ) =
      Real.tan (vRad (-100 : ℝ)) := by
    unfold xScaled yOrig
    rw [mul_one, one_mul, one_mul, Real.tan_eq_sin_div_cos]
  rw [hratio]
  have htan : Real.tan (vRad (-100 : ℝ)) =
      Real.tan (80 * (Real.pi / 180)) := by
    rw [hrad, show (80 : ℝ) * (Real.pi / 180) =
      -(100 * (Real.pi / 180)) + Real.pi by ring]
    exact (Real.tan_add_pi _).symm
  rw [htan, Real.arctan_tan (by nlinarith) (by nlinarith)]
  unfold radians_to_degrees
  field_simp

/-- Claim C6 counterexample: the claim states that for EVERY record,
rescaling to cone angle 180 with the preservation flag off leaves every
vertical angle numerically unchanged (up to 2-decimal formatting).  For
the record `recC6`, whose single vertical angle is -100 (outside the
[0, 180] range the transform's own documentation assumes) with candela
1, the rescale at cone 180 stores 80 in place of -100 — a change of
180 degrees, far beyond any formatting tolerance. -/
theorem C6_counterexample :
    (rescale_ies_data recC6 180 false).map (fun d => d.photo.vert_angles) =
      some [(80 : ℝ)] ∧
    recC6.photo.vert_angles = [(-100 : ℝ)] ∧ ((80 : ℝ) ≠ -100) := by
  refine ⟨?_, rfl, by norm_num⟩
  have hcand : candelaAt recC6 0 0 = 1 := by simp [recC6, candelaAt]
  have hvert : vertAt recC6 0 = -100 := by simp [recC6, vertAt]
  unfold rescale_ies_data
  rw [if_neg (by norm_num), projected_x_scale_at_180]
  show Option.map (fun d => d.photo.vert_angles)
    (some (List.foldl (rescaleRow recC6 false 1) recC6
      (List.range recC6.photo.num_horz_angles.toNat))) = some [(80 : ℝ)]
  have h1 : recC6.photo.num_horz_angles.toNat = 1 := by simp [recC6]
  rw [h1, show List.range 1 = [0] from rfl, List.foldl_cons, List.foldl_nil]
  unfold rescaleRow
  have h2 : recC6.photo.num_vert_angles.toNat = 1 := by simp [recC6]
  rw [h2, show List.range 1 = [0] from rfl, List.foldl_cons, List.foldl_nil]
  unfold rescaleStep
  rw [hcand, hvert, if_neg (by norm_num : ¬(1 : ℝ) ≤ 0)]
  dsimp only
  rw [rescaleCell_ce]
  simp [recC6]

/-- Witness for C6: the record `recR` (single vertical angle 45) is
returned unchanged by a rescale to cone angle 180. -/
theorem C6_identity_at_180_witness :
    rescale_ies_data recR 180 false = some recR :=
  C6_identity_at_180 recR (by
    intro v hvv
    have : v = (45 : ℝ) := by simpa [recR] using hvv
    subst this
    norm_num)


/-! ## Round-trip: digit-level lemmas -/

/-- `natDigitsAux` computes `Nat.digits 10` when given enough fuel. -/
theorem natDigitsAux_eq (fuel : ℕ) : ∀ n : ℕ, n ≤ fuel →
    natDigitsAux fuel n = Nat.digits 10 n := by
  induction fuel with
  | zero =>
    intro n hn
    interval_cases n
    simp [natDigitsAux]
  | succ fuel ih =>
    intro n hn
    match n with
    | 0 => simp [natDigitsAux]
    | m + 1 =>
      have hdiv : (m + 1) / 10 ≤ fuel := by
        have := Nat.div_lt_self (Nat.succ_pos m) (by norm_num : 1 < 10)
        omega
      rw [natDigitsAux, Nat.digits_def' (by norm_num : (1:ℕ) < 10) (Nat.succ_pos m),
        ih ((m + 1) / 10) hdiv]

/-- `natDigits` agrees with `Nat.digits 10`. -/
theorem natDigits_eq (n : ℕ) : natDigits n = Nat.digits 10 n :=
  natDigitsAux_eq n n le_rfl

/-- Character facts about a single decimal digit value. -/
theorem digitChar_facts (d : ℕ) (h : d < 10) :
    isDigitChar (Nat.digitChar d) = true ∧ digitVal (Nat.digitChar d) = d := by
  interval_cases d <;> exact ⟨by decide, by decide⟩

/-- Every character a digit test accepts is a proper decimal digit, hence
distinct from all the structural characters the tokenizers treat
specially. -/
theorem isDigitChar_facts (c : Char) (h : isDigitChar c = true) :
    isSpaceChar c = false ∧ isDelim c = false ∧ c ≠ '-' ∧ c ≠ '+' ∧
    c ≠ '.' ∧ c ≠ '\r' := by
  have hb : ('0' ≤ c ∧ c ≤ '9') := by simpa [isDigitChar] using h
  refine ⟨?_, ?_, ?_, ?_, ?_, ?_⟩
  · simp only [isSpaceChar, decide_eq_false_iff_not]
    rintro (rfl | rfl | rfl | rfl | rfl | rfl) <;> exact absurd hb.1 (by decide)
  · simp only [isDelim, isSpaceChar, decide_eq_false_iff_not]
    rintro (h1 | rfl)
    · rcases of_decide_eq_true h1 with rfl | rfl | rfl | rfl | rfl | rfl <;>
        exact absurd hb.1 (by decide)
    · exact absurd hb.1 (by decide)
  · rintro rfl; exact absurd hb.1 (by decide)
  · rintro rfl; exact absurd hb.1 (by decide)
  · rintro rfl; exact absurd hb.1 (by decide)
  · rintro rfl; exact absurd hb.1 (by decide)

/-- The character list of a natural number is all digits. -/
theorem natToDigitChars_all (n : ℕ) :
    ∀ c ∈ natToDigitChars n, isDigitChar c = true := by
  intro c hc
  unfold natToDigitChars at hc
  split at hc
  · simp only [List.mem_singleton] at hc
    subst hc; decide
  · rw [List.mem_reverse, List.mem_map] at hc
    obtain ⟨d, hd, rfl⟩ := hc
    rw [natDigits_eq] at hd
    exact (digitChar_facts d (Nat.digits_lt_base (by norm_num) hd)).1

theorem natToDigitChars_ne_nil (n : ℕ) : natToDigitChars n ≠ [] := by
  unfold natToDigitChars
  split
  · simp
  · rename_i hn
    simp only [ne_eq, List.reverse_eq_nil_iff, List.map_eq_nil_iff]
    rw [natDigits_eq]
    exact Nat.digits_ne_nil_iff_ne_zero.2 hn

/-- Folding the digit-accumulation step over reversed digit characters
recovers the number (the way `std::istream` accumulates digits). -/
theorem digitsVal_rev_map (l : List ℕ) (h : ∀ d ∈ l, d < 10) :
    digitsVal ((l.map Nat.digitChar).reverse) = Nat.ofDigits 10 l := by
  induction l with
  | nil => rfl
  | cons d l ih =>
    have hd := (digitChar_facts d (h d (List.mem_cons_self d l))).2
    have ihl := ih (fun x hx => h x (List.mem_cons_of_mem d hx))
    rw [List.map_cons, List.reverse_cons, Nat.ofDigits_cons]
    unfold digitsVal at ihl ⊢
    rw [List.foldl_append]
    rw [ihl]
    simp only [List.foldl_cons, List.foldl_nil, hd]
    omega

/-- The serialized digit characters of a natural number parse back to the
same number. -/
theorem digitsVal_natToDigitChars (n : ℕ) :
    digitsVal (natToDigitChars n) = n := by
  unfold natToDigitChars
  split
  · rename_i hn; subst hn; decide
  · rw [natDigits_eq, digitsVal_rev_map _ (fun d hd => Nat.digits_lt_base (by norm_num) hd),
      Nat.ofDigits_digits]

/-! ## Character-class and scan lemmas -/

/-- Scanning a list whose prefix all satisfies `p` and whose remainder
starts with a failing character splits exactly at the boundary. -/
theorem takeWhile_append_all (p : Char → Bool) : ∀ (xs ys : Str),
    (∀ x ∈ xs, p x = true) → (∀ y, ys.head? = some y → p y = false) →
    (xs ++ ys).takeWhile p = xs ∧ (xs ++ ys).dropWhile p = ys := by
  intro xs
  induction xs with
  | nil =>
    intro ys _ hy
    cases ys with
    | nil => exact ⟨rfl, rfl⟩
    | cons y ys =>
      have hpy := hy y rfl
      exact ⟨List.takeWhile_cons_of_neg (by simp [hpy]),
        List.dropWhile_cons_of_neg (by simp [hpy])⟩
  | cons x xs ih =>
    intro ys hx hy
    have hxx := hx x (List.mem_cons_self x xs)
    have hrec := ih ys (fun a ha => hx a (List.mem_cons_of_mem x ha)) hy
    rw [List.cons_append, List.takeWhile_cons_of_pos hxx,
      List.dropWhile_cons_of_pos hxx, hrec.1, hrec.2]
    exact ⟨rfl, rfl⟩

theorem isNumChar_of_digit (c : Char) (h : isDigitChar c = true) :
    isNumChar c = true := by
  simp [isNumChar, h]

/-- A numeric-token character is not a delimiter, not whitespace and not
a carriage return. -/
theorem isNumChar_facts (c : Char) (h : isNumChar c = true) :
    isDelim c = false ∧ isSpaceChar c = false ∧ c ≠ '\r' := by
  have h' : isDigitChar c = true ∨ c = '.' ∨ c = '-' := by
    simpa [isNumChar] using h
  rcases h' with hd | rfl | rfl
  · have := isDigitChar_facts c hd
    exact ⟨this.2.1, this.1, this.2.2.2.2.2⟩
  · exact ⟨by decide, by decide, by decide⟩
  · exact ⟨by decide, by decide, by decide⟩

theorem intToChars_all (z : ℤ) :
    ∀ c ∈ intToChars z, isNumChar c = true := by
  intro c hc
  unfold intToChars at hc
  split at hc
  · rcases List.mem_cons.1 hc with rfl | hc
    · decide
    · exact isNumChar_of_digit c (natToDigitChars_all _ c hc)
  · exact isNumChar_of_digit c (natToDigitChars_all _ c hc)

theorem intToChars_ne_nil (z : ℤ) : intToChars z ≠ [] := by
  unfold intToChars
  split
  · simp
  · exact natToDigitChars_ne_nil _

/-- A serialized integer starts with a digit or a minus sign. -/
theorem intToChars_head (z : ℤ) :
    ∀ c, (intToChars z).head? = some c → (isDigitChar c = true ∨ c = '-') := by
  intro c hc
  unfold intToChars at hc
  split at hc
  · exact Or.inr (by simpa using hc.symm)
  · cases hnd : natToDigitChars z.natAbs with
    | nil => exact absurd hnd (natToDigitChars_ne_nil _)
    | cons d ds =>
      rw [hnd] at hc
      simp only [List.head?_cons, Option.some.injEq] at hc
      subst hc
      exact Or.inl (natToDigitChars_all _ d (hnd ▸ List.mem_cons_self d ds))

theorem formatFloat2_all (q : ℚ) :
    ∀ c ∈ formatFloat2 q, isNumChar c = true := by
  intro c hc
  have h100 : (roundQ (q * 100)).natAbs % 100 < 100 := Nat.mod_lt _ (by norm_num)
  simp only [formatFloat2] at hc
  have hsign : ∀ x ∈ (if roundQ (q * 100) < 0 then ['-'] else ([] : Str)),
      isNumChar x = true := by
    intro x hx
    split at hx
    · simp only [List.mem_singleton] at hx
      subst hx; decide
    · cases hx
  have hnd := fun x hx => isNumChar_of_digit x
    (natToDigitChars_all ((roundQ (q * 100)).natAbs / 100) x hx)
  split at hc
  · rcases List.mem_append.1 hc with hx | hx
    · exact hsign c hx
    · exact hnd c hx
  · split at hc
    · rcases List.mem_append.1 hc with hx | hx
      · rcases List.mem_append.1 hx with hx | hx
        · exact hsign c hx
        · exact hnd c hx
      · rcases List.mem_cons.1 hx with rfl | hx
        · decide
        · simp only [List.mem_singleton] at hx
          subst hx
          exact isNumChar_of_digit _ (digitChar_facts _ (by omega)).1
    · split at hc
      · rename_i hlt
        rcases List.mem_append.1 hc with hx | hx
        · rcases List.mem_append.1 hx with hx | hx
          · exact hsign c hx
          · exact hnd c hx
        · rcases List.mem_cons.1 hx with rfl | hx
          · decide
          · rcases List.mem_cons.1 hx with rfl | hx
            · decide
            · simp only [List.mem_singleton] at hx
              subst hx
              exact isNumChar_of_digit _ (digitChar_facts _ hlt).1
      · rcases List.mem_append.1 hc with hx | hx
        · rcases List.mem_append.1 hx with hx | hx
          · exact hsign c hx
          · exact hnd c hx
        · rcases List.mem_cons.1 hx with rfl | hx
          · decide
          · rcases List.mem_cons.1 hx with rfl | hx
            · exact isNumChar_of_digit _ (digitChar_facts _ (by omega)).1
            · simp only [List.mem_singleton] at hx
              subst hx
              exact isNumChar_of_digit _ (digitChar_facts _ (by omega)).1

/-- A serialized float starts with a digit or a minus sign. -/
theorem formatFloat2_head (q : ℚ) :
    ∀ c, (formatFloat2 q).head? = some c → (isDigitChar c = true ∨ c = '-') := by
  intro c hc
  simp only [formatFloat2] at hc
  have hw : ∀ (rest : Str),
      ((if roundQ (q * 100) < 0 then ['-'] else ([] : Str)) ++
        natToDigitChars ((roundQ (q * 100)).natAbs / 100) ++ rest).head? = some c →
      (isDigitChar c = true ∨ c = '-') := by
    intro rest h
    split at h
    · simp only [List.cons_append, List.head?_cons, Option.some.injEq] at h
      exact Or.inr h.symm
    · simp only [List.nil_append] at h
      cases hnd : natToDigitChars ((roundQ (q * 100)).natAbs / 100) with
      | nil => exact absurd hnd (natToDigitChars_ne_nil _)
      | cons d ds =>
        rw [hnd, List.cons_append] at h
        simp only [List.head?_cons, Option.some.injEq] at h
        subst h
        exact Or.inl (natToDigitChars_all _ _ (hnd ▸ List.mem_cons_self _ _))
  split at hc
  · exact hw [] (by simpa using hc)
  · split at hc
    · exact hw _ hc
    · split at hc
      · exact hw _ hc
      · exact hw _ hc

theorem formatFloat2_ne_nil (q : ℚ) : formatFloat2 q ≠ [] := by
  have hnd := natToDigitChars_ne_nil ((roundQ (q * 100)).natAbs / 100)
  simp only [formatFloat2]
  split
  · simp [List.append_eq_nil, hnd]
  · split
    · simp [List.append_eq_nil, hnd]
    · split
      · simp [List.append_eq_nil, hnd]
      · simp [List.append_eq_nil, hnd]

theorem canonTok_all (v : Val) : ∀ c ∈ canonTok v, isNumChar c = true := by
  cases v with
  | i z => exact intToChars_all z
  | f q => exact formatFloat2_all q

theorem canonTok_ne_nil (v : Val) : canonTok v ≠ [] := by
  cases v with
  | i z => exact intToChars_ne_nil z
  | f q => exact formatFloat2_ne_nil q

theorem joinSp_cons_cons (t t2 : Str) (ts : List Str) :
    joinSp (t :: t2 :: ts) = t ++ ' ' :: joinSp (t2 :: ts) := rfl

/-- Every character of a space-joined token line satisfies any predicate
that holds of the space and of every token character. -/
theorem joinSp_all (p : Char → Bool) (hsp : p ' ' = true) : ∀ (ts : List Str),
    (∀ t ∈ ts, ∀ c ∈ t, p c = true) → ∀ c ∈ joinSp ts, p c = true := by
  intro ts
  induction ts with
  | nil => intro _ c hc; cases hc
  | cons t ts ih =>
    intro h c hc
    cases ts with
    | nil =>
      exact h t (List.mem_cons_self t []) c hc
    | cons t2 ts2 =>
      rw [joinSp_cons_cons] at hc
      rcases List.mem_append.1 hc with hx | hx
      · exact h t (List.mem_cons_self _ _) c hx
      · rcases List.mem_cons.1 hx with rfl | hx
        · exact hsp
        · exact ih (fun u hu => h u (List.mem_cons_of_mem t hu)) c hx

theorem joinSp_head (t : Str) (ts : List Str) (h : t ≠ []) :
    (joinSp (t :: ts)).head? = t.head? := by
  cases t with
  | nil => exact absurd rfl h
  | cons c cs => cases ts <;> simp [joinSp]

theorem joinSp_ne_nil (t : Str) (ts : List Str) (h : t ≠ []) :
    joinSp (t :: ts) ≠ [] := by
  intro hnil
  have := joinSp_head t ts h
  rw [hnil] at this
  cases t with
  | nil => exact absurd rfl h
  | cons c cs => cases this

/-- A line without carriage returns is unchanged by the CR strip. -/
theorem stripCR_of_no_cr (l : Str) (h : ∀ c ∈ l, c ≠ '\r') : stripCR l = l := by
  unfold stripCR
  split
  · rename_i hlast
    exact absurd rfl (h _ (List.mem_of_getLast?_eq_some hlast))
  · rfl

/-- A line whose last character is not a carriage return is unchanged by
the CR strip. -/
theorem stripCR_of_getLast (l : Str) (h : l.getLast? ≠ some '\r') :
    stripCR l = l := by
  unfold stripCR
  rw [if_neg h]

/-! ## Reading serialized tokens back -/

theorem isNumChar_false_parts (c : Char) (h : isNumChar c = false) :
    isDigitChar c = false ∧ c ≠ '.' ∧ c ≠ '-' := by
  have h' : ¬(isDigitChar c = true ∨ c = '.' ∨ c = '-') := by
    simpa [isNumChar] using h
  push_neg at h'
  refine ⟨?_, h'.2.1, h'.2.2⟩
  cases hb : isDigitChar c
  · rfl
  · exact absurd hb h'.1

/-- `readIntTok` on a line starting with a minus sign. -/
theorem readIntTok_cons_neg (l : Str) :
    readIntTok ('-' :: l) = (if l.takeWhile isDigitChar = [] then none
      else some (-(digitsVal (l.takeWhile isDigitChar) : ℤ))) := by
  unfold readIntTok
  rw [List.dropWhile_cons_of_neg (by decide)]
  rfl

/-- `readIntTok` on a line starting with a digit. -/
theorem readIntTok_cons_digit (c : Char) (l : Str) (hc : isDigitChar c = true) :
    readIntTok (c :: l) = (if (c :: l).takeWhile isDigitChar = [] then none
      else some ((digitsVal ((c :: l).takeWhile isDigitChar) : ℕ) : ℤ)) := by
  have hf := isDigitChar_facts c hc
  unfold readIntTok
  rw [List.dropWhile_cons_of_neg (by simp [hf.1])]
  split
  · rename_i heq
    cases heq
    exact absurd rfl hf.2.2.1
  · rename_i heq
    cases heq
    exact absurd rfl hf.2.2.2.1
  · rfl

/-- A serialized integer followed by non-numeric text reads back exactly. -/
theorem readIntTok_canon (z : ℤ) (rest : Str)
    (hrest : ∀ y, rest.head? = some y → isNumChar y = false) :
    readIntTok (intToChars z ++ rest) = some z := by
  have hdig : ∀ y, rest.head? = some y → isDigitChar y = false :=
    fun y hy => (isNumChar_false_parts y (hrest y hy)).1
  have htw := takeWhile_append_all isDigitChar (natToDigitChars z.natAbs) rest
    (natToDigitChars_all _) hdig
  unfold intToChars
  split
  · rename_i hneg
    rw [List.cons_append, readIntTok_cons_neg, htw.1,
      if_neg (natToDigitChars_ne_nil _), digitsVal_natToDigitChars]
    congr 1
    omega
  · rename_i hpos
    cases hnd : natToDigitChars z.natAbs with
    | nil => exact absurd hnd (natToDigitChars_ne_nil _)
    | cons d ds =>
      have hd : isDigitChar d = true :=
        natToDigitChars_all _ d (hnd ▸ List.mem_cons_self d ds)
      have h1 : readIntTok ((d :: ds) ++ rest) =
          (if ((d :: ds) ++ rest).takeWhile isDigitChar = [] then none
            else some ((digitsVal (((d :: ds) ++ rest).takeWhile isDigitChar) : ℕ) : ℤ)) := by
        rw [List.cons_append]
        exact readIntTok_cons_digit d (ds ++ rest) hd
      rw [← hnd] at h1
      rw [← hnd, h1, htw.1,
        if_neg (natToDigitChars_ne_nil _), digitsVal_natToDigitChars]
      congr 1
      omega

/-- A serialized integer reads back exactly via `std::stoi`. -/
theorem stoiM_canon (z : ℤ) : stoiM (intToChars z) = some z := by
  unfold stoiM
  rw [← List.append_nil (intToChars z)]
  exact readIntTok_canon z [] (fun y hy => by cases hy)

/-- `readUnsignedFloatTok` on serialized whole-number digits followed by
text that continues with neither a digit nor a decimal point. -/
theorem readUnsignedFloatTok_int (w : ℕ) (rest : Str)
    (hrest : ∀ y, rest.head? = some y → (isDigitChar y = false ∧ y ≠ '.')) :
    readUnsignedFloatTok (natToDigitChars w ++ rest) = some (w : ℚ) := by
  have htw := takeWhile_append_all isDigitChar (natToDigitChars w) rest
    (natToDigitChars_all _) (fun y hy => (hrest y hy).1)
  simp only [readUnsignedFloatTok]
  rw [htw.1, htw.2]
  cases hr : rest with
  | nil =>
    rw [if_neg (natToDigitChars_ne_nil _), digitsVal_natToDigitChars]
  | cons y ys =>
    have hy := hrest y (by rw [hr]; rfl)
    split
    · rename_i heq
      cases heq
      exact absurd rfl hy.2
    · rw [if_neg (natToDigitChars_ne_nil _), digitsVal_natToDigitChars]

/-- `readUnsignedFloatTok` on a serialized whole part, a decimal point
and fractional digits, followed by non-digit text. -/
theorem readUnsignedFloatTok_frac (w : ℕ) (fds : Str) (rest : Str)
    (hf : ∀ c ∈ fds, isDigitChar c = true)
    (hrest : ∀ y, rest.head? = some y → isDigitChar y = false) :
    readUnsignedFloatTok (natToDigitChars w ++ '.' :: (fds ++ rest)) =
      some ((w : ℚ) + (digitsVal fds : ℚ) / (10 : ℚ) ^ fds.length) := by
  have htw := takeWhile_append_all isDigitChar (natToDigitChars w)
    ('.' :: (fds ++ rest)) (natToDigitChars_all _)
    (fun y hy => by cases hy; decide)
  have htw2 := takeWhile_append_all isDigitChar fds rest hf hrest
  simp only [readUnsignedFloatTok]
  rw [htw.2, htw.1]
  split
  · rename_i rest2 heq
    cases heq
    rw [if_neg (by simp [natToDigitChars_ne_nil w]), htw2.1,
      digitsVal_natToDigitChars]
  · rename_i hne
    exact absurd rfl (hne (fds ++ rest))

/-- `readFloatTok` on a line starting with a minus sign. -/
theorem readFloatTok_cons_neg (l : Str) :
    readFloatTok ('-' :: l) = (readUnsignedFloatTok l).map Neg.neg := by
  unfold readFloatTok
  rw [List.dropWhile_cons_of_neg (by decide)]
  rfl

/-- `readFloatTok` on a line starting with a digit. -/
theorem readFloatTok_cons_digit (c : Char) (l : Str)
    (hc : isDigitChar c = true) :
    readFloatTok (c :: l) = readUnsignedFloatTok (c :: l) := by
  have hf := isDigitChar_facts c hc
  unfold readFloatTok
  rw [List.dropWhile_cons_of_neg (by simp [hf.1])]
  split
  · rename_i heq
    cases heq
    exact absurd rfl hf.2.2.1
  · rename_i heq
    cases heq
    exact absurd rfl hf.2.2.2.1
  · rfl

/-! ## Reading a serialized float back -/

theorem digitsVal_one (c : Char) : digitsVal [c] = digitVal c := by
  simp [digitsVal]

theorem digitsVal_two (c d : Char) :
    digitsVal [c, d] = 10 * digitVal c + digitVal d := by
  simp [digitsVal, List.foldl]

/-- Whole and fractional decimal parts recombine over `ℚ`. -/
theorem whole_frac_val (A : ℕ) :
    ((A / 100 : ℕ) : ℚ) + ((A % 100 : ℕ) : ℚ) / 100 = (A : ℚ) / 100 := by
  rw [eq_div_iff (by norm_num : (100 : ℚ) ≠ 0), add_mul,
    div_mul_cancel₀ _ (by norm_num : (100 : ℚ) ≠ 0)]
  have h : A / 100 * 100 + A % 100 = A := by omega
  exact_mod_cast h

theorem natAbs_cast_q (n : ℤ) :
    ((n.natAbs : ℕ) : ℚ) = if n < 0 then -(n : ℚ) else (n : ℚ) := by
  rw [Int.cast_natAbs]
  split
  · rename_i h
    rw [abs_of_neg h]
    push_cast
    ring
  · rename_i h
    rw [abs_of_nonneg (not_lt.1 h)]

theorem natToDigitChars_head_digit (w : ℕ) (tail : Str) :
    ∃ c, (natToDigitChars w ++ tail).head? = some c ∧ isDigitChar c = true := by
  cases hnd : natToDigitChars w with
  | nil => exact absurd hnd (natToDigitChars_ne_nil _)
  | cons d ds =>
    exact ⟨d, rfl, natToDigitChars_all _ d (hnd ▸ List.mem_cons_self d ds)⟩

/-- `readFloatTok` ignores the sign-free path when the input starts with
a digit. -/
theorem readFloatTok_of_digits_head (cs : Str) (c : Char)
    (hhead : cs.head? = some c) (hc : isDigitChar c = true) :
    readFloatTok cs = readUnsignedFloatTok cs := by
  cases cs with
  | nil => cases hhead
  | cons x l =>
    simp only [List.head?_cons, Option.some.injEq] at hhead
    subst hhead
    exact readFloatTok_cons_digit x l hc

/-- Whole-plus-fraction value against the signed integer over 100. -/
theorem signed_val_eq (n : ℤ) (x : ℚ)
    (hx : x = ((n.natAbs / 100 : ℕ) : ℚ) + ((n.natAbs % 100 : ℕ) : ℚ) / 100) :
    (if n < 0 then -x else x) = (n : ℚ) / 100 := by
  rw [hx, whole_frac_val]
  split
  · rename_i h
    rw [natAbs_cast_q, if_pos h]
    ring
  · rename_i h
    rw [natAbs_cast_q, if_neg h]

/-- A serialized float followed by non-numeric text reads back to the
2-decimal quantization of the original value. -/
theorem readFloatTok_canon (q : ℚ) (rest : Str)
    (hrest : ∀ y, rest.head? = some y → isNumChar y = false) :
    readFloatTok (formatFloat2 q ++ rest) = some (round2 q) := by
  have hdig : ∀ y, rest.head? = some y → isDigitChar y = false :=
    fun y hy => (isNumChar_false_parts y (hrest y hy)).1
  have hdot : ∀ y, rest.head? = some y → (isDigitChar y = false ∧ y ≠ '.') :=
    fun y hy => ⟨(isNumChar_false_parts y (hrest y hy)).1,
      (isNumChar_false_parts y (hrest y hy)).2.1⟩
  unfold round2
  simp only [formatFloat2]
  generalize roundQ (q * 100) = n
  have h100 : n.natAbs % 100 < 100 := Nat.mod_lt _ (by norm_num)
  split
  · rename_i hf0
    split
    · rename_i hneg
      simp only [List.cons_append, List.nil_append, List.append_assoc]
      rw [readFloatTok_cons_neg, readUnsignedFloatTok_int _ rest hdot]
      simp only [Option.map_some']
      congr 1
      have hsv := signed_val_eq n ((n.natAbs / 100 : ℕ) : ℚ) (by rw [hf0]; simp)
      rw [if_pos hneg] at hsv
      rw [← hsv]
    · rename_i hneg
      simp only [List.nil_append, List.append_assoc]
      obtain ⟨c, hh, hc⟩ := natToDigitChars_head_digit (n.natAbs / 100) rest
      rw [readFloatTok_of_digits_head _ c hh hc,
        readUnsignedFloatTok_int _ rest hdot]
      congr 1
      have hsv := signed_val_eq n ((n.natAbs / 100 : ℕ) : ℚ) (by rw [hf0]; simp)
      rw [if_neg hneg] at hsv
      rw [← hsv]
  · split
    · rename_i hne0 hf10
      have hfr := readUnsignedFloatTok_frac (n.natAbs / 100)
        [Nat.digitChar (n.natAbs % 100 / 10)] rest
        (by
          intro x hx
          simp only [List.mem_singleton] at hx
          subst hx
          exact (digitChar_facts _ (by omega)).1) hdig
      simp only [List.cons_append, List.nil_append, List.length_singleton,
        pow_one] at hfr
      rw [digitsVal_one, (digitChar_facts _ (by omega)).2] at hfr
      have hxval : ((n.natAbs / 100 : ℕ) : ℚ) + ((n.natAbs % 100 / 10 : ℕ) : ℚ) / 10 =
          ((n.natAbs / 100 : ℕ) : ℚ) + ((n.natAbs % 100 : ℕ) : ℚ) / 100 := by
        congr 1
        rw [div_eq_div_iff (by norm_num : (10:ℚ) ≠ 0) (by norm_num : (100:ℚ) ≠ 0)]
        exact_mod_cast (by omega : (n.natAbs % 100 / 10) * 100 = (n.natAbs % 100) * 10)
      split
      · rename_i hneg
        simp only [List.cons_append, List.nil_append, List.append_assoc]
        rw [readFloatTok_cons_neg, hfr]
        simp only [Option.map_some']
        congr 1
        have hsv := signed_val_eq n _ hxval
        rw [if_pos hneg] at hsv
        rw [← hsv]
      · rename_i hneg
        simp only [List.cons_append, List.nil_append, List.append_assoc]
        obtain ⟨c, hh, hc⟩ := natToDigitChars_head_digit (n.natAbs / 100)
          ('.' :: (Nat.digitChar (n.natAbs % 100 / 10) :: rest))
        rw [readFloatTok_of_digits_head _ c hh hc, hfr]
        congr 1
        have hsv := signed_val_eq n _ hxval
        rw [if_neg hneg] at hsv
        rw [← hsv]
    · split
      · rename_i hne0 hf10 hlt
        have hfr := readUnsignedFloatTok_frac (n.natAbs / 100)
          ['0', Nat.digitChar (n.natAbs % 100)] rest
          (by
            intro x hx
            rcases List.mem_cons.1 hx with rfl | hx
            · decide
            · simp only [List.mem_singleton] at hx
              subst hx
              exact (digitChar_facts _ hlt).1) hdig
        simp only [List.cons_append, List.nil_append] at hfr
        rw [digitsVal_two, (digitChar_facts _ hlt).2] at hfr
        have hdv0 : digitVal '0' = 0 := by decide
        rw [hdv0] at hfr
        have hxval : ((n.natAbs / 100 : ℕ) : ℚ) +
            ((10 * 0 + n.natAbs % 100 : ℕ) : ℚ) / (10 : ℚ) ^ (['0',
              Nat.digitChar (n.natAbs % 100)].length) =
            ((n.natAbs / 100 : ℕ) : ℚ) + ((n.natAbs % 100 : ℕ) : ℚ) / 100 := by
          norm_num
        split
        · rename_i hneg
          simp only [List.cons_append, List.nil_append, List.append_assoc]
          rw [readFloatTok_cons_neg, hfr]
          simp only [Option.map_some']
          congr 1
          have hsv := signed_val_eq n _ hxval
          rw [if_pos hneg] at hsv
          rw [← hsv]
        · rename_i hneg
          simp only [List.cons_append, List.nil_append, List.append_assoc]
          obtain ⟨c, hh, hc⟩ := natToDigitChars_head_digit (n.natAbs / 100)
            ('.' :: ('0' :: Nat.digitChar (n.natAbs % 100) :: rest))
          rw [readFloatTok_of_digits_head _ c hh hc, hfr]
          congr 1
          have hsv := signed_val_eq n _ hxval
          rw [if_neg hneg] at hsv
          rw [← hsv]
      · rename_i hne0 hf10 hge
        have hfr := readUnsignedFloatTok_frac (n.natAbs / 100)
          [Nat.digitChar (n.natAbs % 100 / 10), Nat.digitChar (n.natAbs % 100 % 10)]
          rest
          (by
            intro x hx
            rcases List.mem_cons.1 hx with rfl | hx
            · exact (digitChar_facts _ (by omega)).1
            · simp only [List.mem_singleton] at hx
              subst hx
              exact (digitChar_facts _ (by omega)).1) hdig
        simp only [List.cons_append, List.nil_append] at hfr
        rw [digitsVal_two, (digitChar_facts _ (by omega : n.natAbs % 100 / 10 < 10)).2,
          (digitChar_facts _ (by omega : n.natAbs % 100 % 10 < 10)).2] at hfr
        have hxval : ((n.natAbs / 100 : ℕ) : ℚ) +
            ((10 * (n.natAbs % 100 / 10) + n.natAbs % 100 % 10 : ℕ) : ℚ) /
              (10 : ℚ) ^ ([Nat.digitChar (n.natAbs % 100 / 10),
                Nat.digitChar (n.natAbs % 100 % 10)].length) =
            ((n.natAbs / 100 : ℕ) : ℚ) + ((n.natAbs % 100 : ℕ) : ℚ) / 100 := by
          have h1 : 10 * (n.natAbs % 100 / 10) + n.natAbs % 100 % 10 = n.natAbs % 100 := by
            omega
          rw [h1]
          norm_num
        split
        · rename_i hneg
          simp only [List.cons_append, List.nil_append, List.append_assoc]
          rw [readFloatTok_cons_neg, hfr]
          simp only [Option.map_some']
          congr 1
          have hsv := signed_val_eq n _ hxval
          rw [if_pos hneg] at hsv
          rw [← hsv]
        · rename_i hneg
          simp only [List.cons_append, List.nil_append, List.append_assoc]
          obtain ⟨c, hh, hc⟩ := natToDigitChars_head_digit (n.natAbs / 100)
            ('.' :: (Nat.digitChar (n.natAbs % 100 / 10) ::
              Nat.digitChar (n.natAbs % 100 % 10) :: rest))
          rw [readFloatTok_of_digits_head _ c hh hc, hfr]
          congr 1
          have hsv := signed_val_eq n _ hxval
          rw [if_neg hneg] at hsv
          rw [← hsv]

/-! ## Re-reading a serialized field line -/

theorem advanceFloat_eq (cs : Str) : advanceFloat cs = cs.dropWhile isNumChar := rfl

theorem advanceFloat_canon (tok rest : Str)
    (htok : ∀ c ∈ tok, isNumChar c = true)
    (hrest : ∀ y, rest.head? = some y → isNumChar y = false) :
    advanceFloat (tok ++ rest) = rest := by
  rw [advanceFloat_eq]
  exact (takeWhile_append_all isNumChar tok rest htok hrest).2

theorem intToChars_all_int (z : ℤ) :
    ∀ c ∈ intToChars z, (isDigitChar c ∨ c = '-' : Bool) = true := by
  intro c hc
  unfold intToChars at hc
  split at hc
  · rcases List.mem_cons.1 hc with rfl | hc
    · decide
    · simp [natToDigitChars_all _ c hc]
  · simp [natToDigitChars_all _ c hc]

theorem advanceInt_canon (z : ℤ) (rest : Str)
    (hrest : ∀ y, rest.head? = some y → isNumChar y = false) :
    advanceInt (intToChars z ++ rest) = rest := by
  unfold advanceInt
  refine (takeWhile_append_all _ (intToChars z) rest (intToChars_all_int z) ?_).2
  intro y hy
  have hp := isNumChar_false_parts y (hrest y hy)
  simp [hp.1, hp.2.2]

/-- One serialized field parses back per its conversion specifier. -/
theorem parseTok_canon (v : Val) (rest : Str)
    (hrest : ∀ y, rest.head? = some y → isNumChar y = false) :
    parseTok (kindOf v) (canonTok v ++ rest) = some (canonVal v) := by
  cases v with
  | i z =>
    simp only [kindOf, canonTok, canonVal, parseTok]
    rw [readIntTok_canon z rest hrest]
    rfl
  | f q =>
    simp only [kindOf, canonTok, canonVal, parseTok]
    rw [readFloatTok_canon q rest hrest]
    rfl

/-- The advance-past-substring loop consumes exactly one serialized
field. -/
theorem advanceTok_canon (v : Val) (rest : Str)
    (hrest : ∀ y, rest.head? = some y → isNumChar y = false) :
    advanceTok (kindOf v) (canonTok v ++ rest) = rest := by
  cases v with
  | i z =>
    simp only [kindOf, canonTok, advanceTok]
    exact advanceInt_canon z rest hrest
  | f q =>
    simp only [kindOf, canonTok, advanceTok]
    exact advanceFloat_canon _ rest (formatFloat2_all q) hrest

/-- The delimiter skip crosses one separating space to the next token. -/
theorem skipDelims_space (fuel : ℕ) (c : Char) (cs : Str) (b : List Str)
    (pos : ℕ) (hc : isDelim c = false) :
    skipDelims fuel (' ' :: c :: cs) b pos = some (c :: cs, pos) := by
  cases fuel with
  | zero =>
    unfold skipDelims
    rw [List.dropWhile_cons_of_pos (by decide),
      List.dropWhile_cons_of_neg (by simp [hc])]
  | succ fuel =>
    unfold skipDelims
    rw [List.dropWhile_cons_of_pos (by decide),
      List.dropWhile_cons_of_neg (by simp [hc])]

theorem joinSp_cons_shape (v : Val) (ts : List Str) :
    ∃ c cs, joinSp (canonTok v :: ts) = c :: cs ∧ isNumChar c = true := by
  cases hv : canonTok v with
  | nil => exact absurd hv (canonTok_ne_nil v)
  | cons d ds =>
    have hd : isNumChar d = true := canonTok_all v d (hv ▸ List.mem_cons_self d ds)
    cases ts with
    | nil => exact ⟨d, ds, rfl, hd⟩
    | cons t2 ts2 => exact ⟨d, ds ++ ' ' :: joinSp (t2 :: ts2), rfl, hd⟩

/-- The per-specifier loop over one serialized field line recovers every
value (integers exactly, floats quantized). -/
theorem tokLoop_canon : ∀ (vs : List Val) (v : Val) (b : List Str) (pos : ℕ)
    (acc : List Val),
    tokLoop (kindOf v) (vs.map kindOf) (joinSp ((v :: vs).map canonTok)) b pos acc =
      some (acc ++ (v :: vs).map canonVal, pos) := by
  intro vs
  induction vs with
  | nil =>
    intro v b pos acc
    simp only [List.map_cons, List.map_nil]
    have hj : joinSp [canonTok v] = canonTok v ++ [] := by simp [joinSp]
    rw [hj]
    unfold tokLoop
    rw [parseTok_canon v [] (fun y hy => by simp at hy)]
  | cons v2 vs ih =>
    intro v b pos acc
    simp only [List.map_cons]
    rw [joinSp_cons_cons]
    have hsp : ∀ y, (' ' :: joinSp (canonTok v2 :: vs.map canonTok)).head? = some y →
        isNumChar y = false := by
      intro y hy
      simp only [List.head?_cons, Option.some.injEq] at hy
      subst hy
      decide
    unfold tokLoop
    rw [parseTok_canon v _ hsp, advanceTok_canon v _ hsp]
    obtain ⟨c, cs2, hshape, hcnum⟩ := joinSp_cons_shape v2 (vs.map canonTok)
    rw [hshape, skipDelims_space _ c cs2 b pos (isNumChar_facts c hcnum).1, ← hshape]
    have hrec := ih v2 b pos (acc ++ [canonVal v])
    simp only [List.map_cons] at hrec
    show tokLoop (kindOf v2) (vs.map kindOf) (joinSp (canonTok v2 :: vs.map canonTok))
        b pos (acc ++ [canonVal v]) = some (acc ++ canonVal v :: canonVal v2 ::
          vs.map canonVal, pos)
    rw [hrec]
    simp

/-! ## Re-reading serialized lines -/

theorem ie_get_line_at (b : List Str) (pos : ℕ) (hpos : pos < b.length) :
    ie_get_line ⟨b, pos⟩ = (stripCR (b.getD pos []), ⟨b, pos + 1⟩) := by
  unfold ie_get_line
  dsimp only
  rw [dif_pos hpos, List.getD_eq_getElem _ _ hpos]
  rfl

theorem canonLine_all (vs : List Val) :
    ∀ c ∈ joinSp (vs.map canonTok), (isNumChar c ∨ c = ' ' : Bool) = true := by
  refine joinSp_all _ (by decide) _ ?_
  intro t ht c hc
  rw [List.mem_map] at ht
  obtain ⟨v, hv, rfl⟩ := ht
  simp [canonTok_all v c hc]

theorem canonLine_no_cr (vs : List Val) :
    stripCR (joinSp (vs.map canonTok)) = joinSp (vs.map canonTok) := by
  apply stripCR_of_no_cr
  intro c hc
  have hq := canonLine_all vs c hc
  rcases (by simpa using hq : isNumChar c = true ∨ c = ' ') with h | rfl
  · exact (isNumChar_facts c h).2.2
  · decide

/-- `ie_populate_list` on a stream positioned at a serialized field line
recovers the values and advances one line. -/
theorem ie_populate_list_canon (v : Val) (vs : List Val) (b : List Str) (pos : ℕ)
    (hpos : pos < b.length)
    (hline : b.getD pos [] = joinSp ((v :: vs).map canonTok)) :
    ie_populate_list ((v :: vs).map kindOf) ⟨b, pos⟩ =
      some ((v :: vs).map canonVal, ⟨b, pos + 1⟩) := by
  unfold ie_populate_list
  rw [ie_get_line_at b pos hpos]
  dsimp only
  simp only [List.map_cons] at hline ⊢
  have hcr := canonLine_no_cr (v :: vs)
  simp only [List.map_cons] at hcr
  rw [hline, hcr,
    if_neg (joinSp_ne_nil (canonTok v) (vs.map canonTok) (canonTok_ne_nil v))]
  obtain ⟨c, cs2, hshape, hcnum⟩ := joinSp_cons_shape v (vs.map canonTok)
  rw [hshape, skipLeadingWs,
    if_neg (by simp [(isNumChar_facts c hcnum).2.1])]
  show (match tokLoop (kindOf v) (vs.map kindOf) (c :: cs2) b (pos + 1) [] with
    | none => none
    | some (vals, pos') => some (vals, (⟨b, pos'⟩ : MStream))) = _
  rw [← hshape]
  have htl := tokLoop_canon vs v b (pos + 1) []
  simp only [List.map_cons] at htl
  rw [htl]
  simp

theorem map_f_canonTok (qs : List ℚ) :
    (qs.map Val.f).map canonTok = qs.map formatFloat2 := by
  rw [List.map_map]
  rfl

theorem floatLine_no_cr (qs : List ℚ) :
    stripCR (joinSp (qs.map formatFloat2)) = joinSp (qs.map formatFloat2) := by
  rw [← map_f_canonTok]
  exact canonLine_no_cr _

/-- Setting the element at `i` and taking `i + 1` elements appends the
new element to the unchanged prefix. -/
theorem take_set_succ (l : List ℚ) (i : ℕ) (x : ℚ) (h : i < l.length) :
    (l.set i x).take (i + 1) = l.take i ++ [x] := by
  have h1 : (l.take i).length = i := by rw [List.length_take]; omega
  rw [List.set_eq_take_cons_drop x h,
    show i + 1 = (l.take i).length + 1 by rw [h1],
    List.take_append]
  simp

/-- The element loop of `ie_populate_array` over one serialized array
line stores the quantized values in order and succeeds. -/
theorem arrLoop_canon : ∀ (qs : List ℚ) (q : ℚ) (fuel i size : ℕ) (arr : List ℚ)
    (b : List Str) (pos : ℕ) (ws : List ℕ),
    size = i + qs.length + 1 →
    arr.length = size →
    qs.length < fuel →
    (arrLoop fuel i size arr (joinSp ((q :: qs).map formatFloat2)) b pos ws).1 =
      ARes.ok (arr.take i ++ (q :: qs).map round2) pos := by
  intro qs
  induction qs with
  | nil =>
    intro q fuel i size arr b pos ws hsize harr hfuel
    simp only [List.length_nil] at hsize
    cases fuel with
    | zero => omega
    | succ fuel =>
      unfold arrLoop
      simp only [List.map_cons, List.map_nil]
      have hj : joinSp [formatFloat2 q] = formatFloat2 q ++ [] := by simp [joinSp]
      rw [hj, readFloatTok_canon q [] (fun y hy => by simp at hy)]
      show ((if i + 1 = size then (ARes.ok (arr.set i (round2 q)) pos, ws ++ [i])
        else match skipDelims (b.length + 1) (advanceFloat (formatFloat2 q ++ [])) b pos with
          | none => (ARes.fail, ws ++ [i])
          | some (cs2, pos2) =>
            arrLoop fuel (i + 1) size (arr.set i (round2 q)) cs2 b pos2 (ws ++ [i])).1) = _
      rw [if_pos (by omega : i + 1 = size)]
      dsimp only
      rw [List.set_eq_take_cons_drop _ (by omega : i < arr.length)]
      have hd : arr.drop (i + 1) = [] := by
        apply List.drop_eq_nil_of_le
        omega
      rw [hd]
  | cons q2 qs ih =>
    intro q fuel i size arr b pos ws hsize harr hfuel
    simp only [List.length_cons] at hsize hfuel
    cases fuel with
    | zero => omega
    | succ fuel =>
      unfold arrLoop
      simp only [List.map_cons]
      rw [joinSp_cons_cons]
      have hsp : ∀ y, (' ' :: joinSp (formatFloat2 q2 :: qs.map formatFloat2)).head? =
          some y → isNumChar y = false := by
        intro y hy
        simp only [List.head?_cons, Option.some.injEq] at hy
        subst hy
        decide
      rw [readFloatTok_canon q _ hsp]
      show ((if i + 1 = size then (ARes.ok (arr.set i (round2 q)) pos, ws ++ [i])
        else match skipDelims (b.length + 1) (advanceFloat (formatFloat2 q ++
            ' ' :: joinSp (formatFloat2 q2 :: qs.map formatFloat2))) b pos with
          | none => (ARes.fail, ws ++ [i])
          | some (cs2, pos2) =>
            arrLoop fuel (i + 1) size (arr.set i (round2 q)) cs2 b pos2 (ws ++ [i])).1) = _
      rw [if_neg (by omega : ¬i + 1 = size),
        advanceFloat_canon (formatFloat2 q) _ (formatFloat2_all q) hsp]
      have hsh := joinSp_cons_shape (Val.f q2) (qs.map formatFloat2)
      simp only [canonTok] at hsh
      obtain ⟨c, cs2, hshape, hcnum⟩ := hsh
      rw [hshape, skipDelims_space _ c cs2 b pos (isNumChar_facts c hcnum).1]
      show (arrLoop fuel (i + 1) size (arr.set i (round2 q)) (c :: cs2) b pos
        (ws ++ [i])).1 = _
      rw [← hshape]
      have hrec := ih q2 fuel (i + 1) size (arr.set i (round2 q)) b pos (ws ++ [i])
        (by omega) (by rw [List.length_set]; omega) (by omega)
      simp only [List.map_cons] at hrec
      rw [hrec, take_set_succ arr i (round2 q) (by omega)]
      simp

/-- `ie_populate_array` with the exact element count on a stream
positioned at a serialized array line returns the quantized values and
advances one line. -/
theorem ie_populate_array_canon (q : ℚ) (qs : List ℚ) (b : List Str) (pos : ℕ)
    (hpos : pos < b.length)
    (hline : b.getD pos [] = joinSp ((q :: qs).map formatFloat2)) :
    (ie_populate_array ⟨b, pos⟩ (((q :: qs).length : ℕ) : ℤ)).1 =
      ARes.ok ((q :: qs).map round2) (pos + 1) := by
  unfold ie_populate_array
  rw [ie_get_line_at b pos hpos]
  dsimp only
  rw [hline, floatLine_no_cr (q :: qs)]
  have hnn : joinSp ((q :: qs).map formatFloat2) ≠ [] := by
    simp only [List.map_cons]
    exact joinSp_ne_nil _ _ (formatFloat2_ne_nil q)
  rw [if_neg hnn]
  have hsh := joinSp_cons_shape (Val.f q) (qs.map formatFloat2)
  simp only [canonTok] at hsh
  obtain ⟨c, cs2, hshape, hcnum⟩ := hsh
  have hshape' : joinSp (List.map formatFloat2 (q :: qs)) = c :: cs2 := hshape
  rw [hshape', skipLeadingWs,
    if_neg (by simp [(isNumChar_facts c hcnum).2.1])]
  show (if (((q :: qs).length : ℕ) : ℤ) < 0 then (ARes.fail, [])
    else arrLoop ((((q :: qs).length : ℕ) : ℤ).toNat + 1) 0
      ((((q :: qs).length : ℕ) : ℤ)).toNat
      (List.replicate ((((q :: qs).length : ℕ) : ℤ)).toNat 0) (c :: cs2) b (pos + 1) []).1 = _
  rw [if_neg (not_lt.2 (Int.natCast_nonneg _)), Int.toNat_natCast, ← hshape']
  have hrec := arrLoop_canon qs q ((q :: qs).length + 1) 0 (q :: qs).length
    (List.replicate (q :: qs).length 0) b (pos + 1) []
    (by simp only [List.length_cons]; omega) (by rw [List.length_replicate])
    (by simp only [List.length_cons]; omega)
  simp only [List.map_cons] at hrec ⊢
  rw [hrec]
  simp

/-! ## Label loop, tilt section and candela rows on a serialized buffer -/

theorem getD_append_right_k (pre l2 : List Str) (k : ℕ) :
    (pre ++ l2).getD (pre.length + k) [] = l2.getD k [] := by
  rw [List.getD_append_right _ _ _ _ (Nat.le_add_right _ _)]
  congr 1
  omega

theorem intToChars_no_cr (z : ℤ) : stripCR (intToChars z) = intToChars z :=
  stripCR_of_no_cr _ (fun c hc => (isNumChar_facts c (intToChars_all z c hc)).2.2)

/-- The label loop over serialized labels followed by the TILT line
collects exactly the labels and stops after the TILT line. -/
theorem labelLoop_canon : ∀ (labels : List Str) (fuel : ℕ) (pre post : List Str)
    (ts : Str) (acc : List Str),
    labels.length < fuel →
    (∀ l ∈ labels, l ≠ [] ∧ l.take 5 ≠ "TILT=".data ∧ stripCR l = l) →
    stripCR ("TILT=".data ++ ts) = "TILT=".data ++ ts →
    labelLoop fuel (pre ++ (labels ++ ("TILT=".data ++ ts) :: post)) pre.length acc =
      some (acc ++ labels, ts, pre.length + labels.length + 1) := by
  intro labels
  induction labels with
  | nil =>
    intro fuel pre post ts acc hfuel hlab hts
    cases fuel with
    | zero => omega
    | succ fuel =>
      unfold labelLoop
      have hlen : pre.length <
          (pre ++ (([] : List Str) ++ ("TILT=".data ++ ts) :: post)).length := by
        simp
      rw [dif_pos hlen]
      have hget : (pre ++ (([] : List Str) ++ ("TILT=".data ++ ts) :: post)).get
          ⟨pre.length, hlen⟩ = "TILT=".data ++ ts := by
        simp [List.get_eq_getElem, List.getElem_append_right (le_refl pre.length)]
      rw [hget, hts, if_neg (by simp), if_pos ?htake]
      case htake =>
        rw [show (5 : ℕ) = ("TILT=".data).length from rfl, List.take_left]
      rw [show (5 : ℕ) = ("TILT=".data).length from rfl, List.drop_left]
      simp
  | cons l labels ih =>
    intro fuel pre post ts acc hfuel hlab hts
    simp only [List.length_cons] at hfuel
    cases fuel with
    | zero => omega
    | succ fuel =>
      unfold labelLoop
      have hl := hlab l (List.mem_cons_self l labels)
      have hlen : pre.length <
          (pre ++ ((l :: labels) ++ ("TILT=".data ++ ts) :: post)).length := by
        simp
      rw [dif_pos hlen]
      have hget : (pre ++ ((l :: labels) ++ ("TILT=".data ++ ts) :: post)).get
          ⟨pre.length, hlen⟩ = l := by
        simp [List.get_eq_getElem, List.getElem_append_right (le_refl pre.length)]
      rw [hget, hl.2.2, if_neg hl.1, if_neg hl.2.1]
      have harr : pre ++ ((l :: labels) ++ ("TILT=".data ++ ts) :: post) =
          (pre ++ [l]) ++ (labels ++ ("TILT=".data ++ ts) :: post) := by
        simp
      rw [harr, show pre.length + 1 = (pre ++ [l]).length by simp]
      rw [ih fuel (pre ++ [l]) post ts (acc ++ [l]) (by omega)
        (fun x hx => hlab x (List.mem_cons_of_mem l hx)) hts]
      simp only [List.append_assoc, List.singleton_append, List.length_append,
        List.length_singleton, List.length_cons, List.length_nil, Prod.mk.injEq,
        Option.some.injEq]
      exact ⟨by trivial, by trivial, by omega⟩

/-- `ie_read_tilt` on a serialized INCLUDE tilt payload recovers the
orientation, the pair count and the quantized arrays. -/
theorem ie_read_tilt_canon (o np : ℤ) (angles mult : List ℚ) (b : List Str)
    (pos : ℕ)
    (h0 : pos < b.length) (l0 : b.getD pos [] = intToChars o)
    (h1 : pos + 1 < b.length) (l1 : b.getD (pos + 1) [] = intToChars np)
    (hpos3 : 0 < np → (pos + 2 < b.length ∧
      b.getD (pos + 2) [] = joinSp (angles.map formatFloat2) ∧
      pos + 3 < b.length ∧
      b.getD (pos + 3) [] = joinSp (mult.map formatFloat2) ∧
      (angles.length : ℤ) = np ∧ (mult.length : ℤ) = np))
    (hneg : np ≤ 0 → angles = [] ∧ mult = []) :
    ie_read_tilt ⟨b, pos⟩ = .ok (⟨o, np, angles.map round2, mult.map round2⟩,
      ⟨b, pos + (if 0 < np then 4 else 2)⟩) := by
  unfold ie_read_tilt
  rw [ie_get_line_at b pos h0]
  dsimp only
  rw [l0, intToChars_no_cr o, if_neg (intToChars_ne_nil o), stoiM_canon o]
  show ie_read_tilt2 o ⟨b, pos + 1⟩ = _
  unfold ie_read_tilt2
  rw [ie_get_line_at b (pos + 1) h1]
  dsimp only
  rw [l1, intToChars_no_cr np, if_neg (intToChars_ne_nil np), stoiM_canon np]
  show (if 0 < np then
      match (ie_populate_array ⟨b, pos + 1 + 1⟩ np).1 with
      | .thrown => PRes.thrown
      | .fail => PRes.fail
      | .ok a pos3 =>
        match (ie_populate_array ⟨b, pos3⟩ np).1 with
        | .thrown => PRes.thrown
        | .fail => PRes.fail
        | .ok m pos4 =>
          PRes.ok ((⟨o, np, a, m⟩ : Tilt ℚ), (⟨b, pos4⟩ : MStream))
      else PRes.ok ((⟨o, np, [], []⟩ : Tilt ℚ), (⟨b, pos + 1 + 1⟩ : MStream))) = _
  by_cases hnp : 0 < np
  · obtain ⟨hb2, hl2, hb3, hl3, hla, hlm⟩ := hpos3 hnp
    rw [if_pos hnp]
    cases hac : angles with
    | nil => rw [hac] at hla; simp at hla; omega
    | cons a as =>
      cases hmc : mult with
      | nil => rw [hmc] at hlm; simp at hlm; omega
      | cons m ms =>
        rw [hac] at hla hl2
        rw [hmc] at hlm hl3
        have harr1 := ie_populate_array_canon a as b (pos + 2) hb2 hl2
        have harr2 := ie_populate_array_canon m ms b (pos + 3) hb3 hl3
        rw [show ((a :: as).length : ℤ) = np from hla] at harr1
        rw [show ((m :: ms).length : ℤ) = np from hlm] at harr2
        rw [show pos + 1 + 1 = pos + 2 by omega, harr1]
        show (match (ie_populate_array ⟨b, pos + 2 + 1⟩ np).1 with
          | .thrown => PRes.thrown
          | .fail => PRes.fail
          | .ok m pos4 =>
            PRes.ok ((⟨o, np, (a :: as).map round2, m⟩ : Tilt ℚ),
              (⟨b, pos4⟩ : MStream))) = _
        rw [show pos + 2 + 1 = pos + 3 by omega, harr2, if_pos hnp]
  · rw [if_neg hnp, if_neg hnp]
    obtain ⟨ha, hm⟩ := hneg (by omega)
    rw [ha, hm]
    rfl

theorem rowsLoop_canon : ∀ (rows : List (List ℚ)) (size : ℤ) (b : List Str)
    (pos : ℕ) (acc : List (List ℚ)),
    (∀ row ∈ rows, (row.length : ℤ) = size ∧ row ≠ []) →
    (∀ k, k < rows.length → pos + k < b.length ∧
      b.getD (pos + k) [] = joinSp ((rows.getD k []).map formatFloat2)) →
    rowsLoop rows.length size ⟨b, pos⟩ acc =
      .ok (acc ++ rows.map (fun r => r.map round2), ⟨b, pos + rows.length⟩) := by
  intro rows
  induction rows with
  | nil =>
    intro size b pos acc hrow hbuf
    simp only [List.length_nil]
    show PRes.ok (acc, (⟨b, pos⟩ : MStream)) = _
    simp
  | cons row rows ih =>
    intro size b pos acc hrow hbuf
    simp only [List.length_cons]
    obtain ⟨hb0, hl0⟩ := hbuf 0 (by simp)
    simp only [Nat.add_zero, List.getD_cons_zero] at hb0 hl0
    have hr := hrow row (List.mem_cons_self row rows)
    cases hrc : row with
    | nil => exact absurd hrc hr.2
    | cons r rs =>
      rw [hrc] at hl0 hr
      have harr := ie_populate_array_canon r rs b pos hb0 hl0
      rw [show ((r :: rs).length : ℤ) = size from hr.1] at harr
      unfold rowsLoop
      rw [harr]
      show rowsLoop rows.length size ⟨b, pos + 1⟩ (acc ++ [(r :: rs).map round2]) = _
      rw [ih size b (pos + 1) (acc ++ [(r :: rs).map round2])
        (fun x hx => hrow x (List.mem_cons_of_mem row hx))
        (fun k hk => by
          have hx := hbuf (k + 1) (by simp only [List.length_cons]; omega)
          rw [show pos + (k + 1) = pos + 1 + k by omega] at hx
          simpa using hx)]
      simp only [List.map_cons, PRes.ok.injEq, Prod.mk.injEq, MStream.mk.injEq]
      refine ⟨?_, by trivial, by omega⟩
      simp

/-! ## The serialized body parses back -/

theorem range_map_getD {α : Type} (l : List ℚ) (f : ℚ → α) :
    (List.range l.length).map (fun i => f (l.getD i 0)) = l.map f := by
  refine List.ext_getElem (by simp) ?_
  intro n h1 h2
  simp only [List.getElem_map, List.getElem_range]
  rw [List.getD_eq_getElem l 0 (by simpa using h2)]

/-- `parseBody` on a stream positioned at the serialized header line of a
record (with the body lines following) reconstructs the record up to
quantization. -/
theorem parseBody_canon (fmt : FileFormat) (name : Str) (labels : List Str)
    (ts : Str) (tilt : Tilt ℚ) (d : IE_Data ℚ) (b : List Str) (pos : ℕ)
    (hP : PhotoInv d.photo)
    (hb0 : pos < b.length) (hl0 : b.getD pos [] = headerLine d)
    (hb1 : pos + 1 < b.length) (hl1 : b.getD (pos + 1) [] = elecLine d)
    (hb2 : pos + 2 < b.length)
    (hl2 : b.getD (pos + 2) [] = joinSp (d.photo.vert_angles.map formatFloat2))
    (hb3 : pos + 3 < b.length)
    (hl3 : b.getD (pos + 3) [] = joinSp (d.photo.horz_angles.map formatFloat2))
    (hrows : ∀ k, k < d.photo.candelas.length → pos + 4 + k < b.length ∧
      b.getD (pos + 4 + k) [] = joinSp ((d.photo.candelas.getD k []).map formatFloat2)) :
    parseBody fmt name labels ts tilt ⟨b, pos⟩ =
      .ok ⟨⟨name, fmt⟩, labels,
        ⟨d.lamp.num_lamps, round2 d.lamp.lumens_lamp, round2 d.lamp.multiplier,
         ts, tilt⟩,
        d.units, ⟨round2 d.dim.width, round2 d.dim.length, round2 d.dim.height⟩,
        ⟨round2 d.elec.ball_factor, round2 d.elec.blp_factor,
         round2 d.elec.input_watts⟩,
        ⟨d.photo.gonio_type, d.photo.num_vert_angles, d.photo.num_horz_angles,
         d.photo.vert_angles.map round2, d.photo.horz_angles.map round2,
         d.photo.candelas.map (fun r => r.map round2)⟩⟩ := by
  obtain ⟨hnV, hnH, hvl, hhl, hcl, hrl⟩ := hP
  have hlist1 := ie_populate_list_canon (.i d.lamp.num_lamps)
    [.f d.lamp.lumens_lamp, .f d.lamp.multiplier, .i d.photo.num_vert_angles,
     .i d.photo.num_horz_angles, .i d.photo.gonio_type, .i d.units,
     .f d.dim.width, .f d.dim.length, .f d.dim.height] b pos hb0
    (by rw [hl0]; rfl)
  have hlist1' : ie_populate_list fmt10 ⟨b, pos⟩ =
      some ([.i d.lamp.num_lamps, .f (round2 d.lamp.lumens_lamp),
        .f (round2 d.lamp.multiplier), .i d.photo.num_vert_angles,
        .i d.photo.num_horz_angles, .i d.photo.gonio_type, .i d.units,
        .f (round2 d.dim.width), .f (round2 d.dim.length),
        .f (round2 d.dim.height)], ⟨b, pos + 1⟩) := hlist1
  unfold parseBody
  rw [hlist1']
  show parseBody2 fmt name labels ts tilt d.lamp.num_lamps
    (round2 d.lamp.lumens_lamp) (round2 d.lamp.multiplier)
    d.photo.num_vert_angles d.photo.num_horz_angles d.photo.gonio_type d.units
    (round2 d.dim.width) (round2 d.dim.length) (round2 d.dim.height)
    ⟨b, pos + 1⟩ = _
  have hlist2 := ie_populate_list_canon (.f d.elec.ball_factor)
    [.f d.elec.blp_factor, .f d.elec.input_watts] b (pos + 1) hb1
    (by rw [hl1]; rfl)
  have hlist2' : ie_populate_list fmt3 ⟨b, pos + 1⟩ =
      some ([.f (round2 d.elec.ball_factor), .f (round2 d.elec.blp_factor),
        .f (round2 d.elec.input_watts)], ⟨b, pos + 1 + 1⟩) := hlist2
  unfold parseBody2
  rw [hlist2']
  cases hv : d.photo.vert_angles with
  | nil => rw [hv] at hvl; simp at hvl; omega
  | cons v0 vrest =>
    cases hh : d.photo.horz_angles with
    | nil => rw [hh] at hhl; simp at hhl; omega
    | cons h0 hrest =>
      rw [hv] at hl2 hvl
      rw [hh] at hl3 hhl
      have hva := ie_populate_array_canon v0 vrest b (pos + 2) hb2 hl2
      rw [show (((v0 :: vrest).length : ℕ) : ℤ) = d.photo.num_vert_angles
        from hvl] at hva
      have hha := ie_populate_array_canon h0 hrest b (pos + 3) hb3 hl3
      rw [show (((h0 :: hrest).length : ℕ) : ℤ) = d.photo.num_horz_angles
        from hhl] at hha
      show ((match (ie_populate_array ⟨b, pos + 1 + 1⟩ d.photo.num_vert_angles).1 with
        | .thrown => PRes.thrown
        | .fail => PRes.fail
        | .ok vert_angles pos7 =>
          match (ie_populate_array ⟨b, pos7⟩ d.photo.num_horz_angles).1 with
          | .thrown => PRes.thrown
          | .fail => PRes.fail
          | .ok horz_angles pos8 =>
            match rowsLoop d.photo.num_horz_angles.toNat d.photo.num_vert_angles
                ⟨b, pos8⟩ [] with
            | .thrown => PRes.thrown
            | .fail => PRes.fail
            | .ok cnd =>
              PRes.ok ⟨⟨name, fmt⟩, labels,
                ⟨d.lamp.num_lamps, round2 d.lamp.lumens_lamp,
                 round2 d.lamp.multiplier, ts, tilt⟩,
                d.units,
                ⟨round2 d.dim.width, round2 d.dim.length, round2 d.dim.height⟩,
                ⟨round2 d.elec.ball_factor, round2 d.elec.blp_factor,
                 round2 d.elec.input_watts⟩,
                ⟨d.photo.gonio_type, d.photo.num_vert_angles,
                 d.photo.num_horz_angles, vert_angles, horz_angles, cnd.1⟩⟩) :
        PRes (IE_Data ℚ)) = _
      rw [show pos + 1 + 1 = pos + 2 by omega, hva]
      show ((match (ie_populate_array ⟨b, pos + 2 + 1⟩ d.photo.num_horz_angles).1 with
        | .thrown => PRes.thrown
        | .fail => PRes.fail
        | .ok horz_angles pos8 =>
          match rowsLoop d.photo.num_horz_angles.toNat d.photo.num_vert_angles
              ⟨b, pos8⟩ [] with
          | .thrown => PRes.thrown
          | .fail => PRes.fail
          | .ok cnd =>
            PRes.ok ⟨⟨name, fmt⟩, labels,
              ⟨d.lamp.num_lamps, round2 d.lamp.lumens_lamp,
               round2 d.lamp.multiplier, ts, tilt⟩,
              d.units,
              ⟨round2 d.dim.width, round2 d.dim.length, round2 d.dim.height⟩,
              ⟨round2 d.elec.ball_factor, round2 d.elec.blp_factor,
               round2 d.elec.input_watts⟩,
              ⟨d.photo.gonio_type, d.photo.num_vert_angles,
               d.photo.num_horz_angles, (v0 :: vrest).map round2, horz_angles,
               cnd.1⟩⟩) : PRes (IE_Data ℚ)) = _
      rw [show pos + 2 + 1 = pos + 3 by omega, hha]
      show ((match rowsLoop d.photo.num_horz_angles.toNat d.photo.num_vert_angles
            ⟨b, pos + 3 + 1⟩ [] with
        | .thrown => PRes.thrown
        | .fail => PRes.fail
        | .ok cnd =>
          PRes.ok ⟨⟨name, fmt⟩, labels,
            ⟨d.lamp.num_lamps, round2 d.lamp.lumens_lamp,
             round2 d.lamp.multiplier, ts, tilt⟩,
            d.units,
            ⟨round2 d.dim.width, round2 d.dim.length, round2 d.dim.height⟩,
            ⟨round2 d.elec.ball_factor, round2 d.elec.blp_factor,
             round2 d.elec.input_watts⟩,
            ⟨d.photo.gonio_type, d.photo.num_vert_angles,
             d.photo.num_horz_angles, (v0 :: vrest).map round2,
             (h0 :: hrest).map round2, cnd.1⟩⟩) : PRes (IE_Data ℚ)) = _
      have hrlc : rowsLoop d.photo.candelas.length d.photo.num_vert_angles
          ⟨b, pos + 3 + 1⟩ [] =
          .ok ([] ++ d.photo.candelas.map (fun r => r.map round2),
            ⟨b, pos + 3 + 1 + d.photo.candelas.length⟩) := by
        refine rowsLoop_canon d.photo.candelas d.photo.num_vert_angles b
          (pos + 3 + 1) [] ?_ ?_
        · intro row hrow
          refine ⟨hrl row hrow, ?_⟩
          have := hrl row hrow
          intro hnil
          rw [hnil] at this
          simp at this
          omega
        · intro k hk
          have := hrows k hk
          rw [show pos + 4 + k = pos + 3 + 1 + k by omega] at this
          exact this
      rw [show d.photo.num_horz_angles.toNat = d.photo.candelas.length
        by omega, hrlc]
      rfl

/-! ## Serialize-then-reparse, assembled -/

/-- Format detection on a serialized non-1986 buffer: the tag line is
recognized and consumed. -/
theorem convert_canon (env : Str → Option (List Str)) (name : Str)
    (fmt : FileFormat) (h86 : fmt ≠ .IESNA_86) (rest : List Str) :
    convert_stream_to_data env name (formatLine fmt :: rest) =
      parseAfterFormat env fmt name ⟨formatLine fmt :: rest, 1⟩ := by
  cases fmt with
  | IESNA_86 => exact absurd rfl h86
  | IESNA_95 =>
    unfold convert_stream_to_data
    rw [ie_get_line_cons]
    dsimp only
    rw [show stripCR (formatLine .IESNA_95) = tag95 from by decide,
      if_neg (by decide : ¬tag95 = ([] : Str)), if_pos rfl]
  | IESNA_02 =>
    unfold convert_stream_to_data
    rw [ie_get_line_cons]
    dsimp only
    rw [show stripCR (formatLine .IESNA_02) = tag02 from by decide,
      if_neg (by decide : ¬tag02 = ([] : Str)),
      if_neg (by decide : ¬tag02 = tag95), if_pos rfl]
  | IESNA_91 =>
    unfold convert_stream_to_data
    rw [ie_get_line_cons]
    dsimp only
    rw [show stripCR (formatLine .IESNA_91) = tag91 from by decide,
      if_neg (by decide : ¬tag91 = ([] : Str)),
      if_neg (by decide : ¬tag91 = tag95), if_neg (by decide : ¬tag91 = tag02),
      if_pos rfl]

/-- `parseBody` at the start of the serialized body section, for any
prefix of already-consumed lines. -/
theorem parseBody_at (fmt : FileFormat) (name : Str) (labels : List Str)
    (ts : Str) (tilt : Tilt ℚ) (d : IE_Data ℚ) (hP : PhotoInv d.photo)
    (pre : List Str) :
    parseBody fmt name labels ts tilt
      ⟨pre ++ (headerLine d :: elecLine d ::
        joinSp (d.photo.vert_angles.map formatFloat2) ::
        joinSp (d.photo.horz_angles.map formatFloat2) ::
        d.photo.candelas.map (fun row => joinSp (row.map formatFloat2))),
       pre.length⟩ =
      .ok ⟨⟨name, fmt⟩, labels,
        ⟨d.lamp.num_lamps, round2 d.lamp.lumens_lamp, round2 d.lamp.multiplier,
         ts, tilt⟩,
        d.units, ⟨round2 d.dim.width, round2 d.dim.length, round2 d.dim.height⟩,
        ⟨round2 d.elec.ball_factor, round2 d.elec.blp_factor,
         round2 d.elec.input_watts⟩,
        ⟨d.photo.gonio_type, d.photo.num_vert_angles, d.photo.num_horz_angles,
         d.photo.vert_angles.map round2, d.photo.horz_angles.map round2,
         d.photo.candelas.map (fun r => r.map round2)⟩⟩ := by
  have hcl := hP.2.2.2.2.1
  have hnH := hP.2.1
  have hcpos : 0 < d.photo.candelas.length := by omega
  refine parseBody_canon fmt name labels ts tilt d _ pre.length hP
    (by simp only [List.length_append, List.length_cons, List.length_map]; omega) ?_
    (by simp only [List.length_append, List.length_cons, List.length_map]; omega) ?_
    (by simp only [List.length_append, List.length_cons, List.length_map]; omega) ?_
    (by simp only [List.length_append, List.length_cons, List.length_map]; omega) ?_ ?_
  · rw [show pre.length = pre.length + 0 by omega, getD_append_right_k]
    rfl
  · rw [getD_append_right_k]
    rfl
  · rw [getD_append_right_k]
    rfl
  · rw [getD_append_right_k]
    rfl
  · intro k hk
    constructor
    · simp only [List.length_append, List.length_cons, List.length_map]
      omega
    · rw [show pre.length + 4 + k = pre.length + (k + 1 + 1 + 1 + 1) by omega,
        getD_append_right_k]
      simp only [List.getD_cons_succ]
      rw [List.getD_eq_getElem _ _ (by simpa using hk), List.getElem_map,
        List.getD_eq_getElem _ _ hk]

/-- Serialize-then-reparse for a record with the parse invariants: the
reparse succeeds and agrees with the quantized record. -/
theorem roundtrip_core (env : Str → Option (List Str)) (d : IE_Data ℚ)
    (hlab : ∀ l ∈ d.labels, l ≠ [] ∧ l.take 5 ≠ "TILT=".data)
    (hcr : ∀ l ∈ d.labels, l.getLast? ≠ some '\r')
    (hnone : d.lamp.tilt_fname = "NONE".data → d.lamp.tilt = Tilt.init ℚ)
    (htinv : d.lamp.tilt_fname ≠ "NONE".data → TiltInv d.lamp.tilt)
    (hP : PhotoInv d.photo)
    (h86 : d.file.format ≠ .IESNA_86)
    (hfn : d.lamp.tilt_fname = "NONE".data ∨ d.lamp.tilt_fname = "INCLUDE".data) :
    ∃ r2, convert_stream_to_data env []
        (formatLine d.file.format :: d.labels ++ tiltLines d.lamp ++
          [headerLine d] ++ [elecLine d] ++
          arrayLines d.photo.num_vert_angles d.photo.vert_angles ++
          arrayLines d.photo.num_horz_angles d.photo.horz_angles ++
          candelaLines d) = .ok r2 ∧
      beqNoName (quantData d) r2 = true := by
  have hnV := hP.1
  have hnH := hP.2.1
  have hvl := hP.2.2.1
  have hhl := hP.2.2.2.1
  have hcl := hP.2.2.2.2.1
  have hrl := hP.2.2.2.2.2
  have harrV : arrayLines d.photo.num_vert_angles d.photo.vert_angles =
      [joinSp (d.photo.vert_angles.map formatFloat2)] := by
    unfold arrayLines
    rw [if_neg (by omega), show d.photo.num_vert_angles.toNat =
      d.photo.vert_angles.length by omega, range_map_getD]
  have harrH : arrayLines d.photo.num_horz_angles d.photo.horz_angles =
      [joinSp (d.photo.horz_angles.map formatFloat2)] := by
    unfold arrayLines
    rw [if_neg (by omega), show d.photo.num_horz_angles.toNat =
      d.photo.horz_angles.length by omega, range_map_getD]
  have hcand : candelaLines d =
      d.photo.candelas.map (fun row => joinSp (row.map formatFloat2)) := by
    unfold candelaLines
    rw [if_neg (by omega), show d.photo.num_horz_angles.toNat =
      d.photo.candelas.length by omega]
    refine List.ext_getElem (by simp) ?_
    intro k h1 h2
    have hk : k < d.photo.candelas.length := by simpa using h2
    simp only [List.getElem_map, List.getElem_range]
    have hmem : d.photo.candelas[k] ∈ d.photo.candelas := List.getElem_mem _
    have hlen := hrl _ hmem
    rw [List.getD_eq_getElem _ _ hk,
      show d.photo.num_vert_angles.toNat = (d.photo.candelas[k]).length by omega,
      range_map_getD]
  have hlabgood : ∀ l ∈ d.labels, l ≠ [] ∧ l.take 5 ≠ "TILT=".data ∧
      stripCR l = l :=
    fun l hl => ⟨(hlab l hl).1, (hlab l hl).2, stripCR_of_getLast l (hcr l hl)⟩
  rcases hfn with hfnN | hfnI
  · -- TILT=NONE
    have htiltL : tiltLines d.lamp = [("TILT=".data ++ "NONE".data)] := by
      unfold tiltLines
      rw [if_pos hfnN, hfnN]
    refine ⟨⟨⟨[], d.file.format⟩, d.labels,
      ⟨d.lamp.num_lamps, round2 d.lamp.lumens_lamp, round2 d.lamp.multiplier,
       "NONE".data, Tilt.init ℚ⟩,
      d.units, ⟨round2 d.dim.width, round2 d.dim.length, round2 d.dim.height⟩,
      ⟨round2 d.elec.ball_factor, round2 d.elec.blp_factor,
       round2 d.elec.input_watts⟩,
      ⟨d.photo.gonio_type, d.photo.num_vert_angles, d.photo.num_horz_angles,
       d.photo.vert_angles.map round2, d.photo.horz_angles.map round2,
       d.photo.candelas.map (fun r => r.map round2)⟩⟩, ?_, ?_⟩
    · rw [htiltL, harrV, harrH, hcand]
      simp only [List.cons_append, List.nil_append, List.append_assoc]
      rw [show ('T' :: 'I' :: 'L' :: 'T' :: '=' :: 'N' :: 'O' :: 'N' :: 'E' ::
        ([] : Str)) = "TILT=".data ++ "NONE".data from rfl,
        convert_canon env [] d.file.format h86]
      generalize hpost : (headerLine d :: elecLine d ::
        joinSp (d.photo.vert_angles.map formatFloat2) ::
        joinSp (d.photo.horz_angles.map formatFloat2) ::
        d.photo.candelas.map (fun row => joinSp (row.map formatFloat2))) = POST
      unfold parseAfterFormat
      dsimp only
      rw [show formatLine d.file.format ::
          (d.labels ++ ("TILT=".data ++ "NONE".data) :: POST) =
          [formatLine d.file.format] ++
            (d.labels ++ ("TILT=".data ++ "NONE".data) :: POST) from rfl,
        show (1 : ℕ) = [formatLine d.file.format].length from rfl,
        labelLoop_canon d.labels _ [formatLine d.file.format] POST "NONE".data []
          (by simp only [List.length_append, List.length_cons,
            List.length_singleton]; omega)
          hlabgood (by decide)]
      show (match parseTiltSection env "NONE".data
          ⟨[formatLine d.file.format] ++
            (d.labels ++ ("TILT=".data ++ "NONE".data) :: POST),
           [formatLine d.file.format].length + d.labels.length + 1⟩ with
        | .thrown => PRes.thrown
        | .fail => PRes.fail
        | .ok t => parseBody d.file.format [] ([] ++ d.labels) "NONE".data
            t.1 t.2) = _
      rw [show parseTiltSection env "NONE".data
          ⟨[formatLine d.file.format] ++
            (d.labels ++ ("TILT=".data ++ "NONE".data) :: POST),
           [formatLine d.file.format].length + d.labels.length + 1⟩ =
          PRes.ok (Tilt.init ℚ,
            ⟨[formatLine d.file.format] ++
              (d.labels ++ ("TILT=".data ++ "NONE".data) :: POST),
             [formatLine d.file.format].length + d.labels.length + 1⟩) from by
        unfold parseTiltSection
        rw [if_neg (by simp)]]
      show parseBody d.file.format [] ([] ++ d.labels) "NONE".data (Tilt.init ℚ)
        ⟨[formatLine d.file.format] ++
          (d.labels ++ ("TILT=".data ++ "NONE".data) :: POST),
         [formatLine d.file.format].length + d.labels.length + 1⟩ = _
      rw [show [formatLine d.file.format] ++
          (d.labels ++ ("TILT=".data ++ "NONE".data) :: POST) =
          (formatLine d.file.format :: d.labels ++
            [("TILT=".data ++ "NONE".data)]) ++ POST by simp,
        show [formatLine d.file.format].length + d.labels.length + 1 =
          (formatLine d.file.format :: d.labels ++
            [("TILT=".data ++ "NONE".data)]).length by
          simp only [List.length_cons, List.length_append, List.length_singleton]
          omega,
        ← hpost, List.nil_append]
      exact parseBody_at d.file.format [] d.labels "NONE".data (Tilt.init ℚ) d hP _
    · have htilt0 := hnone hfnN
      simp [beqNoName, quantData, hfnN, htilt0, Tilt.init]
  · -- TILT=INCLUDE
    have hfne : d.lamp.tilt_fname ≠ "NONE".data := by rw [hfnI]; decide
    have hti := htinv hfne
    have htiltL : tiltLines d.lamp =
        ["TILT=INCLUDE".data, intToChars d.lamp.tilt.orientation,
         intToChars d.lamp.tilt.num_pairs] ++
        (if d.lamp.tilt.angles = [] then []
         else [joinSp (d.lamp.tilt.angles.map formatFloat2)]) ++
        (if d.lamp.tilt.mult_factors = [] then []
         else [joinSp (d.lamp.tilt.mult_factors.map formatFloat2)]) := by
      unfold tiltLines
      rw [if_neg hfne]
    refine ⟨⟨⟨[], d.file.format⟩, d.labels,
      ⟨d.lamp.num_lamps, round2 d.lamp.lumens_lamp, round2 d.lamp.multiplier,
       "INCLUDE".data, ⟨d.lamp.tilt.orientation, d.lamp.tilt.num_pairs,
         d.lamp.tilt.angles.map round2, d.lamp.tilt.mult_factors.map round2⟩⟩,
      d.units, ⟨round2 d.dim.width, round2 d.dim.length, round2 d.dim.height⟩,
      ⟨round2 d.elec.ball_factor, round2 d.elec.blp_factor,
       round2 d.elec.input_watts⟩,
      ⟨d.photo.gonio_type, d.photo.num_vert_angles, d.photo.num_horz_angles,
       d.photo.vert_angles.map round2, d.photo.horz_angles.map round2,
       d.photo.candelas.map (fun r => r.map round2)⟩⟩, ?_, ?_⟩
    · by_cases hnp : 0 < d.lamp.tilt.num_pairs
      · obtain ⟨hal, hml⟩ := hti.1 hnp
        have hane : d.lamp.tilt.angles ≠ [] := by
          intro h
          rw [h] at hal
          simp at hal
          omega
        have hmne : d.lamp.tilt.mult_factors ≠ [] := by
          intro h
          rw [h] at hml
          simp at hml
          omega
        rw [if_neg hane, if_neg hmne] at htiltL
        rw [htiltL, harrV, harrH, hcand]
        simp only [List.cons_append, List.nil_append, List.append_assoc]
        rw [show ('T' :: 'I' :: 'L' :: 'T' :: '=' :: 'I' :: 'N' :: 'C' :: 'L' ::
            'U' :: 'D' :: 'E' :: ([] : Str)) = "TILT=".data ++ "INCLUDE".data
            from rfl,
          convert_canon env [] d.file.format h86]
        generalize hpost : (headerLine d :: elecLine d ::
          joinSp (d.photo.vert_angles.map formatFloat2) ::
          joinSp (d.photo.horz_angles.map formatFloat2) ::
          d.photo.candelas.map (fun row => joinSp (row.map formatFloat2))) = POST
        unfold parseAfterFormat
        dsimp only
        rw [show formatLine d.file.format ::
            (d.labels ++ ("TILT=".data ++ "INCLUDE".data) ::
              intToChars d.lamp.tilt.orientation ::
              intToChars d.lamp.tilt.num_pairs ::
              joinSp (d.lamp.tilt.angles.map formatFloat2) ::
              joinSp (d.lamp.tilt.mult_factors.map formatFloat2) :: POST) =
            [formatLine d.file.format] ++
              (d.labels ++ ("TILT=".data ++ "INCLUDE".data) ::
                (intToChars d.lamp.tilt.orientation ::
                 intToChars d.lamp.tilt.num_pairs ::
                 joinSp (d.lamp.tilt.angles.map formatFloat2) ::
                 joinSp (d.lamp.tilt.mult_factors.map formatFloat2) :: POST))
            from rfl,
          show (1 : ℕ) = [formatLine d.file.format].length from rfl,
          labelLoop_canon d.labels _ [formatLine d.file.format] _ "INCLUDE".data []
            (by simp only [List.length_append, List.length_cons,
              List.length_singleton]; omega)
            hlabgood (by decide)]
        show (match parseTiltSection env "INCLUDE".data
            ⟨[formatLine d.file.format] ++
              (d.labels ++ ("TILT=".data ++ "INCLUDE".data) ::
                (intToChars d.lamp.tilt.orientation ::
                 intToChars d.lamp.tilt.num_pairs ::
                 joinSp (d.lamp.tilt.angles.map formatFloat2) ::
                 joinSp (d.lamp.tilt.mult_factors.map formatFloat2) :: POST)),
             [formatLine d.file.format].length + d.labels.length + 1⟩ with
          | .thrown => PRes.thrown
          | .fail => PRes.fail
          | .ok t => parseBody d.file.format [] ([] ++ d.labels) "INCLUDE".data
              t.1 t.2) = _
        have hpre2 : [formatLine d.file.format] ++
            (d.labels ++ ("TILT=".data ++ "INCLUDE".data) ::
              (intToChars d.lamp.tilt.orientation ::
               intToChars d.lamp.tilt.num_pairs ::
               joinSp (d.lamp.tilt.angles.map formatFloat2) ::
               joinSp (d.lamp.tilt.mult_factors.map formatFloat2) :: POST)) =
            (formatLine d.file.format :: d.labels ++
              [("TILT=".data ++ "INCLUDE".data)]) ++
              (intToChars d.lamp.tilt.orientation ::
               intToChars d.lamp.tilt.num_pairs ::
               joinSp (d.lamp.tilt.angles.map formatFloat2) ::
               joinSp (d.lamp.tilt.mult_factors.map formatFloat2) :: POST) := by
          simp
        have hpos2 : [formatLine d.file.format].length + d.labels.length + 1 =
            (formatLine d.file.format :: d.labels ++
              [("TILT=".data ++ "INCLUDE".data)]).length := by
          simp only [List.length_cons, List.length_append, List.length_singleton]
          omega
        rw [show parseTiltSection env "INCLUDE".data
            ⟨[formatLine d.file.format] ++
              (d.labels ++ ("TILT=".data ++ "INCLUDE".data) ::
                (intToChars d.lamp.tilt.orientation ::
                 intToChars d.lamp.tilt.num_pairs ::
                 joinSp (d.lamp.tilt.angles.map formatFloat2) ::
                 joinSp (d.lamp.tilt.mult_factors.map formatFloat2) :: POST)),
             [formatLine d.file.format].length + d.labels.length + 1⟩ =
            ie_read_tilt
            ⟨[formatLine d.file.format] ++
              (d.labels ++ ("TILT=".data ++ "INCLUDE".data) ::
                (intToChars d.lamp.tilt.orientation ::
                 intToChars d.lamp.tilt.num_pairs ::
                 joinSp (d.lamp.tilt.angles.map formatFloat2) ::
                 joinSp (d.lamp.tilt.mult_factors.map formatFloat2) :: POST)),
             [formatLine d.file.format].length + d.labels.length + 1⟩ from by
          unfold parseTiltSection
          rw [if_pos (by decide), if_neg (by simp)],
          hpre2, hpos2]
        rw [ie_read_tilt_canon d.lamp.tilt.orientation d.lamp.tilt.num_pairs
          d.lamp.tilt.angles d.lamp.tilt.mult_factors _ _
          (by simp only [List.length_append, List.length_cons,
            List.length_singleton]; omega)
          (by
            rw [show (formatLine d.file.format :: d.labels ++
                [("TILT=".data ++ "INCLUDE".data)]).length =
                (formatLine d.file.format :: d.labels ++
                  [("TILT=".data ++ "INCLUDE".data)]).length + 0 by omega,
              getD_append_right_k]
            rfl)
          (by simp only [List.length_append, List.length_cons,
            List.length_singleton]; omega)
          (by
            rw [show (formatLine d.file.format :: d.labels ++
                [("TILT=".data ++ "INCLUDE".data)]).length + 1 =
                (formatLine d.file.format :: d.labels ++
                  [("TILT=".data ++ "INCLUDE".data)]).length + (0 + 1) by omega,
              getD_append_right_k]
            simp only [List.getD_cons_succ, List.getD_cons_zero])
          (fun _ => ⟨by simp only [List.length_append, List.length_cons,
              List.length_singleton]; omega,
            by
              rw [show (formatLine d.file.format :: d.labels ++
                  [("TILT=".data ++ "INCLUDE".data)]).length + 2 =
                  (formatLine d.file.format :: d.labels ++
                    [("TILT=".data ++ "INCLUDE".data)]).length + (0 + 1 + 1)
                  by omega,
                getD_append_right_k]
              simp only [List.getD_cons_succ, List.getD_cons_zero],
            by simp only [List.length_append, List.length_cons,
              List.length_singleton]; omega,
            by
              rw [show (formatLine d.file.format :: d.labels ++
                  [("TILT=".data ++ "INCLUDE".data)]).length + 3 =
                  (formatLine d.file.format :: d.labels ++
                    [("TILT=".data ++ "INCLUDE".data)]).length + (0 + 1 + 1 + 1)
                  by omega,
                getD_append_right_k]
              simp only [List.getD_cons_succ, List.getD_cons_zero],
            hal, hml⟩)
          (fun h => absurd hnp (by omega)), if_pos hnp]
        show parseBody d.file.format [] ([] ++ d.labels) "INCLUDE".data
          ⟨d.lamp.tilt.orientation, d.lamp.tilt.num_pairs,
           d.lamp.tilt.angles.map round2, d.lamp.tilt.mult_factors.map round2⟩
          ⟨(formatLine d.file.format :: d.labels ++
              [("TILT=".data ++ "INCLUDE".data)]) ++
            (intToChars d.lamp.tilt.orientation ::
             intToChars d.lamp.tilt.num_pairs ::
             joinSp (d.lamp.tilt.angles.map formatFloat2) ::
             joinSp (d.lamp.tilt.mult_factors.map formatFloat2) :: POST),
           (formatLine d.file.format :: d.labels ++
             [("TILT=".data ++ "INCLUDE".data)]).length + 4⟩ = _
        rw [show (formatLine d.file.format :: d.labels ++
            [("TILT=".data ++ "INCLUDE".data)]) ++
            (intToChars d.lamp.tilt.orientation ::
             intToChars d.lamp.tilt.num_pairs ::
             joinSp (d.lamp.tilt.angles.map formatFloat2) ::
             joinSp (d.lamp.tilt.mult_factors.map formatFloat2) :: POST) =
            ((formatLine d.file.format :: d.labels ++
              [("TILT=".data ++ "INCLUDE".data)]) ++
             [intToChars d.lamp.tilt.orientation,
              intToChars d.lamp.tilt.num_pairs,
              joinSp (d.lamp.tilt.angles.map formatFloat2),
              joinSp (d.lamp.tilt.mult_factors.map formatFloat2)]) ++ POST
          by simp,
          show (formatLine d.file.format :: d.labels ++
            [("TILT=".data ++ "INCLUDE".data)]).length + 4 =
            ((formatLine d.file.format :: d.labels ++
              [("TILT=".data ++ "INCLUDE".data)]) ++
             [intToChars d.lamp.tilt.orientation,
              intToChars d.lamp.tilt.num_pairs,
              joinSp (d.lamp.tilt.angles.map formatFloat2),
              joinSp (d.lamp.tilt.mult_factors.map formatFloat2)]).length by
            simp only [List.length_append, List.length_cons,
              List.length_singleton, List.length_nil],
          ← hpost, List.nil_append]
        exact parseBody_at d.file.format [] d.labels "INCLUDE".data _ d hP _
      · obtain ⟨ha0, hm0⟩ := hti.2 (by omega)
        rw [if_pos ha0, if_pos hm0] at htiltL
        simp only [List.append_nil] at htiltL
        rw [htiltL, harrV, harrH, hcand]
        simp only [List.cons_append, List.nil_append, List.append_assoc]
        rw [show ('T' :: 'I' :: 'L' :: 'T' :: '=' :: 'I' :: 'N' :: 'C' :: 'L' ::
            'U' :: 'D' :: 'E' :: ([] : Str)) = "TILT=".data ++ "INCLUDE".data
            from rfl,
          convert_canon env [] d.file.format h86]
        generalize hpost : (headerLine d :: elecLine d ::
          joinSp (d.photo.vert_angles.map formatFloat2) ::
          joinSp (d.photo.horz_angles.map formatFloat2) ::
          d.photo.candelas.map (fun row => joinSp (row.map formatFloat2))) = POST
        unfold parseAfterFormat
        dsimp only
        rw [show formatLine d.file.format ::
            (d.labels ++ ("TILT=".data ++ "INCLUDE".data) ::
              intToChars d.lamp.tilt.orientation ::
              intToChars d.lamp.tilt.num_pairs :: POST) =
            [formatLine d.file.format] ++
              (d.labels ++ ("TILT=".data ++ "INCLUDE".data) ::
                (intToChars d.lamp.tilt.orientation ::
                 intToChars d.lamp.tilt.num_pairs :: POST))
            from rfl,
          show (1 : ℕ) = [formatLine d.file.format].length from rfl,
          labelLoop_canon d.labels _ [formatLine d.file.format] _ "INCLUDE".data []
            (by simp only [List.length_append, List.length_cons,
              List.length_singleton]; omega)
            hlabgood (by decide)]
        show (match parseTiltSection env "INCLUDE".data
            ⟨[formatLine d.file.format] ++
              (d.labels ++ ("TILT=".data ++ "INCLUDE".data) ::
                (intToChars d.lamp.tilt.orientation ::
                 intToChars d.lamp.tilt.num_pairs :: POST)),
             [formatLine d.file.format].length + d.labels.length + 1⟩ with
          | .thrown => PRes.thrown
          | .fail => PRes.fail
          | .ok t => parseBody d.file.format [] ([] ++ d.labels) "INCLUDE".data
              t.1 t.2) = _
        have hpre2 : [formatLine d.file.format] ++
            (d.labels ++ ("TILT=".data ++ "INCLUDE".data) ::
              (intToChars d.lamp.tilt.orientation ::
               intToChars d.lamp.tilt.num_pairs :: POST)) =
            (formatLine d.file.format :: d.labels ++
              [("TILT=".data ++ "INCLUDE".data)]) ++
              (intToChars d.lamp.tilt.orientation ::
               intToChars d.lamp.tilt.num_pairs :: POST) := by
          simp
        have hpos2 : [formatLine d.file.format].length + d.labels.length + 1 =
            (formatLine d.file.format :: d.labels ++
              [("TILT=".data ++ "INCLUDE".data)]).length := by
          simp only [List.length_cons, List.length_append, List.length_singleton]
          omega
        rw [show parseTiltSection env "INCLUDE".data
            ⟨[formatLine d.file.format] ++
              (d.labels ++ ("TILT=".data ++ "INCLUDE".data) ::
                (intToChars d.lamp.tilt.orientation ::
                 intToChars d.lamp.tilt.num_pairs :: POST)),
             [formatLine d.file.format].length + d.labels.length + 1⟩ =
            ie_read_tilt
            ⟨[formatLine d.file.format] ++
              (d.labels ++ ("TILT=".data ++ "INCLUDE".data) ::
                (intToChars d.lamp.tilt.orientation ::
                 intToChars d.lamp.tilt.num_pairs :: POST)),
             [formatLine d.file.format].length + d.labels.length + 1⟩ from by
          unfold parseTiltSection
          rw [if_pos (by decide), if_neg (by simp)],
          hpre2, hpos2]
        rw [ie_read_tilt_canon d.lamp.tilt.orientation d.lamp.tilt.num_pairs
          d.lamp.tilt.angles d.lamp.tilt.mult_factors _ _
          (by simp only [List.length_append, List.length_cons,
            List.length_singleton]; omega)
          (by
            rw [show (formatLine d.file.format :: d.labels ++
                [("TILT=".data ++ "INCLUDE".data)]).length =
                (formatLine d.file.format :: d.labels ++
                  [("TILT=".data ++ "INCLUDE".data)]).length + 0 by omega,
              getD_append_right_k]
            rfl)
          (by simp only [List.length_append, List.length_cons,
            List.length_singleton]; omega)
          (by
            rw [show (formatLine d.file.format :: d.labels ++
                [("TILT=".data ++ "INCLUDE".data)]).length + 1 =
                (formatLine d.file.format :: d.labels ++
                  [("TILT=".data ++ "INCLUDE".data)]).length + (0 + 1) by omega,
              getD_append_right_k]
            simp only [List.getD_cons_succ, List.getD_cons_zero])
          (fun h => absurd h hnp)
          (fun _ => ⟨ha0, hm0⟩), if_neg hnp]
        show parseBody d.file.format [] ([] ++ d.labels) "INCLUDE".data
          ⟨d.lamp.tilt.orientation, d.lamp.tilt.num_pairs,
           d.lamp.tilt.angles.map round2, d.lamp.tilt.mult_factors.map round2⟩
          ⟨(formatLine d.file.format :: d.labels ++
              [("TILT=".data ++ "INCLUDE".data)]) ++
            (intToChars d.lamp.tilt.orientation ::
             intToChars d.lamp.tilt.num_pairs :: POST),
           (formatLine d.file.format :: d.labels ++
             [("TILT=".data ++ "INCLUDE".data)]).length + 2⟩ = _
        rw [show (formatLine d.file.format :: d.labels ++
            [("TILT=".data ++ "INCLUDE".data)]) ++
            (intToChars d.lamp.tilt.orientation ::
             intToChars d.lamp.tilt.num_pairs :: POST) =
            ((formatLine d.file.format :: d.labels ++
              [("TILT=".data ++ "INCLUDE".data)]) ++
             [intToChars d.lamp.tilt.orientation,
              intToChars d.lamp.tilt.num_pairs]) ++ POST
          by simp,
          show (formatLine d.file.format :: d.labels ++
            [("TILT=".data ++ "INCLUDE".data)]).length + 2 =
            ((formatLine d.file.format :: d.labels ++
              [("TILT=".data ++ "INCLUDE".data)]) ++
             [intToChars d.lamp.tilt.orientation,
              intToChars d.lamp.tilt.num_pairs]).length by
            simp only [List.length_append, List.length_cons,
              List.length_singleton, List.length_nil],
          ← hpost, List.nil_append]
        exact parseBody_at d.file.format [] d.labels "INCLUDE".data _ d hP _
    · simp [beqNoName, quantData, hfnI]

unseal Rat.mul Rat.add Rat.inv in
/-- Claim C1 counterexample: the claim states that EVERY successfully
parsed byte buffer survives a serialize-reparse round trip up to the
serializer's 2-decimal quantization.  The LM-63-1986 document `doc86`
(no dialect tag line) parses successfully to `rec86`, but its
serialization starts with the tag line "IESNA86", which the parser does
not recognize: on reparse the whole buffer is reprocessed as an
LM-63-1986 document and "IESNA86" becomes an extra LABEL, so the
reparsed record differs and the round-trip check fails. -/
theorem C1_counterexample :
    convert_stream_to_data env0 [] doc86 = .ok rec86 ∧
    roundTripCheck env0 doc86 = false :=
  ⟨by decide, by decide⟩

/-- Claim C1 (amended): for every byte buffer that parses successfully
to a record whose dialect is NOT LM-63-1986, whose tilt reference is
"NONE" or "INCLUDE", and none of whose labels ends in a carriage-return
byte, serializing the record and parsing the resulting buffer again
succeeds and yields a record equal — per `IE_Data::operator==`, i.e.
including `lamp.tilt_fname` and excluding `file.name` — to the first
record with every float field quantized to the serializer's 2-decimal
formatting.  (An LM-63-1986 record serializes under the unrecognized
tag "IESNA86" and reparses with an extra label; an external tilt file
reference is written back as "TILT=INCLUDE", so the reparsed reference
string differs; a label ending in CR loses that byte on reparse.) -/
theorem C1_roundtrip (env : Str → Option (List Str)) (name : Str)
    (input : List Str) (r : IE_Data ℚ)
    (h : convert_stream_to_data env name input = .ok r)
    (hfmt : r.file.format ≠ .IESNA_86)
    (hfn : r.lamp.tilt_fname = "NONE".data ∨ r.lamp.tilt_fname = "INCLUDE".data)
    (hcr : ∀ l ∈ r.labels, l.getLast? ≠ some '\r') :
    ∃ buf r2, convert_data_to_buffer r = some buf ∧
      convert_stream_to_data env [] buf = .ok r2 ∧
      beqNoName (quantData r) r2 = true := by
  have hinv := convert_ok env name input r h
  obtain ⟨r2, hr2, hbeq⟩ := roundtrip_core env r hinv.2.1 hcr hinv.2.2.1
    hinv.2.2.2.1 hinv.2.2.2.2 hfmt hfn
  exact ⟨_, r2, rfl, hr2, hbeq⟩

unseal Rat.mul Rat.add Rat.inv in
/-- Witness for C1: the document `docNone` parses to `recNone`
(LM-63-2002, tilt reference "NONE", CR-free labels), and the amended
round-trip theorem applies to it. -/
theorem C1_roundtrip_witness :
    ∃ buf r2, convert_data_to_buffer recNone = some buf ∧
      convert_stream_to_data env0 [] buf = .ok r2 ∧
      beqNoName (quantData recNone) r2 = true :=
  C1_roundtrip env0 [] docNone recNone (by decide) (by decide)
    (Or.inl (by decide)) (by decide)

end IesRescale
